import Mathlib

/-!
# ECH tunnel: DNS HTTPS-record discovery, TLS/ECH configuration, dial retry, SOCKS5 and HTTP proxy, UDP relay

A shallow embedding of the client-side code of the tunnel
(`dns.go`, `tls.go`, `client.go`, `proxy.go`, `udp.go`) together with theorems about it.

Conventions of the embedding.

* A Go `[]byte` is a `List Nat`; where the numeric range of the bytes matters a
  theorem assumes `IsBytes`.  Go `int` is 64 bit and no offset in this code can
  reach that range, so offsets are `Nat`.
* A Go run-time panic (index or slice out of range) is the value `none` of the
  outer `Option` of a result.
* A Go `(string, error)` result is an `Except String String`.
* Loops whose only progress measure is a growing offset carry a fuel argument
  that is initialised with the length of the input; lemmas below show that this
  fuel is never exhausted before the loop condition fails.
-/

deriving instance DecidableEq for Except

namespace EchTunnel

/-! ## Go primitives -/

/-- Every element is a byte value. -/
def IsBytes (bs : List Nat) : Prop := ∀ b ∈ bs, b < 256

instance (bs : List Nat) : Decidable (IsBytes bs) := by
  unfold IsBytes; infer_instance

/-- Slice expression `data[lo:hi]`; out of range bounds are a run-time panic. -/
def goSlice (data : List Nat) (lo hi : Nat) : Option (List Nat) :=
  if lo ≤ hi ∧ hi ≤ data.length then some ((data.drop lo).take (hi - lo)) else none

/-- Big-endian 16 bit read, `binary.BigEndian.Uint16`; it panics on fewer than two bytes. -/
def beUint16 : List Nat → Option Nat
  | b0 :: b1 :: _ => some (b0 * 256 + b1)
  | _ => none

/-! ## `encoding/base64`, `StdEncoding` -/

/-- The alphabet of the standard encoding. -/
def encodeStd : List Char :=
  "ABCDEFGHIJKLMNOPQRSTUVWXYZabcdefghijklmnopqrstuvwxyz0123456789+/".toList

/-- The character of a 6 bit value. -/
def encChar (n : Nat) : Char := encodeStd.getD n 'A'

/-- The 6 bit value of a character of the alphabet, `none` for any other character
(the padding character included). -/
def decChar (c : Char) : Option Nat :=
  let i := encodeStd.indexOf c
  if i < 64 then some i else none

/-- Characters of `StdEncoding.EncodeToString`: three bytes give four characters, a
final group of one or two bytes is padded with `=`. -/
def stdEncodeChars : List Nat → List Char
  | [] => []
  | [a] => [encChar (a / 4), encChar (a % 4 * 16), '=', '=']
  | [a, b] => [encChar (a / 4), encChar (a % 4 * 16 + b / 16), encChar (b % 16 * 4), '=']
  | a :: b :: c :: rest =>
    encChar (a / 4) :: encChar (a % 4 * 16 + b / 16) :: encChar (b % 16 * 4 + c / 64)
      :: encChar (c % 64) :: stdEncodeChars rest

/-- The function `base64.StdEncoding.EncodeToString`. -/
def stdEncode (src : List Nat) : String := String.mk (stdEncodeChars src)

/-- Decoding of the quanta of four characters of a padded standard encoding (line breaks
already removed): padding is accepted in the last quantum only, as `xx==` or `xxx=`;
unused trailing bits are not checked, as in the non-strict decoder. -/
def decodeQuanta : List Char → Option (List Nat)
  | [] => some []
  | c0 :: c1 :: c2 :: c3 :: rest =>
    match decChar c0, decChar c1 with
    | some a, some b =>
      if c2 = '=' then
        if c3 = '=' ∧ rest = [] then some [(a * 4 + b / 16) % 256] else none
      else
        match decChar c2 with
        | none => none
        | some c =>
          if c3 = '=' then
            if rest = [] then some [(a * 4 + b / 16) % 256, (b * 16 + c / 4) % 256] else none
          else
            match decChar c3, decodeQuanta rest with
            | some d, some out =>
              some ((a * 4 + b / 16) % 256 :: (b * 16 + c / 4) % 256 :: (c * 64 + d) % 256 :: out)
            | _, _ => none
    | _, _ => none
  | _ => none

/-- The function `base64.StdEncoding.DecodeString`: carriage returns and line feeds are
ignored, any other malformed input is an error (`none`). -/
def stdDecode (s : String) : Option (List Nat) :=
  decodeQuanta (s.toList.filter (fun c => c ≠ '\r' ∧ c ≠ '\n'))

/-! ## `dns.go` -/

/-- How a call ends: it returns a value, it is ended by a run-time panic, or it is still
inside a retry loop when the modelled network rounds are used up. -/
inductive Run (α : Type) where
  | done (a : α)
  | panicked
  | looping
  deriving DecidableEq, Repr

/-- The DNS record type of HTTPS records. -/
def typeHTTPS : Nat := 65

/-- The loop `for offset < len(data) && data[offset] != 0 { offset += int(data[offset]) + 1 }`
that walks over length-prefixed labels. -/
def skipLabels : Nat → List Nat → Nat → Option Nat
  | 0, _, offset => some offset
  | fuel + 1, data, offset =>
    if offset < data.length then
      match data[offset]? with
      | none => none
      | some b => if b ≠ 0 then skipLabels fuel data (offset + b + 1) else some offset
    else some offset

/-- The SvcParams loop of `parseHTTPSRecord`, entered at `offset`. -/
def svcParamsLoop : Nat → List Nat → Nat → Option String
  | 0, _, _ => some ""
  | fuel + 1, data, offset =>
    if offset + 4 ≤ data.length then do
      let key ← (goSlice data offset (offset + 2)).bind beUint16
      let length ← (goSlice data (offset + 2) (offset + 4)).bind beUint16
      let offset := offset + 4
      if offset + length > data.length then some ""
      else do
        let value ← goSlice data offset (offset + length)
        let offset := offset + length
        if key = 5 then some (stdEncode value) else svcParamsLoop fuel data offset
    else some ""

/-- The function `parseHTTPSRecord`: only SvcParamKey 5 (the ECH configuration list) is
extracted, base64 encoded; the empty string says that there is none. -/
def parseHTTPSRecord (data : List Nat) : Option String :=
  if data.length < 2 then some ""
  else do
    -- skip the priority
    let offset := 2
    -- skip the target name
    let isRoot ← if offset < data.length then (data[offset]?).map (fun b => decide (b = 0))
                 else some false
    let offset ← if isRoot then some (offset + 1)
                 else (skipLabels data.length data offset).map (fun o => o + 1)
    svcParamsLoop data.length data offset

/-- The step of the answer loop that walks over the owner name of a record, which may be
compressed: two bytes when the first byte has both high bits set, else the label loop and
one more byte. -/
def skipOwnerName (response : List Nat) (offset : Nat) : Option Nat := do
  let b ← response[offset]?
  if b &&& 0xC0 = 0xC0 then some (offset + 2)
  else (skipLabels response.length response offset).map (fun o => o + 1)

/-- The answer loop of `parseDNSResponse`: `n` answers are still to be read and the next
one starts at `offset`. -/
def answersLoop : Nat → List Nat → Nat → Option (Except String String)
  | 0, _, _ => some (.ok "")
  | n + 1, response, offset =>
    if offset ≥ response.length then some (.ok "")
    else do
      let offset ← skipOwnerName response offset
      if offset + 10 > response.length then some (.ok "")
      else do
        let rrType ← (goSlice response offset (offset + 2)).bind beUint16
        let offset := offset + 8
        let dataLen ← (goSlice response offset (offset + 2)).bind beUint16
        let offset := offset + 2
        if offset + dataLen > response.length then some (.ok "")
        else do
          let data ← goSlice response offset (offset + dataLen)
          let offset := offset + dataLen
          if rrType = typeHTTPS then do
            let ech ← parseHTTPSRecord data
            if ech ≠ "" then some (.ok ech) else answersLoop n response offset
          else answersLoop n response offset

/-- The question-skipping step of `parseDNSResponse`: starting behind the 12 byte header
it walks over the labels of one name and then adds 5 for the terminating zero byte, the
type and the class.  The result is the offset at which the answers are read. -/
def skipQuestion (response : List Nat) : Option Nat :=
  (skipLabels response.length response 12).map (fun o => o + 5)

/-- The function `parseDNSResponse`. -/
def parseDNSResponse (response : List Nat) : Option (Except String String) :=
  if response.length < 12 then some (.error "响应长度无效")
  else do
    let ancount ← (goSlice response 6 8).bind beUint16
    if ancount = 0 then some (.error "未找到回答记录")
    else do
      let offset ← skipQuestion response
      answersLoop ancount response offset

/-- The function `buildDNSQuery`; `domain` is the byte content of the Go string and
`strings.Split(domain, ".")` is `List.splitOn` at the byte 46. -/
def buildDNSQuery (domain : List Nat) (qtype : Nat) : List Nat :=
  -- header: ID, flags of a standard query, QDCOUNT = 1, AN/NS/AR = 0
  let query := [0x00, 0x01] ++ [0x01, 0x00] ++ [0x00, 0x01] ++ [0x00, 0x00, 0x00, 0x00, 0x00, 0x00]
  -- QNAME
  let query := (domain.splitOn 46).foldl
    (fun query label => query ++ [label.length % 256] ++ label) query
  let query := query ++ [0x00]
  -- QTYPE/QCLASS
  let query := query ++ [qtype / 256 % 256, qtype % 256]
  query ++ [0x00, 0x01]

/-- What the network does during one iteration of the loop of `prepareECH`.

* `doh query` is the outcome of the HTTPS POST of `query` up to and including
  `io.ReadAll`: an error (request creation, transport, status other than 200, read) or
  the bytes of the response body.
* `udp dnsServer query` is the outcome of dialing the DNS server, writing `query` and
  reading once: an error, or the datagram that arrived. -/
structure DNSRound where
  doh : List Nat → Except String (List Nat)
  udp : String → List Nat → Except String (List Nat)

/-- The function `queryHTTPSRecordViaDoH`. -/
def queryHTTPSRecordViaDoH (net : DNSRound) (domain : List Nat) : Option (Except String String) :=
  let query := buildDNSQuery domain typeHTTPS
  match net.doh query with
  | .error e => some (.error e)
  | .ok response => parseDNSResponse response

/-- The function `queryHTTPSRecord`; the read buffer holds 4096 bytes, so that
`response[:n]` is at most the first 4096 bytes of the datagram. -/
def queryHTTPSRecord (net : DNSRound) (domain : List Nat) (dnsServer : String) :
    Option (Except String String) :=
  let query := buildDNSQuery domain typeHTTPS
  match net.udp dnsServer query with
  | .error e => some (.error e)
  | .ok datagram => parseDNSResponse (datagram.take 4096)

/-- How one iteration of the loop of `prepareECH` ends: it stores `raw` and returns, it
goes to the next iteration (`continue`), or it is ended by a run-time panic. -/
inductive RoundOutcome where
  | stored (raw : List Nat)
  | retry
  | panicked
  deriving DecidableEq, Repr

/-- The body of the loop of `prepareECH`: DoH first, on an error the plain DNS query;
an error of that, an empty string or a string that does not decode lead to the next
iteration (the sleeps are not modelled). -/
def prepareRound (echDomain : List Nat) (dnsServer : String) (net : DNSRound) : RoundOutcome :=
  match queryHTTPSRecordViaDoH net echDomain with
  | none => .panicked
  | some first =>
    let second :=
      match first with
      | .error _ => queryHTTPSRecord net echDomain dnsServer
      | .ok echBase64 => some (.ok echBase64)
    match second with
    | none => .panicked
    | some (.error _) => .retry
    | some (.ok echBase64) =>
      if echBase64 = "" then .retry
      else
        match stdDecode echBase64 with
        | none => .retry
        | some raw => .stored raw

/-- The function `prepareECH`, one list element per iteration of its loop.  The global
`echList` is passed in and out; the result pairs the returned `error` (`none` is `nil`)
with the cache, which only a storing iteration changes. -/
def prepareECH (echDomain : List Nat) (dnsServer : String) :
    List DNSRound → List Nat → Run (Option String × List Nat)
  | [], _ => .looping
  | net :: rounds, echList =>
    match prepareRound echDomain dnsServer net with
    | .stored raw => .done (none, raw)
    | .retry => prepareECH echDomain dnsServer rounds echList
    | .panicked => .panicked

/-- The function `getECHList`. -/
def getECHList (echList : List Nat) : Except String (List Nat) :=
  if echList.length = 0 then .error "ECH 配置尚未加载" else .ok echList

/-! ## `tls.go` -/

/-- The constant `tls.VersionTLS13`. -/
def VersionTLS13 : Nat := 0x0304

/-- The fields of `tls.Config` that `buildTLSConfigWithECH` sets.  `CS` is the type of
`tls.ConnectionState` and `Pool` the type of certificate pools; a callback that is `none`
is a nil function and an error that is `none` is a nil error. -/
structure TLSConfig (CS Pool : Type) where
  MinVersion : Nat
  ServerName : String
  EncryptedClientHelloConfigList : List Nat
  EncryptedClientHelloRejectionVerify : Option (CS → Option String)
  RootCAs : Pool

/-- The function `buildTLSConfigWithECH`; `systemCertPool` is the result of
`x509.SystemCertPool()`. -/
def buildTLSConfigWithECH {CS Pool : Type} (systemCertPool : Except String Pool)
    (serverName : String) (echList : List Nat) : Except String (TLSConfig CS Pool) :=
  match systemCertPool with
  | .error err => .error ("加载系统根证书失败: " ++ err)
  | .ok roots =>
    .ok { MinVersion := VersionTLS13
          ServerName := serverName
          EncryptedClientHelloConfigList := echList
          EncryptedClientHelloRejectionVerify := some (fun _ => some "服务器拒绝 ECH（禁止回退）")
          RootCAs := roots }

/-! ## `client.go`: `dialWebSocketWithECH` -/

/-- Result of `dialer.Dial`: a connection (identified by a number) or an error text. -/
inductive DialOutcome where
  | conn (id : Nat)
  | err (msg : String)
  deriving DecidableEq, Repr

/-- The observable steps of `dialWebSocketWithECH`. -/
inductive Event where
  /-- The call `dialer.Dial` of loop iteration `attempt`, made with a TLS configuration
  that carries `echList`, and its outcome. -/
  | dial (attempt : Int) (echList : List Nat) (out : DialOutcome)
  /-- A call of `refreshECH` that returned, with the list it cached. -/
  | refreshed (echList : List Nat)
  /-- A call of `refreshECH` that did not return. -/
  | refreshStuck
  /-- The call `time.Sleep(time.Second)`. -/
  | sleep
  deriving DecidableEq, Repr

/-- The surroundings of one call of `dialWebSocketWithECH`. -/
structure DialEnv (Pool : Type) where
  /-- Result of `url.Parse(wsServerAddr)` followed by `Hostname()`. -/
  hostname : Except String String
  /-- Result of `x509.SystemCertPool()`. -/
  systemCertPool : Except String Pool
  /-- Outcome of the n-th call of `dialer.Dial` (counted from 0). -/
  dialOutcome : Nat → DialOutcome
  /-- The network rounds seen by the n-th call of `refreshECH` (counted from 0). -/
  refreshRounds : Nat → List DNSRound
  echDomain : List Nat
  dnsServer : String

/-- The mutable state around the loop: the global `echList` and how many calls of
`dialer.Dial` and of `refreshECH` were made so far. -/
structure DialState where
  echList : List Nat
  dials : Nat
  refreshes : Nat
  deriving DecidableEq, Repr

/-- What a call leaves behind: its events in order, the final state and how it ended. -/
structure DialRun where
  events : List Event
  state : DialState
  result : Run (Except String Nat)
  deriving DecidableEq, Repr

/-- The test `strings.Contains(dialErr.Error(), "ECH") || strings.Contains(dialErr.Error(), "ech")`. -/
def isECHError (msg : String) : Bool :=
  decide ("ECH".toList <:+: msg.toList) || decide ("ech".toList <:+: msg.toList)

/-- The function `refreshECH`, called as the `st.refreshes`-th refresh. -/
def refreshECH {Pool : Type} (env : DialEnv Pool) (st : DialState) :
    Run (Option String × List Nat) :=
  prepareECH env.echDomain env.dnsServer (env.refreshRounds st.refreshes) st.echList

/-- Events and outcome of a continuation, put behind the events `evs`. -/
def DialRun.after (evs : List Event) (r : DialRun) : DialRun :=
  { r with events := evs ++ r.events }

/-- The retry loop `for attempt := 1; attempt <= maxRetries; attempt++` of
`dialWebSocketWithECH`, entered with the given value of `attempt`.  The first argument
bounds the number of iterations; it is initialised with `maxRetries` and reaches 0 only
when `attempt` has passed `maxRetries`. -/
def dialLoop {Pool : Type} (env : DialEnv Pool) (serverName : String) (maxRetries : Int) :
    Nat → Int → DialState → DialRun
  | 0, _, st => ⟨[], st, .done (.error "WebSocket 连接失败，已达最大重试次数")⟩
  | fuel + 1, attempt, st =>
    if attempt ≤ maxRetries then
      match getECHList st.echList with
      | .error echErr =>
        if attempt < maxRetries then
          match refreshECH env st with
          | .done (_, echList) =>
            (dialLoop env serverName maxRetries fuel (attempt + 1)
              { st with echList := echList, refreshes := st.refreshes + 1 }).after
              [.refreshed echList]
          | .panicked => ⟨[.refreshStuck], st, .panicked⟩
          | .looping => ⟨[.refreshStuck], st, .looping⟩
        else ⟨[], st, .done (.error ("ECH 配置不可用: " ++ echErr))⟩
      | .ok echBytes =>
        match (buildTLSConfigWithECH env.systemCertPool serverName echBytes :
            Except String (TLSConfig Unit Pool)) with
        | .error tlsErr => ⟨[], st, .done (.error ("构建 TLS(ECH) 配置失败: " ++ tlsErr))⟩
        | .ok tlsCfg =>
          let out := env.dialOutcome st.dials
          let ev := Event.dial attempt tlsCfg.EncryptedClientHelloConfigList out
          let st := { st with dials := st.dials + 1 }
          match out with
          | .err dialErr =>
            if isECHError dialErr then
              if attempt < maxRetries then
                match refreshECH env st with
                | .done (_, echList) =>
                  (dialLoop env serverName maxRetries fuel (attempt + 1)
                    { st with echList := echList, refreshes := st.refreshes + 1 }).after
                    [ev, .refreshed echList, .sleep]
                | .panicked => ⟨[ev, .refreshStuck], st, .panicked⟩
                | .looping => ⟨[ev, .refreshStuck], st, .looping⟩
              else ⟨[ev], st, .done (.error dialErr)⟩
            else ⟨[ev], st, .done (.error dialErr)⟩
          | .conn wsConn => ⟨[ev], st, .done (.ok wsConn)⟩
    else ⟨[], st, .done (.error "WebSocket 连接失败，已达最大重试次数")⟩

/-- The function `dialWebSocketWithECH`. -/
def dialWebSocketWithECH {Pool : Type} (env : DialEnv Pool) (maxRetries : Int)
    (st : DialState) : DialRun :=
  match env.hostname with
  | .error err => ⟨[], st, .done (.error ("解析 wsServerAddr 失败: " ++ err))⟩
  | .ok serverName => dialLoop env serverName maxRetries maxRetries.toNat 1 st

/-! ## `proxy.go`: proxy address and SOCKS5 method negotiation -/

/-- The SOCKS5 authentication methods. -/
def NoAuth : Nat := 0x00
/-- User name and password authentication. -/
def UserPassAuth : Nat := 0x02
/-- No offered method is acceptable. -/
def NoAcceptable : Nat := 0xFF

/-- The type `ProxyConfig`. -/
structure ProxyConfig where
  Username : String
  Password : String
  Host : String
  deriving DecidableEq, Repr

/-- The function `strings.TrimPrefix`, on the characters of the strings. -/
def trimStart (s start : List Char) : List Char :=
  if start <+: s then s.drop start.length else s

/-- The call `strings.SplitN(s, sep, 2)` for a one-character separator: the text before
and after the first separator, or `none` when `s` has no separator (the result is then
the single part `s`). -/
def splitFirst (sep : Char) (s : List Char) : Option (List Char × List Char) :=
  if sep ∈ s then some (s.takeWhile (fun c => c ≠ sep), (s.dropWhile (fun c => c ≠ sep)).drop 1)
  else none

/-- The function `parseProxyAddr`, for the format `proxy://[user:pass@]ip:port`. -/
def parseProxyAddr (addr : String) : Except String ProxyConfig :=
  let addr := trimStart addr.toList "proxy://".toList
  -- is there authentication information
  if '@' ∈ addr then
    match splitFirst '@' addr with
    | none => .error "无效的代理地址格式"
    | some (auth, host) =>
      match (if ':' ∈ auth then splitFirst ':' auth else none) with
      | some (user, pass) =>
        .ok { Username := String.mk user, Password := String.mk pass, Host := String.mk host }
      | none => .ok { Username := "", Password := "", Host := String.mk host }
  else .ok { Username := "", Password := "", Host := String.mk addr }

/-- The test of `runProxyServer` under which it logs that proxy authentication is
enabled (`config.Username != ""`). -/
def announcesAuth (config : ProxyConfig) : Bool := decide (config.Username ≠ "")

/-- The client side of an accepted connection: the bytes the client sends before it
closes that are not read yet, the arguments of the calls of `Write` so far, and whether
`Write` reports an error. -/
structure Conn where
  input : List Nat
  written : List (List Nat)
  writeFails : Bool
  deriving DecidableEq, Repr

/-- The call `io.ReadFull(conn, buf)` with `len(buf) = n`: the error is `EOF` when the
client has closed before any byte, and `unexpected EOF` when it has closed after fewer
than `n` bytes. -/
def Conn.readFull (conn : Conn) (n : Nat) : Except String (List Nat × Conn) :=
  if n ≤ conn.input.length then .ok (conn.input.take n, { conn with input := conn.input.drop n })
  else if conn.input = [] then .error "EOF"
  else .error "unexpected EOF"

/-- The call `conn.Write(bs)`. -/
def Conn.write (conn : Conn) (bs : List Nat) : Except String Conn :=
  if conn.writeFails then .error "write failed"
  else .ok { conn with written := conn.written ++ [bs] }

/-- The bytes of a Go string. -/
def goBytes (s : String) : List Nat :=
  (s.toList.map (fun c => (String.utf8EncodeChar c).map UInt8.toNat)).flatten

/-- The function `handleSOCKS5UserPassAuth`: the connection afterwards and the returned
error (`none` is `nil`). -/
def handleSOCKS5UserPassAuth (conn : Conn) (config : ProxyConfig) : Conn × Option String :=
  match conn.readFull 2 with
  | .error err => (conn, some ("读取用户名密码认证头失败: " ++ err))
  | .ok (buf, conn) =>
    let version := buf.getD 0 0
    let userLen := buf.getD 1 0
    if version ≠ 1 then (conn, some ("不支持的认证版本: " ++ toString version))
    else
      match conn.readFull userLen with
      | .error err => (conn, some ("读取用户名失败: " ++ err))
      | .ok (userBuf, conn) =>
        match conn.readFull 1 with
        | .error err => (conn, some ("读取密码长度失败: " ++ err))
        | .ok (passLenBuf, conn) =>
          let passLen := passLenBuf.getD 0 0
          match conn.readFull passLen with
          | .error err => (conn, some ("读取密码失败: " ++ err))
          | .ok (passBuf, conn) =>
            let status := if userBuf ≠ goBytes config.Username ∨ passBuf ≠ goBytes config.Password
              then 0x01 else 0x00
            match conn.write [0x01, status] with
            | .error err => (conn, some ("发送认证响应失败: " ++ err))
            | .ok conn =>
              if status ≠ 0x00 then (conn, some "用户名或密码错误") else (conn, none)

/-- How `handleSOCKS5Protocol` ends. -/
inductive Socks5End where
  /-- A read of the method negotiation failed. -/
  | readFailed
  /-- Writing the method selection failed. -/
  | writeFailed
  /-- The handler returned after selecting `NoAcceptable`. -/
  | noAcceptable
  /-- The user name and password authentication returned an error. -/
  | authFailed (err : String)
  /-- The handler went on to `handleSOCKS5Request`. -/
  | request
  deriving DecidableEq, Repr

/-- The function `handleSOCKS5Protocol` up to the call of `handleSOCKS5Request`; `conn`
holds the client bytes behind the version byte 0x05. -/
def handleSOCKS5Protocol (conn : Conn) (config : ProxyConfig) : Conn × Socks5End :=
  match conn.readFull 1 with
  | .error _ => (conn, .readFailed)
  | .ok (buf, conn) =>
    let nMethods := buf.getD 0 0
    match conn.readFull nMethods with
    | .error _ => (conn, .readFailed)
    | .ok (methods, conn) =>
      -- select the authentication method
      let method :=
        if config.Username ≠ "" ∧ config.Password ≠ "" then
          let found := methods.any (fun m => m == UserPassAuth)
          if ¬ found then NoAcceptable else UserPassAuth
        else NoAuth
      -- send the selected method
      let response := [0x05, method]
      match conn.write response with
      | .error _ => ({ conn with written := conn.written ++ [response] }, .writeFailed)
      | .ok conn =>
        if method = NoAcceptable then (conn, .noAcceptable)
        else
          match (if method = UserPassAuth then handleSOCKS5UserPassAuth conn config
                 else (conn, none)) with
          | (conn, some err) => (conn, .authFailed err)
          | (conn, none) => (conn, .request)

/-! ## Wire formats used to state the theorems -/

/-- Two bytes, big endian. -/
def u16 (n : Nat) : List Nat := [n / 256, n % 256]

/-- Length-prefixed labels, without the terminating zero byte. -/
def wireLabels : List (List Nat) → List Nat
  | [] => []
  | l :: ls => l.length :: l ++ wireLabels ls

/-- One SvcParam: key, length of the value, value. -/
def wireParam (p : Nat × List Nat) : List Nat := u16 p.1 ++ u16 p.2.length ++ p.2

/-- A sequence of SvcParams. -/
def wireParams : List (Nat × List Nat) → List Nat
  | [] => []
  | p :: ps => wireParam p ++ wireParams ps

/-- A DNS header with the given flags and counts. -/
def wireHeader (id flags qdcount ancount nscount arcount : Nat) : List Nat :=
  u16 id ++ u16 flags ++ u16 qdcount ++ u16 ancount ++ u16 nscount ++ u16 arcount

/-- A question: the labels of the name, the zero byte, type and class. -/
def wireQuestion (labels : List (List Nat)) (qtype qclass : Nat) : List Nat :=
  wireLabels labels ++ [0] ++ u16 qtype ++ u16 qclass

/-- A resource record behind its owner name: type, class, TTL (four bytes), RDLENGTH and
RDATA. -/
def wireRecordBody (rrtype rrclass : Nat) (ttl : List Nat) (rdata : List Nat) : List Nat :=
  u16 rrtype ++ u16 rrclass ++ ttl ++ u16 rdata.length ++ rdata

/-- RDATA of an HTTPS record: priority, target name, SvcParams. -/
def wireHTTPSData (priority : Nat) (target : List (List Nat)) (params : List (Nat × List Nat)) :
    List Nat :=
  u16 priority ++ (wireLabels target ++ [0]) ++ wireParams params

/-- A label of a DNS name: between 1 and 63 bytes. -/
def IsLabel (l : List Nat) : Prop := 1 ≤ l.length ∧ l.length ≤ 63

instance (l : List Nat) : Decidable (IsLabel l) := by
  unfold IsLabel; infer_instance

/-- An owner name as the claims describe it: a compression pointer of two bytes whose
first byte has the two high bits set, or labels ended by a zero byte. -/
inductive IsOwnerName : List Nat → Prop where
  | pointer (p0 p1 : Nat) (h : p0 &&& 0xC0 = 0xC0) : IsOwnerName [p0, p1]
  | labels (ls : List (List Nat)) (h : ∀ l ∈ ls, IsLabel l) : IsOwnerName (wireLabels ls ++ [0])

/-- The value of the first SvcParam with key 5, if there is one. -/
def firstKey5 (params : List (Nat × List Nat)) : Option (List Nat) :=
  (params.find? (fun p => p.1 == 5)).map (fun p => p.2)

/-- The bytes `resp` carry a SvcParam with key 5 and value `v`: key `00 05`, the length
of `v` in two bytes, and `v` itself stand in `resp` one behind the other. -/
def CarriesKey5 (resp v : List Nat) : Prop :=
  ∃ l0 l1, l0 * 256 + l1 = v.length ∧ ([0, 5, l0, l1] ++ v) <:+: resp

/-- The response `resp` is what one iteration of `prepareECH` hands to
`parseDNSResponse`: the body of the DoH response, or the first 4096 bytes of the
datagram of the plain DNS query. -/
def ParsedIn (net : DNSRound) (echDomain : List Nat) (dnsServer : String) (resp : List Nat) :
    Prop :=
  net.doh (buildDNSQuery echDomain typeHTTPS) = .ok resp ∨
  ∃ datagram, net.udp dnsServer (buildDNSQuery echDomain typeHTTPS) = .ok datagram ∧
    resp = datagram.take 4096

/-- The network delivers byte strings. -/
def DeliversBytes (net : DNSRound) : Prop :=
  ∀ query resp, (net.doh query = .ok resp → IsBytes resp) ∧
    ∀ dnsServer, net.udp dnsServer query = .ok resp → IsBytes resp

/-- An example round for the witnesses: the DoH endpoint answers with status 500 and
the DNS server sends a response with one question and one HTTPS answer that carries
key 5 with the value `09 08 07`. -/
def exampleRound : DNSRound where
  doh := fun _ => .error "DoH 服务器返回错误状态码: 500"
  udp := fun _ _ => .ok (wireHeader 1 0x8180 1 1 0 0 ++ wireQuestion [[97]] 65 1
      ++ [0xC0, 0x0C] ++ wireRecordBody typeHTTPS 1 [0, 0, 0, 60]
        (wireHTTPSData 1 [] ([] ++ (5, [9, 8, 7]) :: [])) ++ [])

/-- Every call of `refreshECH` returns: among the rounds that the call sees, one stores
a list; and the network delivers byte strings. -/
def RefreshReturns {Pool : Type} (env : DialEnv Pool) : Prop :=
  ∀ n, (∀ net ∈ env.refreshRounds n, DeliversBytes net) ∧
    ∀ echList, ∃ r, prepareECH env.echDomain env.dnsServer (env.refreshRounds n) echList = .done r

/-- The event is a call of `dialer.Dial`. -/
def Event.isDial : Event → Bool
  | .dial _ _ _ => true
  | _ => false

/-- The event is a call of `refreshECH`. -/
def Event.isRefresh : Event → Bool
  | .refreshed _ => true
  | .refreshStuck => true
  | _ => false

/-- An example environment for the witnesses: the first dial fails with an ECH error,
the second succeeds, and every refresh sees the example round. -/
def exampleDialEnv : DialEnv Unit where
  hostname := .ok "relay.example"
  systemCertPool := .ok ()
  dialOutcome := fun n => if n = 0 then .err "tls: server rejected ECH" else .conn 7
  refreshRounds := fun _ => [exampleRound]
  echDomain := [97]
  dnsServer := "119.29.29.29:53"

/-! ## `proxy.go`: HTTP proxy authentication

Go strings are byte strings; in the HTTP and UDP parts they are `List Nat`, and a string
literal of the source is written `goBytes "..."`. -/

/-- The call `strings.SplitN(s, sep, 2)` for a one-byte separator: the text before and
after the first separator, or `none` when `s` has no separator (the result is then the
single part `s`). -/
def splitFirstByte (sep : Nat) (s : List Nat) : Option (List Nat × List Nat) :=
  if sep ∈ s then some (s.takeWhile (fun b => b ≠ sep), (s.dropWhile (fun b => b ≠ sep)).drop 1)
  else none

/-- The function `base64.StdEncoding.DecodeString` on the bytes of a Go string; a byte
stands for the character with that code, so that no byte above 127 is in the alphabet. -/
def stdDecodeBytes (s : List Nat) : Option (List Nat) :=
  stdDecode (String.mk (s.map Char.ofNat))

/-- The function `validateProxyAuth`. -/
def validateProxyAuth (authHeader username password : List Nat) : Bool :=
  if authHeader = [] then false
  else if ¬ (goBytes "Basic " <+: authHeader) then false
  else
    -- strings.TrimPrefix
    let encoded := authHeader.drop (goBytes "Basic ").length
    match stdDecodeBytes encoded with
    | none => false
    | some decoded =>
      -- the format is username:password
      match splitFirstByte 58 decoded with
      | none => false
      | some (user, pass) => user == username && pass == password

/-! ## `proxy.go`: the HTTP proxy -/

/-- The function `strings.TrimLeftFunc(s, unicode.IsSpace)` on the bytes of a string: the
white space of Unicode is tab, line feed, vertical tab, form feed, carriage return, space,
and in UTF-8 U+0085 (`C2 85`), U+00A0 (`C2 A0`), U+1680 (`E1 9A 80`), U+2000 to U+200A
(`E2 80 80` to `E2 80 8A`), U+2028, U+2029, U+202F (`E2 80 A8`, `E2 80 A9`, `E2 80 AF`),
U+205F (`E2 81 9F`) and U+3000 (`E3 80 80`).  A byte that starts no valid encoding decodes
to U+FFFD, which is no white space. -/
def trimLeftSpace : List Nat → List Nat
  | 9 :: t => trimLeftSpace t
  | 10 :: t => trimLeftSpace t
  | 11 :: t => trimLeftSpace t
  | 12 :: t => trimLeftSpace t
  | 13 :: t => trimLeftSpace t
  | 32 :: t => trimLeftSpace t
  | 0xC2 :: 0x85 :: t => trimLeftSpace t
  | 0xC2 :: 0xA0 :: t => trimLeftSpace t
  | 0xE1 :: 0x9A :: 0x80 :: t => trimLeftSpace t
  | 0xE2 :: 0x80 :: b :: t =>
    if (0x80 ≤ b ∧ b ≤ 0x8A) ∨ b = 0xA8 ∨ b = 0xA9 ∨ b = 0xAF then trimLeftSpace t
    else 0xE2 :: 0x80 :: b :: t
  | 0xE2 :: 0x81 :: 0x9F :: t => trimLeftSpace t
  | 0xE3 :: 0x80 :: 0x80 :: t => trimLeftSpace t
  | s => s

/-- The function `strings.TrimRightFunc(s, unicode.IsSpace)` on the reversed bytes of a
string: the last rune is white space exactly when the string ends with one of the
encodings above. -/
def trimRightSpaceRev : List Nat → List Nat
  | 9 :: t => trimRightSpaceRev t
  | 10 :: t => trimRightSpaceRev t
  | 11 :: t => trimRightSpaceRev t
  | 12 :: t => trimRightSpaceRev t
  | 13 :: t => trimRightSpaceRev t
  | 32 :: t => trimRightSpaceRev t
  | 0x85 :: 0xC2 :: t => trimRightSpaceRev t
  | 0xA0 :: 0xC2 :: t => trimRightSpaceRev t
  | 0x80 :: 0x9A :: 0xE1 :: t => trimRightSpaceRev t
  | b :: 0x80 :: 0xE2 :: t =>
    if (0x80 ≤ b ∧ b ≤ 0x8A) ∨ b = 0xA8 ∨ b = 0xA9 ∨ b = 0xAF then trimRightSpaceRev t
    else b :: 0x80 :: 0xE2 :: t
  | 0x9F :: 0x81 :: 0xE2 :: t => trimRightSpaceRev t
  | 0x80 :: 0x80 :: 0xE3 :: t => trimRightSpaceRev t
  | s => s

/-- The function `strings.TrimSpace`: leading and trailing white space, as defined by
Unicode, is removed. -/
def trimSpace (s : List Nat) : List Nat :=
  (trimRightSpaceRev (trimLeftSpace s).reverse).reverse

/-- The white space that `fmt.Sscanf` skips in front of a number: the white space of
Unicode without the line feed, at which the scan ends with an error. -/
def skipScanSpace : List Nat → List Nat
  | 9 :: t => skipScanSpace t
  | 11 :: t => skipScanSpace t
  | 12 :: t => skipScanSpace t
  | 13 :: t => skipScanSpace t
  | 32 :: t => skipScanSpace t
  | 0xC2 :: 0x85 :: t => skipScanSpace t
  | 0xC2 :: 0xA0 :: t => skipScanSpace t
  | 0xE1 :: 0x9A :: 0x80 :: t => skipScanSpace t
  | 0xE2 :: 0x80 :: b :: t =>
    if (0x80 ≤ b ∧ b ≤ 0x8A) ∨ b = 0xA8 ∨ b = 0xA9 ∨ b = 0xAF then skipScanSpace t
    else 0xE2 :: 0x80 :: b :: t
  | 0xE2 :: 0x81 :: 0x9F :: t => skipScanSpace t
  | 0xE3 :: 0x80 :: 0x80 :: t => skipScanSpace t
  | s => s

/-- The call `fmt.Sscanf(s, "%d", &n)` for an `int` variable: leading white space other
than a line feed is skipped, a sign is accepted, then the longest run of decimal digits is
the token and the scan stops at the first other byte (`5_0` and `53abc` scan as 5 and 53);
`none` is a scan error, which leaves the variable as it was (no digit, or a value outside
64 bits). -/
def sscanfInt (s : List Nat) : Option Int :=
  let s := skipScanSpace s
  let signed : Bool × List Nat :=
    match s with
    | 45 :: t => (true, t)
    | 43 :: t => (false, t)
    | _ => (false, s)
  let tok := signed.2.takeWhile (fun b => 48 ≤ b && b ≤ 57)
  if tok = [] then none
  else
    let v : Nat := tok.foldl (fun acc b => acc * 10 + (b - 48)) 0
    let i : Int := if signed.1 then -(v : Int) else (v : Int)
    if -(2 : Int) ^ 63 ≤ i ∧ i < (2 : Int) ^ 63 then some i else none

/-- The fields of `url.URL` that the proxy reads. -/
structure URL where
  Scheme : List Nat
  Host : List Nat
  Path : List Nat
  RawQuery : List Nat
  deriving DecidableEq, Repr

/-- A `map[string]string`: pairs with distinct keys. -/
abbrev Headers := List (List Nat × List Nat)

/-- The map read `headers[key]` with its `ok` result. -/
def headerGet (headers : Headers) (key : List Nat) : Option (List Nat) :=
  (headers.find? (fun kv => kv.1 == key)).map (fun kv => kv.2)

/-- The map write `headers[key] = value`. -/
def headerSet : Headers → List Nat → List Nat → Headers
  | [], key, value => [(key, value)]
  | kv :: rest, key, value =>
    if kv.1 = key then (key, value) :: rest else kv :: headerSet rest key value

/-- The size of the buffer of `bufio.NewReader`. -/
def bufSize : Nat := 4096

/-- One `Read` of a connection into a buffer with room for `room` bytes.  `pending` lists
what the connection delivers to successive reads when the room suffices; a read with less
room leaves the rest of the bytes for the next read, and a read from the empty list fails
(the peer has closed or the deadline has passed). -/
def readChunk (room : Nat) (pending : List (List Nat)) : Option (List Nat × List (List Nat)) :=
  match pending with
  | [] => none
  | c :: rest => if c.length ≤ room then some (c, rest) else some (c.take room, c.drop room :: rest)

/-- A `bufio.Reader`: the bytes that were read from the underlying reader and are not
consumed yet, and what the underlying reader will deliver. -/
structure BufReader where
  buf : List Nat
  pending : List (List Nat)
  deriving DecidableEq, Repr

/-- A bound on the number of steps that consume the whole input of a reader. -/
def BufReader.steps (r : BufReader) : Nat :=
  2 * (r.buf.length + (r.pending.map List.length).sum + r.pending.length) + 2

/-- The loop of `ReadString('\n')`: return the bytes up to and with the first line feed of
the buffer; without one, set a full buffer aside and fill the buffer by one read of the
underlying reader.  `acc` holds the full buffers set aside. -/
def readStringLoop : Nat → List Nat → BufReader → Except String (List Nat × BufReader)
  | 0, _, _ => .error "no progress"
  | fuel + 1, acc, r =>
    if 10 ∈ r.buf then
      .ok (acc ++ r.buf.takeWhile (fun b => b ≠ 10) ++ [10],
        { r with buf := (r.buf.dropWhile (fun b => b ≠ 10)).drop 1 })
    else if r.buf.length ≥ bufSize then readStringLoop fuel (acc ++ r.buf) { r with buf := [] }
    else
      match readChunk (bufSize - r.buf.length) r.pending with
      | none => .error "EOF"
      | some (c, pending) => readStringLoop fuel acc { buf := r.buf ++ c, pending := pending }

/-- The call `reader.ReadString('\n')`; an error stands for a non-nil `err`. -/
def BufReader.readString (r : BufReader) : Except String (List Nat × BufReader) :=
  readStringLoop r.steps [] r

/-- The call `reader.Read(p)` with `len(p) = k > 0`: buffered bytes first; with an empty
buffer a read of at least the buffer size goes to the underlying reader directly, a
smaller one fills the buffer by one read. -/
def BufReader.read (r : BufReader) (k : Nat) : Option (List Nat × BufReader) :=
  if r.buf = [] then
    if k ≥ bufSize then
      match readChunk k r.pending with
      | none => none
      | some (c, pending) => some (c, { r with pending := pending })
    else
      match readChunk bufSize r.pending with
      | none => none
      | some (c, pending) => some (c.take k, { buf := c.drop k, pending := pending })
  else some (r.buf.take k, { r with buf := r.buf.drop k })

/-- The loop of `io.ReadFull`: read until `k` more bytes are there; when the reader
fails the error is `EOF` if no byte was read and `unexpected EOF` otherwise. -/
def readFullLoop : Nat → BufReader → Nat → List Nat → Except String (List Nat × BufReader)
  | 0, _, _, _ => .error "no progress"
  | fuel + 1, r, k, acc =>
    if k = 0 then .ok (acc, r)
    else
      match r.read k with
      | none => if acc = [] then .error "EOF" else .error "unexpected EOF"
      | some (d, r) => readFullLoop fuel r (k - d.length) (acc ++ d)

/-- The call `io.ReadFull(reader, buf)` with `len(buf) = n`. -/
def BufReader.readFull (r : BufReader) (n : Nat) : Except String (List Nat × BufReader) :=
  readFullLoop (r.steps + 1) r n []

/-- The loop of `readHTTPHeaders`. -/
def readHTTPHeadersLoop : Nat → BufReader → Headers → Except String (Headers × BufReader)
  | 0, _, _ => .error "no progress"
  | fuel + 1, reader, headers =>
    match reader.readString with
    | .error err => .error err
    | .ok (line, reader) =>
      let line := trimSpace line
      -- an empty line ends the headers
      if line = [] then .ok (headers, reader)
      else
        -- Key: Value
        match splitFirstByte 58 line with
        | some (key, value) =>
          readHTTPHeadersLoop fuel reader (headerSet headers (trimSpace key) (trimSpace value))
        | none => readHTTPHeadersLoop fuel reader headers

/-- The function `readHTTPHeaders`; every iteration consumes a line of at least one
byte. -/
def readHTTPHeaders (reader : BufReader) : Except String (Headers × BufReader) :=
  readHTTPHeadersLoop (reader.steps + 1) reader []

/-- What the proxy does to its surroundings while it handles an HTTP request. -/
inductive ProxyEvent where
  /-- The call `conn.Write` to the client. -/
  | write (data : List Nat)
  /-- The call `echPool.RegisterAndClaim(connID, target, firstFrame, conn)`. -/
  | registerAndClaim (target firstFrame : List Nat)
  /-- The call `echPool.SendData(connID, data)` and whether it returned no error. -/
  | sendData (data : List Nat) (ok : Bool)
  /-- The call `echPool.SendClose(connID)`. -/
  | sendClose
  deriving DecidableEq, Repr

/-- The surroundings of the HTTP handlers. -/
structure ProxyEnv where
  /-- The function `url.Parse`. -/
  parseURL : List Nat → Except String URL
  /-- The order in which `range` visits the entries of a header map. -/
  rangeOrder : Headers → Headers
  /-- The result of `echPool.WaitConnected`. -/
  waitConnected : Bool
  /-- Whether the n-th call of `echPool.SendData` (counted from 0) returns an error. -/
  sendDataFails : Nat → Bool
  /-- Whether `conn.Write` returns an error. -/
  writeFails : Bool

/-- The loop `for { n, err := conn.Read(buf); ...; echPool.SendData(connID, buf[:n]) }`
with a buffer of 32768 bytes, on what the connection still delivers. -/
def relayLoop (env : ProxyEnv) : Nat → List (List Nat) → Nat → List ProxyEvent
  | 0, _, _ => []
  | fuel + 1, pending, sent =>
    match readChunk 32768 pending with
    | none => []
    | some (data, pending) =>
      if env.sendDataFails sent then [.sendData data false]
      else .sendData data true :: relayLoop env fuel pending (sent + 1)

/-- The relay loop followed by the deferred `echPool.SendClose`. -/
def relayAndClose (env : ProxyEnv) (pending : List (List Nat)) : List ProxyEvent :=
  relayLoop env ((pending.map List.length).sum + pending.length + 1) pending 0 ++ [.sendClose]

/-- The test "credentials are configured, and the header does not carry them" of the HTTP
handlers. -/
def authRejected (config : ProxyConfig) (headers : Headers) : Bool :=
  if config.Username ≠ "" ∧ config.Password ≠ "" then
    let authHeader := (headerGet headers (goBytes "Proxy-Authorization")).getD []
    !validateProxyAuth authHeader (goBytes config.Username) (goBytes config.Password)
  else false

/-- The 407 response. -/
def response407 : List Nat :=
  goBytes "HTTP/1.1 407 Proxy Authentication Required\r\nProxy-Authenticate: Basic realm=\"Proxy\"\r\n\r\n"

/-- The function `handleHTTPConnect`; `reader` is the buffered reader behind the request
line.  The relay loop reads from the connection itself. -/
def handleHTTPConnect (env : ProxyEnv) (config : ProxyConfig) (reader : BufReader)
    (target : List Nat) : List ProxyEvent :=
  match readHTTPHeaders reader with
  | .error _ => [.write (goBytes "HTTP/1.1 400 Bad Request\r\n\r\n")]
  | .ok (headers, reader) =>
    if authRejected config headers then [.write response407]
    else
      .registerAndClaim target [] ::
        if ¬ env.waitConnected then [.write (goBytes "HTTP/1.1 504 Gateway Timeout\r\n\r\n")]
        else
          .write (goBytes "HTTP/1.1 200 Connection Established\r\n\r\n") ::
            if env.writeFails then [] else relayAndClose env reader.pending

/-- The target address of `handleHTTPForward`: the host of the URL, with the default port
of the scheme when it contains no colon. -/
def forwardTarget (url : URL) : List Nat :=
  if 58 ∉ url.Host then
    if url.Scheme = goBytes "https" then url.Host ++ goBytes ":443" else url.Host ++ goBytes ":80"
  else url.Host

/-- The step of `handleHTTPForward` that reads the request body: with a `Content-Length`
header whose value scans to a length above 0 and below `10*1024*1024`, that many bytes
are read from the buffered reader; otherwise nothing is read. -/
def readBody (headers : Headers) (reader : BufReader) : Except String (List Nat × BufReader) :=
  match headerGet headers (goBytes "Content-Length") with
  | some contentLength =>
    let length : Int := (sscanfInt contentLength).getD 0
    if length > 0 ∧ length < 10 * 1024 * 1024 then reader.readFull length.toNat
    else .ok ([], reader)
  | none => .ok ([], reader)

/-- One header line of the forwarded request. -/
def headerLine (kv : List Nat × List Nat) : List Nat :=
  kv.1 ++ goBytes ": " ++ kv.2 ++ goBytes "\r\n"

/-- The request that `handleHTTPForward` builds in `requestBuffer`; `order` is the order
in which the header map is visited. -/
def rebuildRequest (order : Headers → Headers) (method : List Nat) (url : URL)
    (headers : Headers) (bodyData : List Nat) : List Nat :=
  -- the request line uses the relative path
  let path := if url.Path = [] then goBytes "/" else url.Path
  let path := if url.RawQuery ≠ [] then path ++ goBytes "?" ++ url.RawQuery else path
  let buffer := method ++ goBytes " " ++ path ++ goBytes " HTTP/1.1\r\n"
  -- the headers without the proxy headers
  let buffer := (order headers).foldl
    (fun buffer kv =>
      if kv.1 ≠ goBytes "Proxy-Authorization" ∧ kv.1 ≠ goBytes "Proxy-Connection"
      then buffer ++ headerLine kv else buffer) buffer
  -- make sure that there is a Host header
  let buffer := if (headerGet headers (goBytes "Host")).isNone
    then buffer ++ headerLine (goBytes "Host", url.Host) else buffer
  let buffer := buffer ++ goBytes "\r\n"
  buffer ++ bodyData

/-- The function `handleHTTPForward`. -/
def handleHTTPForward (env : ProxyEnv) (config : ProxyConfig) (reader : BufReader)
    (method requestURL : List Nat) : List ProxyEvent :=
  match env.parseURL requestURL with
  | .error _ => [.write (goBytes "HTTP/1.1 400 Bad Request\r\n\r\n")]
  | .ok parsedURL =>
    match readHTTPHeaders reader with
    | .error _ => [.write (goBytes "HTTP/1.1 400 Bad Request\r\n\r\n")]
    | .ok (headers, reader) =>
      if authRejected config headers then [.write response407]
      else
        let target := forwardTarget parsedURL
        match readBody headers reader with
        | .error _ => [.write (goBytes "HTTP/1.1 400 Bad Request\r\n\r\n")]
        | .ok (bodyData, reader) =>
          let firstFrameData := rebuildRequest env.rangeOrder method parsedURL headers bodyData
          .registerAndClaim target firstFrameData ::
            if ¬ env.waitConnected then [.write (goBytes "HTTP/1.1 504 Gateway Timeout\r\n\r\n")]
            else relayAndClose env reader.pending

/-- The function `handleHTTPProtocol`: `firstByte` was read by `handleProxyConnection` and
`pending` is what the connection delivers behind it. -/
def handleHTTPProtocol (env : ProxyEnv) (config : ProxyConfig) (firstByte : Nat)
    (pending : List (List Nat)) : List ProxyEvent :=
  let reader : BufReader := { buf := [], pending := [firstByte] :: pending }
  match reader.readString with
  | .error _ => []
  | .ok (requestLine, reader) =>
    -- METHOD URL HTTP/VERSION
    match splitFirstByte 32 (trimSpace requestLine) with
    | none => []
    | some (method, rest) =>
      match splitFirstByte 32 rest with
      | none => []
      | some (requestURL, _) =>
        if method = goBytes "CONNECT" then handleHTTPConnect env config reader requestURL
        else handleHTTPForward env config reader method requestURL

/-- An example of the surroundings: `url.Parse` on the URLs of the examples, the header
map visited in insertion order, a pool that connects and sends. -/
def exampleProxyEnv : ProxyEnv where
  parseURL := fun s =>
    if s = goBytes "http://h/p?q" then
      .ok ⟨goBytes "http", goBytes "h", goBytes "/p", goBytes "q"⟩
    else if s = goBytes "http://h/p" then
      .ok ⟨goBytes "http", goBytes "h", goBytes "/p", []⟩
    else if s = goBytes "http://[2001:db8::1]/" then
      .ok ⟨goBytes "http", goBytes "[2001:db8::1]", goBytes "/", []⟩
    else .error "parse"
  rangeOrder := fun headers => headers
  waitConnected := true
  sendDataFails := fun _ => false
  writeFails := false

/-! ## `udp.go` -/

/-- The SOCKS5 address types. -/
def IPv4Addr : Nat := 0x01
/-- A domain name behind a length byte. -/
def DomainAddr : Nat := 0x03
/-- An IPv6 address of 16 bytes. -/
def IPv6Addr : Nat := 0x04

/-- The text of a number under the verb `%d`. -/
def decimal (n : Nat) : List Nat := goBytes (toString n)

/-- The part of package `net` that deals with the text form of IPv6 addresses and is not
modelled: the text of a 16 byte address that is no IPv4 address, and the 16 bytes of an
IPv6 literal (`none` when the text is no valid literal or has a zone). -/
structure NetLib where
  ip6String : List Nat → List Nat
  parseIPv6 : List Nat → Option (List Nat)

/-- The method `IP.To4`: the four bytes of an IPv4 address, given by 4 bytes or by 16
bytes with the prefix of IPv4-mapped addresses; `none` is nil. -/
def to4 (ip : List Nat) : Option (List Nat) :=
  if ip.length = 4 then some ip
  else if ip.length = 16 ∧ ip.take 10 = List.replicate 10 0 ∧ (ip.drop 10).take 2 = [0xff, 0xff]
    then some (ip.drop 12)
  else none

/-- The method `IP.String` for an address of 4 or 16 bytes: dotted decimal for an IPv4
address, else the IPv6 text. -/
def ipString (lib : NetLib) (ip : List Nat) : List Nat :=
  match to4 ip with
  | some [a, b, c, d] =>
    decimal a ++ goBytes "." ++ decimal b ++ goBytes "." ++ decimal c ++ goBytes "." ++ decimal d
  | _ => lib.ip6String ip

/-- One field of a dotted decimal address: digits only, at least one, no leading zero
before another digit, value at most 255. -/
def parseOctet (field : List Nat) : Option Nat :=
  if field = [] ∨ ¬ field.all (fun b => 48 ≤ b && b ≤ 57) then none
  else if field.length > 1 ∧ field.head? = some 48 then none
  else
    let v := field.foldl (fun acc b => acc * 10 + (b - 48)) 0
    if v > 255 then none else some v

/-- The IPv4 branch of `net.ParseIP`: four fields separated by dots. -/
def parseIPv4 (s : List Nat) : Option (List Nat) :=
  match s.splitOn 46 with
  | [f0, f1, f2, f3] => do
    let a ← parseOctet f0
    let b ← parseOctet f1
    let c ← parseOctet f2
    let d ← parseOctet f3
    some [a, b, c, d]
  | _ => none

/-- The function `net.ParseIP`: the first `.`, `:` or `%` of the text decides between the
IPv4 form, the IPv6 form and no address; the result has 16 bytes, `none` is nil. -/
def parseIP (lib : NetLib) (s : List Nat) : Option (List Nat) :=
  match s.find? (fun b => b == 46 || b == 58 || b == 37) with
  | some 46 => (parseIPv4 s).map (fun ip4 => List.replicate 10 0 ++ [0xff, 0xff] ++ ip4)
  | some 58 => lib.parseIPv6 s
  | _ => none

/-- The `switch atyp` of `parseSOCKS5UDPPacket`, entered with `offset = 4`: the host text
and the offset behind the address, or the error that is returned. -/
def readAddress (lib : NetLib) (packet : List Nat) (atyp offset : Nat) :
    Option (Except String (List Nat × Nat)) :=
  if atyp = IPv4Addr then
    if packet.length < offset + 4 then some (Except.error "IPv4地址不完整")
    else do
      let ip ← goSlice packet offset (offset + 4)
      some (Except.ok (ipString lib ip, offset + 4))
  else if atyp = DomainAddr then
    if packet.length < offset + 1 then some (Except.error "域名长度字段缺失")
    else do
      let domainLen ← packet[offset]?
      let offset := offset + 1
      if packet.length < offset + domainLen then some (Except.error "域名数据不完整")
      else do
        let host ← goSlice packet offset (offset + domainLen)
        some (Except.ok (host, offset + domainLen))
  else if atyp = IPv6Addr then
    if packet.length < offset + 16 then some (Except.error "IPv6地址不完整")
    else do
      let ip ← goSlice packet offset (offset + 16)
      some (Except.ok (ipString lib ip, offset + 16))
  else some (Except.error ("不支持的地址类型: " ++ toString atyp))

/-- The function `parseSOCKS5UDPPacket`: target and data, or an error. -/
def parseSOCKS5UDPPacket (lib : NetLib) (packet : List Nat) :
    Option (Except String (List Nat × List Nat)) :=
  if packet.length < 10 then some (.error "数据包太短")
  else do
    -- RSV (2 bytes) + FRAG (1 byte)
    let rsv0 ← packet[0]?
    let rsv1 ← packet[1]?
    if rsv0 ≠ 0 ∨ rsv1 ≠ 0 then some (.error "无效的RSV字段")
    else do
      let frag ← packet[2]?
      if frag ≠ 0 then some (.error ("不支持分片 (FRAG=" ++ toString frag ++ ")"))
      else do
        let atyp ← packet[3]?
        let address ← readAddress lib packet atyp 4
        match address with
        | .error err => some (.error err)
        | .ok (host, offset) =>
          -- the port
          if packet.length < offset + 2 then some (.error "端口字段缺失")
          else do
            let p0 ← packet[offset]?
            let p1 ← packet[offset + 1]?
            let port := p0 <<< 8 ||| p1
            let offset := offset + 2
            -- the payload
            let data ← goSlice packet offset packet.length
            let target :=
              if atyp = IPv6Addr then goBytes "[" ++ host ++ goBytes "]:" ++ decimal port
              else host ++ goBytes ":" ++ decimal port
            some (.ok (target, data))

/-- The function `buildSOCKS5UDPPacket`. -/
def buildSOCKS5UDPPacket (lib : NetLib) (host : List Nat) (port : Int) (data : List Nat) :
    Except String (List Nat) :=
  -- RSV (2 bytes) + FRAG (1 byte)
  let packet := [0x00, 0x00, 0x00]
  let withAddress : Except String (List Nat) :=
    match parseIP lib host with
    | some ip =>
      match to4 ip with
      | some ip4 => .ok (packet ++ [IPv4Addr] ++ ip4)
      | none => .ok (packet ++ [IPv6Addr] ++ ip)
    | none =>
      if host.length > 255 then .error "域名过长"
      else .ok (packet ++ [DomainAddr] ++ [host.length % 256] ++ host)
  match withAddress with
  | .error err => .error err
  | .ok packet =>
    -- the port, as uint16, big endian
    let port16 := (port % 65536).toNat
    .ok (packet ++ [port16 / 256, port16 % 256] ++ data)

/-- How `handleUDPResponse` ends. -/
inductive UDPResponseEnd where
  /-- The address did not split into two parts at `:`; nothing is sent. -/
  | invalidAddress
  /-- The function `buildSOCKS5UDPPacket` returned an error; nothing is sent. -/
  | buildFailed
  /-- No client address is known; nothing is sent. -/
  | noClient
  /-- The call `WriteToUDP(packet, clientUDPAddr)` returned no error. -/
  | sent (packet : List Nat)
  /-- The call `WriteToUDP(packet, clientUDPAddr)` returned an error. -/
  | writeFailed (packet : List Nat)
  deriving DecidableEq, Repr

/-- The function `handleUDPResponse`; `hasClient` says that `clientUDPAddr` is not nil. -/
def handleUDPResponse (lib : NetLib) (hasClient writeFails : Bool) (addrData data : List Nat) :
    UDPResponseEnd :=
  -- the address "host:port"
  match addrData.splitOn 58 with
  | [host, portText] =>
    let port : Int := (sscanfInt portText).getD 0
    match buildSOCKS5UDPPacket lib host port data with
    | .error _ => .buildFailed
    | .ok packet =>
      if hasClient then
        if writeFails then .writeFailed packet else .sent packet
      else .noClient
  | _ => .invalidAddress

/-- A datagram as `ReadFromUDP` returns it: the source address and the bytes.  Addresses
are compared by their text (`String()`), which `str` gives. -/
structure Datagram (Addr : Type) where
  src : Addr
  data : List Nat

/-- The size of the receive buffer of `handleUDPRelay`. -/
def relayBufferSize : Nat := 65535

/-- The state of `handleUDPRelay` and of the goroutines that it starts. -/
structure RelayState (Addr : Type) where
  /-- The field `assoc.clientUDPAddr`; `none` is nil. -/
  clientUDPAddr : Option Addr
  /-- The contents of the one receive buffer `buffer`. -/
  buffer : List Nat
  /-- The goroutines `handleUDPPacket(buffer[:n])` that are started and have not read their
  packet yet: each holds the length `n` of its slice of the receive buffer. -/
  started : List Nat
  /-- The packets as the goroutines have read them, in the order of the reads. -/
  handled : List (List Nat)

/-- A step of a run of `handleUDPRelay` and its goroutines. -/
inductive RelayStep (Addr : Type) where
  /-- The call `ReadFromUDP(buffer)` returns a datagram and the loop body runs. -/
  | receive (d : Datagram Addr)
  /-- The `i`-th of the started goroutines reads its packet `buffer[:n]`. -/
  | run (i : Nat)

/-- The state in which `handleUDPRelay` starts: `buffer := make([]byte, 65535)`, no client
address yet. -/
def RelayState.init (Addr : Type) : RelayState Addr :=
  { clientUDPAddr := none, buffer := List.replicate relayBufferSize 0, started := [],
    handled := [] }

/-- One step of a run.  `ReadFromUDP` writes the datagram over the start of the receive
buffer; `go assoc.handleUDPPacket(buffer[:n])` hands a slice of that buffer to a goroutine,
which reads the bytes when it runs (taken as one step). -/
def handleUDPRelayStep {Addr : Type} (str : Addr → String) (st : RelayState Addr) :
    RelayStep Addr → RelayState Addr
  | .receive d =>
    -- n, srcAddr, err := assoc.udpListener.ReadFromUDP(buffer)
    let n := min d.data.length relayBufferSize
    let buffer := d.data.take n ++ st.buffer.drop n
    match st.clientUDPAddr with
    | none =>
      -- the first datagram fixes the client address
      { st with clientUDPAddr := some d.src, buffer := buffer, started := st.started ++ [n] }
    | some client =>
      -- a datagram from another address is ignored
      if str client ≠ str d.src then { st with buffer := buffer }
      else { st with buffer := buffer, started := st.started ++ [n] }
  | .run i =>
    match st.started[i]? with
    | none => st
    | some n =>
      { st with started := st.started.eraseIdx i, handled := st.handled ++ [st.buffer.take n] }

/-- The function `handleUDPRelay` together with the goroutines it starts, along a run:
the datagrams that arrive before `ReadFromUDP` fails, interleaved with the reads of the
goroutines. -/
def handleUDPRelay {Addr : Type} (str : Addr → String) (steps : List (RelayStep Addr)) :
    RelayState Addr :=
  steps.foldl (handleUDPRelayStep str) (RelayState.init Addr)

/-- The fields of `UDPAssociation` that `sendUDPData` reads and writes. -/
structure AssocState where
  closed : Bool
  receiving : Bool
  deriving DecidableEq, Repr

/-- A frame handed to the pool by `sendUDPData`, and whether the pool call returned no
error. -/
inductive PoolSend where
  /-- The call `pool.SendUDPConnect(connID, target)`, the OPEN_UDP frame. -/
  | udpConnect (target : List Nat) (ok : Bool)
  /-- The call `pool.SendUDPData(connID, data)`, a UDP_DATA frame. -/
  | udpData (data : List Nat) (ok : Bool)
  deriving DecidableEq, Repr

/-- The outcomes of the pool calls of one association: the error of `SendUDPConnect`, and
the error of `SendUDPData` in the n-th call of `sendUDPData`; `none` is nil. -/
structure UDPPoolEnv where
  connectErr : Option String
  dataErr : Nat → Option String

/-- The function `sendUDPData`, as the `call`-th call on the association (calls are
serialised by the mutex): the state afterwards, the pool calls made, and the returned
error (`none` is nil).  The goroutine that waits for the connection sends nothing and is
left out. -/
def sendUDPData (env : UDPPoolEnv) (st : AssocState) (call : Nat) (target data : List Nat) :
    AssocState × List PoolSend × Option String :=
  if st.closed then (st, [], some "关联已关闭")
  else
    -- the connection is set up on the first send only
    let opened : AssocState × List PoolSend × Option String :=
      if ¬ st.receiving then
        ({ st with receiving := true }, [.udpConnect target env.connectErr.isNone],
          env.connectErr)
      else (st, [], none)
    match opened.2.2 with
    | some err => (opened.1, opened.2.1, some ("发送UDP_CONNECT失败: " ++ err))
    | none =>
      -- the data itself
      match env.dataErr call with
      | some err => (opened.1, opened.2.1 ++ [.udpData data false], some ("发送UDP数据失败: " ++ err))
      | none => (opened.1, opened.2.1 ++ [.udpData data true], none)

/-- A sequence of calls of `sendUDPData`, each with its target and data: the pool calls of
all of them, in order. -/
def sendUDPDataCalls (env : UDPPoolEnv) :
    AssocState → Nat → List (List Nat × List Nat) → List PoolSend
  | _, _, [] => []
  | st, call, (target, data) :: rest =>
    let r := sendUDPData env st call target data
    r.2.1 ++ sendUDPDataCalls env r.1 (call + 1) rest

/-- The function `handleUDPPacket` as the `call`-th caller of `sendUDPData`: the state of
the association afterwards and the pool calls made. -/
def handleUDPPacket (lib : NetLib) (env : UDPPoolEnv) (st : AssocState) (call : Nat)
    (packet : List Nat) : Option (AssocState × List PoolSend) :=
  match parseSOCKS5UDPPacket lib packet with
  | none => none
  | some (.error _) => some (st, [])
  | some (.ok (target, data)) =>
    let r := sendUDPData env st call target data
    some (r.1, r.2.1)

/-- An example of the part of package `net` that is left open, for evaluating the
functions on inputs without IPv6 addresses. -/
def exampleNetLib : NetLib where
  ip6String := fun _ => goBytes "::"
  parseIPv6 := fun _ => none

/-! # Theorems -/

/-! ## Reading structured input -/

theorem getElem?_at (data pre post : List Nat) (b offset : Nat)
    (hd : data = pre ++ b :: post) (ho : offset = pre.length) : data[offset]? = some b := by
  subst hd ho
  rw [List.getElem?_append_right (le_refl _)]
  simp

theorem goSlice_at (data pre mid post : List Nat) (lo hi : Nat)
    (hd : data = pre ++ (mid ++ post)) (hlo : lo = pre.length) (hhi : hi = lo + mid.length) :
    goSlice data lo hi = some mid := by
  subst hd hlo hhi
  simp [goSlice]

theorem beUint16_u16 (n : Nat) : beUint16 (u16 n) = some n := by
  simp only [u16, beUint16]
  congr 1
  omega

theorem wireLabels_length_ge (ls : List (List Nat)) : ls.length ≤ (wireLabels ls).length := by
  induction ls with
  | nil => simp [wireLabels]
  | cons l ls ih => simp [wireLabels]; omega

/-- The label loop walks over non-empty labels and stops at the zero byte behind them. -/
theorem skipLabels_wire (ls : List (List Nat)) :
    ∀ (fuel : Nat) (data pre post : List Nat) (offset : Nat),
      (∀ l ∈ ls, l ≠ []) → ls.length < fuel →
      data = pre ++ (wireLabels ls ++ 0 :: post) → offset = pre.length →
      skipLabels fuel data offset = some (offset + (wireLabels ls).length) := by
  induction ls with
  | nil =>
    intro fuel data pre post offset _ hf hd ho
    obtain ⟨fuel, rfl⟩ : ∃ k, fuel = k + 1 := ⟨fuel - 1, by simp at hf; omega⟩
    have h0 : data[offset]? = some 0 :=
      getElem?_at data pre post 0 offset (by simpa [wireLabels] using hd) ho
    have hlt : offset < data.length := by subst hd ho; simp [wireLabels]
    simp [skipLabels, h0, hlt, wireLabels]
  | cons l ls ih =>
    intro fuel data pre post offset hne hf hd ho
    obtain ⟨fuel, rfl⟩ : ∃ k, fuel = k + 1 := ⟨fuel - 1, by simp at hf; omega⟩
    have hl : l ≠ [] := hne l (by simp)
    have hlen : l.length ≠ 0 := by simpa using hl
    have h0 : data[offset]? = some l.length :=
      getElem?_at data pre (l ++ (wireLabels ls ++ 0 :: post)) l.length offset
        (by simpa [wireLabels] using hd) ho
    have hlt : offset < data.length := by subst hd ho; simp [wireLabels]
    have ih1 := ih fuel data (pre ++ l.length :: l) post (offset + l.length + 1)
      (fun x hx => hne x (by simp [hx])) (by simp at hf; omega)
      (by simpa [wireLabels] using hd) (by simp [ho]; omega)
    simp [skipLabels, h0, hlt, hlen, ih1, wireLabels]
    omega

/-! ## The fuel of the offset loops is never used up -/

/-- Fuel beyond the number of bytes behind the offset does not change the label loop,
so that the loop started with the length of the data as fuel is the unbounded loop. -/
theorem skipLabels_fuel (fuel : Nat) :
    ∀ (data : List Nat) (offset : Nat), data.length ≤ offset + fuel →
      skipLabels (fuel + 1) data offset = skipLabels fuel data offset := by
  induction fuel with
  | zero =>
    intro data offset h
    have : ¬ offset < data.length := by omega
    simp [skipLabels, this]
  | succ fuel ih =>
    intro data offset h
    rw [skipLabels, skipLabels]
    split
    · split
      · rfl
      · rename_i b _
        split
        · exact ih data (offset + b + 1) (by omega)
        · rfl
    · rfl

/-- Fuel beyond the number of bytes behind the offset does not change the SvcParams
loop. -/
theorem svcParamsLoop_fuel (fuel : Nat) :
    ∀ (data : List Nat) (offset : Nat), data.length ≤ offset + fuel →
      svcParamsLoop (fuel + 1) data offset = svcParamsLoop fuel data offset := by
  induction fuel with
  | zero =>
    intro data offset h
    have : ¬ offset + 4 ≤ data.length := by omega
    simp [svcParamsLoop, this]
  | succ fuel ih =>
    intro data offset h
    rw [svcParamsLoop, svcParamsLoop]
    split
    · simp only [Option.bind_eq_bind]
      congr 1
      funext key
      congr 1
      funext length
      split
      · rfl
      · congr 1
        funext value
        split
        · rfl
        · exact ih data (offset + 4 + length) (by omega)
    · rfl

/-! ## Base64 -/

theorem decChar_encChar : ∀ n < 64, decChar (encChar n) = some n := by decide

theorem encChar_ne_pad : ∀ n < 64, encChar n ≠ '=' ∧ encChar n ≠ '\r' ∧ encChar n ≠ '\n' := by
  decide

theorem stdEncodeChars_eq_nil (v : List Nat) : stdEncodeChars v = [] ↔ v = [] := by
  match v with
  | [] => simp [stdEncodeChars]
  | [_] => simp [stdEncodeChars]
  | [_, _] => simp [stdEncodeChars]
  | _ :: _ :: _ :: _ => simp [stdEncodeChars]

/-- The encoding of a value is the empty string exactly for the empty value. -/
theorem stdEncode_eq_empty (v : List Nat) : stdEncode v = "" ↔ v = [] := by
  rw [← stdEncodeChars_eq_nil v]
  constructor
  · intro h
    have := congrArg String.data h
    simpa [stdEncode] using this
  · intro h
    simp [stdEncode, h]

theorem stdEncodeChars_no_breaks (v : List Nat) :
    ∀ c ∈ stdEncodeChars v, c ≠ '\r' ∧ c ≠ '\n' := by
  have hpad : ('=' : Char) ≠ '\r' ∧ ('=' : Char) ≠ '\n' := by decide
  have henc : ∀ n, n < 64 → encChar n ≠ '\r' ∧ encChar n ≠ '\n' :=
    fun n hn => (encChar_ne_pad n hn).2
  match v with
  | [] => simp [stdEncodeChars]
  | [a] =>
    intro c hc
    simp only [stdEncodeChars, List.mem_cons, List.mem_singleton, List.not_mem_nil,
      or_false, or_self] at hc
    rcases hc with h | h | h
    · subst h
      by_cases ha : a / 4 < 64
      · exact henc _ ha
      · have : encChar (a / 4) = 'A' := by
          simp only [encChar]
          exact List.getD_eq_default _ _ (by simp [encodeStd]; omega)
        rw [this]; decide
    · subst h; exact henc _ (by omega)
    · subst h; exact hpad
  | [a, b] =>
    intro c hc
    simp only [stdEncodeChars, List.mem_cons, List.mem_singleton, List.not_mem_nil,
      or_false] at hc
    have hA : ∀ n, encChar n ≠ '\r' ∧ encChar n ≠ '\n' := by
      intro n
      by_cases hn : n < 64
      · exact henc _ hn
      · have : encChar n = 'A' := by
          simp only [encChar]
          exact List.getD_eq_default _ _ (by simp [encodeStd]; omega)
        rw [this]; decide
    rcases hc with h | h | h | h
    · subst h; exact hA _
    · subst h; exact hA _
    · subst h; exact hA _
    · subst h; exact hpad
  | a :: b :: c :: rest =>
    intro x hx
    have hA : ∀ n, encChar n ≠ '\r' ∧ encChar n ≠ '\n' := by
      intro n
      by_cases hn : n < 64
      · exact henc _ hn
      · have : encChar n = 'A' := by
          simp only [encChar]
          exact List.getD_eq_default _ _ (by simp [encodeStd]; omega)
        rw [this]; decide
    simp only [stdEncodeChars, List.mem_cons] at hx
    rcases hx with h | h | h | h | h
    · subst h; exact hA _
    · subst h; exact hA _
    · subst h; exact hA _
    · subst h; exact hA _
    · exact stdEncodeChars_no_breaks rest x h

/-- Decoding the quanta of an encoding gives back the bytes. -/
theorem decodeQuanta_stdEncodeChars (v : List Nat) (hv : IsBytes v) :
    decodeQuanta (stdEncodeChars v) = some v := by
  match v with
  | [] => simp [stdEncodeChars, decodeQuanta]
  | [a] =>
    have ha : a < 256 := hv a (by simp)
    have h0 := decChar_encChar (a / 4) (by omega)
    have h1 := decChar_encChar (a % 4 * 16) (by omega)
    simp only [stdEncodeChars, decodeQuanta, h0, h1]
    simp
    omega
  | [a, b] =>
    have ha : a < 256 := hv a (by simp)
    have hb : b < 256 := hv b (by simp)
    have h0 := decChar_encChar (a / 4) (by omega)
    have h1 := decChar_encChar (a % 4 * 16 + b / 16) (by omega)
    have h2 := decChar_encChar (b % 16 * 4) (by omega)
    have n2 := (encChar_ne_pad (b % 16 * 4) (by omega)).1
    simp only [stdEncodeChars, decodeQuanta, h0, h1, h2, n2]
    simp
    omega
  | a :: b :: c :: rest =>
    have ha : a < 256 := hv a (by simp)
    have hb : b < 256 := hv b (by simp)
    have hc : c < 256 := hv c (by simp)
    have hrest : IsBytes rest := fun x hx => hv x (by simp [hx])
    have h0 := decChar_encChar (a / 4) (by omega)
    have h1 := decChar_encChar (a % 4 * 16 + b / 16) (by omega)
    have h2 := decChar_encChar (b % 16 * 4 + c / 64) (by omega)
    have h3 := decChar_encChar (c % 64) (by omega)
    have n2 := (encChar_ne_pad (b % 16 * 4 + c / 64) (by omega)).1
    have n3 := (encChar_ne_pad (c % 64) (by omega)).1
    have ih := decodeQuanta_stdEncodeChars rest hrest
    simp only [stdEncodeChars, decodeQuanta, h0, h1, h2, h3, n2, n3, ih]
    simp
    omega

/-- The function `DecodeString` undoes `EncodeToString`. -/
theorem stdDecode_stdEncode (v : List Nat) (hv : IsBytes v) :
    stdDecode (stdEncode v) = some v := by
  have hf : (stdEncodeChars v).filter (fun c => decide (c ≠ '\r' ∧ c ≠ '\n')) = stdEncodeChars v := by
    apply List.filter_eq_self.mpr
    intro c hc
    simpa using stdEncodeChars_no_breaks v c hc
  show decodeQuanta ((stdEncodeChars v).filter (fun c => decide (c ≠ '\r' ∧ c ≠ '\n'))) = some v
  rw [hf]
  exact decodeQuanta_stdEncodeChars v hv

/-! ## `parseHTTPSRecord` on well-formed RDATA -/

/-- The SvcParams loop on a sequence of SvcParams that reaches the end of the data: the
encoded value of the first SvcParam with key 5, else the empty string. -/
theorem svcParamsLoop_wire (ps : List (Nat × List Nat)) :
    ∀ (fuel : Nat) (data pre : List Nat) (offset : Nat),
      ps.length ≤ fuel → data = pre ++ wireParams ps → offset = pre.length →
      svcParamsLoop fuel data offset =
        some (match firstKey5 ps with
              | some v => stdEncode v
              | none => "") := by
  induction ps with
  | nil =>
    intro fuel data pre offset _ hd ho
    subst hd ho
    cases fuel <;> simp [svcParamsLoop, wireParams, firstKey5]
  | cons p ps ih =>
    intro fuel data pre offset hf hd ho
    obtain ⟨fuel, rfl⟩ : ∃ k, fuel = k + 1 := ⟨fuel - 1, by simp at hf; omega⟩
    obtain ⟨key, value⟩ := p
    have hlen : data.length = pre.length + (4 + value.length + (wireParams ps).length) := by
      subst hd; simp [wireParams, wireParam, u16]; omega
    have hk : goSlice data offset (offset + 2) = some (u16 key) :=
      goSlice_at data pre (u16 key) (u16 value.length ++ value ++ wireParams ps) _ _
        (by simp [hd, wireParams, wireParam]) ho (by simp [u16])
    have hl : goSlice data (offset + 2) (offset + 4) = some (u16 value.length) :=
      goSlice_at data (pre ++ u16 key) (u16 value.length) (value ++ wireParams ps) _ _
        (by simp [hd, wireParams, wireParam]) (by simp [ho, u16]) (by simp [u16])
    have hv : goSlice data (offset + 4) (offset + 4 + value.length) = some value :=
      goSlice_at data (pre ++ u16 key ++ u16 value.length) value (wireParams ps) _ _
        (by simp [hd, wireParams, wireParam]) (by simp [ho, u16]) rfl
    have ih1 := ih fuel data (pre ++ wireParam (key, value)) (offset + 4 + value.length)
      (by simp at hf; omega) (by simp [hd, wireParams])
      (by simp [ho, wireParam, u16]; omega)
    have h4 : offset + 4 ≤ data.length := by omega
    have h5 : ¬ (offset + 4 + value.length > data.length) := by omega
    simp only [svcParamsLoop, h4, if_true, hk, hl, hv, h5, if_false, Option.bind_eq_bind,
      Option.some_bind, beUint16_u16, ih1]
    by_cases h : key = 5
    · simp [h, firstKey5]
    · simp [h, firstKey5]

theorem wireParams_length_ge (ps : List (Nat × List Nat)) :
    ps.length ≤ (wireParams ps).length := by
  induction ps with
  | nil => simp [wireParams]
  | cons p ps ih => simp [wireParams, wireParam, u16]; omega

/-- The parser on RDATA made of a priority, a target name and SvcParams. -/
theorem parseHTTPSRecord_wire (priority : Nat) (target : List (List Nat))
    (params : List (Nat × List Nat)) (ht : ∀ l ∈ target, l ≠ []) :
    parseHTTPSRecord (wireHTTPSData priority target params) =
      some (match firstKey5 params with
            | some v => stdEncode v
            | none => "") := by
  have hps := wireParams_length_ge params
  have hls := wireLabels_length_ge target
  have hlen : (wireHTTPSData priority target params).length
      = 2 + (wireLabels target).length + 1 + (wireParams params).length := by
    simp [wireHTTPSData, u16]; omega
  have hsvc := svcParamsLoop_wire params (wireHTTPSData priority target params).length
    (wireHTTPSData priority target params) (u16 priority ++ (wireLabels target ++ [0]))
    (2 + (wireLabels target).length + 1) (by omega) (by simp [wireHTTPSData])
    (by simp [u16]; omega)
  have h2 : ¬ (wireHTTPSData priority target params).length < 2 := by omega
  have h3 : 2 < (wireHTTPSData priority target params).length := by omega
  cases target with
  | nil =>
    have h0 : (wireHTTPSData priority [] params)[2]? = some 0 :=
      getElem?_at _ (u16 priority) (wireParams params) 0 2 (by simp [wireHTTPSData, wireLabels])
        (by simp [u16])
    simp only [wireLabels, List.length_nil] at hsvc
    simp [parseHTTPSRecord, h2, h3, h0, hsvc]
  | cons l ls =>
    have hl : l ≠ [] := ht l (by simp)
    have hl0 : l.length ≠ 0 := by simpa using hl
    have h0 : (wireHTTPSData priority (l :: ls) params)[2]? = some l.length :=
      getElem?_at _ (u16 priority) (l ++ (wireLabels ls ++ [0] ++ wireParams params)) l.length 2
        (by simp [wireHTTPSData, wireLabels]) (by simp [u16])
    have hskip := skipLabels_wire (l :: ls) (wireHTTPSData priority (l :: ls) params).length
      (wireHTTPSData priority (l :: ls) params) (u16 priority) (wireParams params) 2 ht
      (by omega) (by simp [wireHTTPSData]) (by simp [u16])
    simp [parseHTTPSRecord, h2, h3, h0, hl0, hskip, hsvc]

/-! ## `parseDNSResponse` on well-formed responses -/

theorem firstKey5_append (before after : List (Nat × List Nat)) (v : List Nat)
    (hb : ∀ p ∈ before, p.1 ≠ 5) : firstKey5 (before ++ (5, v) :: after) = some v := by
  induction before with
  | nil => simp [firstKey5]
  | cons p ps ih =>
    have hp : p.1 ≠ 5 := hb p (by simp)
    have := ih (fun q hq => hb q (by simp [hq]))
    have hbeq : (p.1 == 5) = false := by simpa using hp
    simp only [firstKey5, List.cons_append, List.find?_cons, hbeq] at this ⊢
    exact this

theorem firstKey5_none (params : List (Nat × List Nat)) (h : ∀ p ∈ params, p.1 ≠ 5) :
    firstKey5 params = none := by
  simp only [firstKey5, Option.map_eq_none', List.find?_eq_none]
  intro p hp
  simpa using h p hp

theorem land_C0_of_le (n : Nat) (h : n ≤ 63) : n &&& 0xC0 ≠ 0xC0 := by
  have : ∀ m < 64, m &&& 0xC0 ≠ 0xC0 := by decide
  exact this n (by omega)

/-- The owner-name step walks over exactly the bytes of an owner name. -/
theorem skipOwnerName_wire (response pre name post : List Nat) (offset : Nat)
    (hn : IsOwnerName name) (hd : response = pre ++ (name ++ post)) (ho : offset = pre.length) :
    skipOwnerName response offset = some (offset + name.length) := by
  cases hn with
  | pointer p0 p1 h =>
    have h0 : response[offset]? = some p0 :=
      getElem?_at response pre (p1 :: post) p0 offset (by simp [hd]) ho
    simp [skipOwnerName, h0, h]
  | labels ls h =>
    have hne : ∀ l ∈ ls, l ≠ [] := by
      intro l hl hnil
      have := (h l hl).1
      simp [hnil] at this
    have hskip := skipLabels_wire ls response.length response pre post offset hne
      (by have := wireLabels_length_ge ls; simp [hd]; omega) (by simp [hd]) ho
    cases ls with
    | nil =>
      have h0 : response[offset]? = some 0 :=
        getElem?_at response pre post 0 offset (by simp [hd, wireLabels]) ho
      simp [skipOwnerName, h0, hskip, wireLabels]
    | cons l ls =>
      have h0 : response[offset]? = some l.length :=
        getElem?_at response pre (l ++ (wireLabels ls ++ [0] ++ post)) l.length offset
          (by simp [hd, wireLabels]) ho
      have hl := land_C0_of_le l.length (h l (by simp)).2
      simp only [skipOwnerName, h0, Option.bind_eq_bind, Option.some_bind, hskip, Option.map_some']
      rw [if_neg hl]
      simp
      omega

/-- The answer loop returns the ECH value of an HTTPS record that it meets first. -/
theorem answersLoop_https (n : Nat) (response pre name ttl rdata rest : List Nat)
    (rrclass offset : Nat) (ech : String)
    (hn : IsOwnerName name) (httl : ttl.length = 4)
    (hech : parseHTTPSRecord rdata = some ech) (hne : ech ≠ "")
    (hd : response = pre ++ (name ++ (wireRecordBody typeHTTPS rrclass ttl rdata ++ rest)))
    (ho : offset = pre.length) :
    answersLoop (n + 1) response offset = some (.ok ech) := by
  have hlen : response.length = pre.length + (name.length + (10 + rdata.length + rest.length)) := by
    simp [hd, wireRecordBody, u16, httl]; omega
  have hname := skipOwnerName_wire response pre name _ offset hn hd ho
  have ht : goSlice response (offset + name.length) (offset + name.length + 2)
      = some (u16 typeHTTPS) :=
    goSlice_at response (pre ++ name) (u16 typeHTTPS)
      (u16 rrclass ++ ttl ++ u16 rdata.length ++ rdata ++ rest) _ _
      (by simp [hd, wireRecordBody]) (by simp [ho]) (by simp [u16])
  have hl : goSlice response (offset + name.length + 8) (offset + name.length + 8 + 2)
      = some (u16 rdata.length) :=
    goSlice_at response (pre ++ name ++ u16 typeHTTPS ++ u16 rrclass ++ ttl) (u16 rdata.length)
      (rdata ++ rest) _ _
      (by simp [hd, wireRecordBody]) (by simp [ho, u16, httl]; omega) (by simp [u16])
  have hr : goSlice response (offset + name.length + 8 + 2)
      (offset + name.length + 8 + 2 + rdata.length) = some rdata :=
    goSlice_at response (pre ++ name ++ u16 typeHTTPS ++ u16 rrclass ++ ttl ++ u16 rdata.length)
      rdata rest _ _
      (by simp [hd, wireRecordBody]) (by simp [ho, u16, httl]; omega) rfl
  have h1 : ¬ (offset ≥ response.length) := by omega
  have h2 : ¬ (offset + name.length + 10 > response.length) := by omega
  have h3 : ¬ (offset + name.length + 8 + 2 + rdata.length > response.length) := by omega
  simp only [answersLoop, h1, if_false, hname, Option.bind_eq_bind, Option.some_bind, h2, ht, hl,
    hr, h3, beUint16_u16, if_true, hech, hne, ne_eq, not_false_eq_true]

/-- The parser on a response with one question and an HTTPS record as first answer. -/
theorem parseDNSResponse_https (id flags qdcount ancount nscount arcount : Nat)
    (qlabels : List (List Nat)) (qtype qclass : Nat) (name ttl rdata rest : List Nat)
    (rrclass : Nat) (ech : String)
    (han : ancount ≠ 0) (hq : ∀ l ∈ qlabels, l ≠ [])
    (hn : IsOwnerName name) (httl : ttl.length = 4)
    (hech : parseHTTPSRecord rdata = some ech) (hne : ech ≠ "") :
    skipQuestion (wireHeader id flags qdcount ancount nscount arcount
        ++ wireQuestion qlabels qtype qclass
        ++ name ++ wireRecordBody typeHTTPS rrclass ttl rdata ++ rest)
      = some (12 + (wireQuestion qlabels qtype qclass).length) ∧
    parseDNSResponse (wireHeader id flags qdcount ancount nscount arcount
        ++ wireQuestion qlabels qtype qclass
        ++ name ++ wireRecordBody typeHTTPS rrclass ttl rdata ++ rest)
      = some (.ok ech) := by
  generalize hresp : wireHeader id flags qdcount ancount nscount arcount
        ++ wireQuestion qlabels qtype qclass
        ++ name ++ wireRecordBody typeHTTPS rrclass ttl rdata ++ rest = response
  have hlen : response.length = 12 + ((wireLabels qlabels).length + 5
      + (name.length + (10 + rdata.length + rest.length))) := by
    simp [← hresp, wireHeader, wireQuestion, wireRecordBody, u16, httl]; omega
  have hls := wireLabels_length_ge qlabels
  have hskip := skipLabels_wire qlabels response.length response
    (wireHeader id flags qdcount ancount nscount arcount)
    (u16 qtype ++ u16 qclass ++ name ++ wireRecordBody typeHTTPS rrclass ttl rdata ++ rest) 12 hq
    (by omega) (by simp [← hresp, wireQuestion]) (by simp [wireHeader, u16])
  have hsq : skipQuestion response = some (12 + (wireQuestion qlabels qtype qclass).length) := by
    simp [skipQuestion, hskip, wireQuestion, u16]; omega
  refine ⟨hsq, ?_⟩
  have han' : goSlice response 6 8 = some (u16 ancount) :=
    goSlice_at response (u16 id ++ u16 flags ++ u16 qdcount) (u16 ancount)
      (u16 nscount ++ u16 arcount ++ wireQuestion qlabels qtype qclass
        ++ name ++ wireRecordBody typeHTTPS rrclass ttl rdata ++ rest) _ _
      (by simp [← hresp, wireHeader]) (by simp [u16]) (by simp [u16])
  obtain ⟨n, rfl⟩ : ∃ n, ancount = n + 1 := ⟨ancount - 1, by omega⟩
  have hans := answersLoop_https n response
    (wireHeader id flags qdcount (n + 1) nscount arcount ++ wireQuestion qlabels qtype qclass)
    name ttl rdata rest rrclass (12 + (wireQuestion qlabels qtype qclass).length) ech hn httl
    hech hne (by simp [← hresp]) (by simp [wireHeader, u16]; omega)
  have h12 : ¬ response.length < 12 := by omega
  simp [parseDNSResponse, h12, han', beUint16_u16, hsq, hans]

/-! ## The claims about the TLS configuration and the DNS parsers -/

/-- C1: when the system root pool loads, the configuration built by
`buildTLSConfigWithECH` has minimum version TLS 1.3, the given server name, the given
ECH configuration list, and a rejection verifier that returns an error for every
connection state. -/
theorem buildTLSConfigWithECH_forbids_rejection {CS Pool : Type} (roots : Pool)
    (serverName : String) (echList : List Nat) :
    ∃ cfg : TLSConfig CS Pool,
      buildTLSConfigWithECH (.ok roots) serverName echList = .ok cfg ∧
      cfg.MinVersion = VersionTLS13 ∧ VersionTLS13 = 0x0304 ∧
      cfg.ServerName = serverName ∧
      cfg.EncryptedClientHelloConfigList = echList ∧
      cfg.RootCAs = roots ∧
      ∃ verify, cfg.EncryptedClientHelloRejectionVerify = some verify ∧
        ∀ cs : CS, verify cs ≠ none :=
  ⟨_, rfl, rfl, rfl, rfl, rfl, rfl, _, rfl, fun _ => by simp⟩

/-- C3: a response made of a header with ANCOUNT 1, one question whose labels have 1 to
63 bytes, and one answer whose owner name is the pointer `C0 0C` or a zero-terminated
label sequence, with type 65, RDLENGTH equal to the RDATA length and RDATA made of a
priority, the root target name and one SvcParam with key 5 and non-empty value `v`:
`parseDNSResponse` returns the standard base64 encoding of `v` and no error. -/
theorem parseDNSResponse_crafted_roundtrip (id flags qdcount nscount arcount : Nat)
    (qlabels : List (List Nat)) (qtype qclass rrclass priority : Nat)
    (name ttl v : List Nat)
    (hq : ∀ l ∈ qlabels, IsLabel l)
    (hn : name = [0xC0, 0x0C] ∨ ∃ ls, (∀ l ∈ ls, IsLabel l) ∧ name = wireLabels ls ++ [0])
    (httl : ttl.length = 4) (hv : v ≠ []) :
    parseDNSResponse (wireHeader id flags qdcount 1 nscount arcount
        ++ wireQuestion qlabels qtype qclass
        ++ name ++ wireRecordBody 65 rrclass ttl (wireHTTPSData priority [] [(5, v)]))
      = some (.ok (stdEncode v)) := by
  have hname : IsOwnerName name := by
    rcases hn with h | ⟨ls, hls, h⟩
    · subst h; exact IsOwnerName.pointer _ _ (by decide)
    · subst h; exact IsOwnerName.labels ls hls
  have hqne : ∀ l ∈ qlabels, l ≠ [] := by
    intro l hl hnil
    have := (hq l hl).1
    simp [hnil] at this
  have hrec := parseHTTPSRecord_wire priority [] [(5, v)] (by simp)
  simp only [firstKey5, List.find?_cons, beq_self_eq_true, Option.map_some'] at hrec
  have := (parseDNSResponse_https id flags qdcount 1 nscount arcount qlabels qtype qclass name ttl
    (wireHTTPSData priority [] [(5, v)]) [] rrclass (stdEncode v) (by decide) hqne hname httl hrec
    (by simpa [stdEncode_eq_empty] using hv)).2
  simpa [typeHTTPS] using this

/-- Witness of C3: query name `a`, owner name given by the pointer, value `09 08 07`. -/
theorem parseDNSResponse_crafted_roundtrip_witness :
    (∀ l ∈ [[97]], IsLabel l) ∧ ([0, 0, 0, 60] : List Nat).length = 4 ∧ ([9, 8, 7] : List Nat) ≠ [] ∧
    parseDNSResponse (wireHeader 1 0x8180 1 1 0 0 ++ wireQuestion [[97]] 65 1
        ++ [0xC0, 0x0C] ++ wireRecordBody 65 1 [0, 0, 0, 60] (wireHTTPSData 1 [] [(5, [9, 8, 7])]))
      = some (.ok (stdEncode [9, 8, 7])) :=
  ⟨by decide, rfl, by decide,
    parseDNSResponse_crafted_roundtrip 1 0x8180 1 0 0 [[97]] 65 1 1 1 [0xC0, 0x0C] [0, 0, 0, 60]
      [9, 8, 7] (by decide) (Or.inl rfl) rfl (by decide)⟩

/-- C4: on RDATA made of a priority, a target name (the zero byte alone, or non-empty
labels and the zero byte) and a sequence of SvcParams, `parseHTTPSRecord` returns the
standard base64 encoding of the value of the first SvcParam with key 5, whatever
SvcParams are before and behind it, and the empty string when no SvcParam has key 5. -/
theorem parseHTTPSRecord_first_key5 (priority : Nat) (target : List (List Nat))
    (params : List (Nat × List Nat)) (ht : ∀ l ∈ target, l ≠ []) :
    (∀ before after v, params = before ++ (5, v) :: after → (∀ p ∈ before, p.1 ≠ 5) →
      parseHTTPSRecord (wireHTTPSData priority target params) = some (stdEncode v)) ∧
    ((∀ p ∈ params, p.1 ≠ 5) →
      parseHTTPSRecord (wireHTTPSData priority target params) = some "") := by
  have h := parseHTTPSRecord_wire priority target params ht
  constructor
  · intro before after v hp hb
    rw [h, hp, firstKey5_append before after v hb]
  · intro hno
    rw [h, firstKey5_none params hno]

/-- Witness of C4: a target name of two labels, a SvcParam with key 1 before and another
with key 5 behind the first SvcParam with key 5. -/
theorem parseHTTPSRecord_first_key5_witness :
    (∀ l ∈ [[97], [98, 99]], l ≠ ([] : List Nat)) ∧
    parseHTTPSRecord (wireHTTPSData 1 [[97], [98, 99]] [(1, [0, 2, 104, 50]), (5, [9, 8, 7]), (5, [1])])
      = some (stdEncode [9, 8, 7]) ∧
    stdEncode [9, 8, 7] = "CQgH" :=
  ⟨by decide,
    (parseHTTPSRecord_first_key5 1 [[97], [98, 99]] [(1, [0, 2, 104, 50]), (5, [9, 8, 7]), (5, [1])]
      (by decide)).1 [(1, [0, 2, 104, 50])] [(5, [1])] [9, 8, 7] rfl (by decide),
    by decide⟩

/-- C5, counterexample: a response that declares QDCOUNT 0 and carries no question, and a
response that declares QDCOUNT 2 and carries two questions, each followed by an HTTPS
answer with key 5 and value `09 08 07`: the parser returns the empty string, not the
encoding of the value. -/
theorem parseDNSResponse_qdcount_counterexample :
    parseDNSResponse (wireHeader 1 0x8180 0 1 0 0
        ++ (wireLabels [[97]] ++ [0])
        ++ wireRecordBody 65 1 [0, 0, 0, 60] (wireHTTPSData 1 [] [(5, [9, 8, 7])]))
      = some (.ok "") ∧
    parseDNSResponse (wireHeader 1 0x8180 2 1 0 0
        ++ wireQuestion [[97]] 65 1 ++ wireQuestion [[98]] 65 1
        ++ [0xC0, 0x0C]
        ++ wireRecordBody 65 1 [0, 0, 0, 60] (wireHTTPSData 1 [] [(5, [9, 8, 7])]))
      = some (.ok "") ∧
    stdEncode [9, 8, 7] ≠ "" := by
  decide

/-- C5, amended: take a response made of a header with QDCOUNT 1 and ANCOUNT at least 1,
exactly one question whose name is a sequence of labels of 1 to 63 bytes ended by a zero
byte, and then, as the first answer, an HTTPS record (type 65, a TTL of 4 bytes) whose
owner name is either a compression pointer of two bytes or a sequence of labels of 1 to
63 bytes ended by a zero byte (not labels followed by a pointer), and whose data are a
priority, a target name of non-empty labels ended by a zero byte and SvcParams of which
the first one with key 5 has the non-empty value `v`; any bytes may follow.  The parser
walks over the question label by label, reads the answers at the first byte behind the
question and returns the base64 encoding of `v`. -/
theorem parseDNSResponse_one_question (id flags ancount nscount arcount : Nat)
    (qlabels : List (List Nat)) (qtype qclass rrclass priority : Nat)
    (name ttl rest v : List Nat) (target : List (List Nat))
    (before after : List (Nat × List Nat))
    (han : ancount ≠ 0) (hq : ∀ l ∈ qlabels, IsLabel l) (hn : IsOwnerName name)
    (httl : ttl.length = 4) (ht : ∀ l ∈ target, l ≠ [])
    (hb : ∀ p ∈ before, p.1 ≠ 5) (hv : v ≠ []) :
    skipQuestion (wireHeader id flags 1 ancount nscount arcount
        ++ wireQuestion qlabels qtype qclass
        ++ name ++ wireRecordBody 65 rrclass ttl
            (wireHTTPSData priority target (before ++ (5, v) :: after)) ++ rest)
      = some (12 + (wireQuestion qlabels qtype qclass).length) ∧
    parseDNSResponse (wireHeader id flags 1 ancount nscount arcount
        ++ wireQuestion qlabels qtype qclass
        ++ name ++ wireRecordBody 65 rrclass ttl
            (wireHTTPSData priority target (before ++ (5, v) :: after)) ++ rest)
      = some (.ok (stdEncode v)) := by
  have hqne : ∀ l ∈ qlabels, l ≠ [] := by
    intro l hl hnil
    have := (hq l hl).1
    simp [hnil] at this
  have hrec := parseHTTPSRecord_wire priority target (before ++ (5, v) :: after) ht
  rw [firstKey5_append before after v hb] at hrec
  have := parseDNSResponse_https id flags 1 ancount nscount arcount qlabels qtype qclass name ttl
    (wireHTTPSData priority target (before ++ (5, v) :: after)) rest rrclass (stdEncode v) han hqne
    hn httl hrec (by simpa [stdEncode_eq_empty] using hv)
  simpa [typeHTTPS] using this

/-- Witness of C5 as amended. -/
theorem parseDNSResponse_one_question_witness :
    skipQuestion (wireHeader 1 0x8180 1 2 0 0 ++ wireQuestion [[97]] 65 1
        ++ (wireLabels [[97]] ++ [0]) ++ wireRecordBody 65 1 [0, 0, 0, 60]
            (wireHTTPSData 1 [[98]] ([(1, [0])] ++ (5, [9, 8, 7]) :: [])) ++ [1, 2, 3])
      = some (12 + (wireQuestion [[97]] 65 1).length) ∧
    parseDNSResponse (wireHeader 1 0x8180 1 2 0 0 ++ wireQuestion [[97]] 65 1
        ++ (wireLabels [[97]] ++ [0]) ++ wireRecordBody 65 1 [0, 0, 0, 60]
            (wireHTTPSData 1 [[98]] ([(1, [0])] ++ (5, [9, 8, 7]) :: [])) ++ [1, 2, 3])
      = some (.ok (stdEncode [9, 8, 7])) :=
  parseDNSResponse_one_question 1 0x8180 2 0 0 [[97]] 65 1 1 1 (wireLabels [[97]] ++ [0])
    [0, 0, 0, 60] [1, 2, 3] [9, 8, 7] [[98]] [(1, [0])] [] (by decide) (by decide)
    (IsOwnerName.labels [[97]] (by decide)) rfl (by decide) (by decide) (by decide)

/-- C6, the failing input: the owner name of the HTTPS answer is the label `www` followed
by the pointer `C0 0C`.  The label loop takes the pointer byte for a label length, leaves
the message, and the parser returns the empty string although the record carries key 5
with the value `09 08 07`. -/
theorem parseDNSResponse_label_then_pointer :
    parseDNSResponse (wireHeader 1 0x8180 1 1 0 0 ++ wireQuestion [[97]] 65 1
        ++ [3, 119, 119, 119, 0xC0, 0x0C]
        ++ wireRecordBody 65 1 [0, 0, 0, 60] (wireHTTPSData 1 [] [(5, [9, 8, 7])]))
      = some (.ok "") ∧
    skipOwnerName (wireHeader 1 0x8180 1 1 0 0 ++ wireQuestion [[97]] 65 1
        ++ [3, 119, 119, 119, 0xC0, 0x0C]
        ++ wireRecordBody 65 1 [0, 0, 0, 60] (wireHTTPSData 1 [] [(5, [9, 8, 7])])) 19
      = some (19 + 4 + 193 + 1) ∧
    stdEncode [9, 8, 7] ≠ "" := by
  decide

/-! ## `buildDNSQuery` -/

theorem foldl_labels (ls : List (List Nat)) (h : ∀ l ∈ ls, l.length < 256) :
    ∀ init : List Nat,
      ls.foldl (fun query label => query ++ [label.length % 256] ++ label) init
        = init ++ wireLabels ls := by
  induction ls with
  | nil => intro init; simp [wireLabels]
  | cons l ls ih =>
    intro init
    have hl : l.length % 256 = l.length := Nat.mod_eq_of_lt (h l (by simp))
    rw [List.foldl_cons, ih (fun x hx => h x (by simp [hx])), hl]
    simp [wireLabels]

theorem intercalate_length (ls : List (List Nat)) (hne : ls ≠ []) :
    (List.intercalate [46] ls).length + 1 = (wireLabels ls).length := by
  induction ls with
  | nil => exact absurd rfl hne
  | cons l ls ih =>
    cases ls with
    | nil => simp [List.intercalate, wireLabels]
    | cons l2 ls =>
      have := ih (by simp)
      simp only [List.intercalate, List.intersperse, List.flatten, wireLabels,
        List.length_append, List.length_cons, List.length_singleton, List.length_nil] at this ⊢
      omega

/-- The query bytes for a domain given by its labels. -/
theorem buildDNSQuery_wire (labels : List (List Nat)) (hne : labels ≠ [])
    (hl : ∀ l ∈ labels, l.length < 256 ∧ 46 ∉ l) :
    buildDNSQuery (List.intercalate [46] labels) 65
      = [0, 1, 1, 0, 0, 1, 0, 0, 0, 0, 0, 0] ++ wireLabels labels ++ [0] ++ [0, 0x41] ++ [0, 1] := by
  have hsplit : (List.intercalate [46] labels).splitOn 46 = labels :=
    List.splitOn_intercalate labels 46 (fun l h => (hl l h).2) hne
  simp only [buildDNSQuery, hsplit, foldl_labels labels (fun l h => (hl l h).1)]
  simp

/-- C7: for a domain made of non-empty labels of at most 63 bytes separated by dots,
`buildDNSQuery domain 65` is the header `00 01 01 00 00 01 00 00 00 00 00 00`, each label
behind its length byte, a zero byte, QTYPE `00 41` and QCLASS `00 01`; its length is
`len(domain) + 18`; and on a response that echoes this question behind any 12 byte header
the question-skipping step of `parseDNSResponse` ends at the first byte behind the
question. -/
theorem buildDNSQuery_standard (labels : List (List Nat)) (hne : labels ≠ [])
    (hl : ∀ l ∈ labels, IsLabel l ∧ 46 ∉ l) :
    buildDNSQuery (List.intercalate [46] labels) 65
      = [0x00, 0x01, 0x01, 0x00, 0x00, 0x01, 0x00, 0x00, 0x00, 0x00, 0x00, 0x00]
        ++ wireLabels labels ++ [0x00] ++ [0x00, 0x41] ++ [0x00, 0x01] ∧
    (buildDNSQuery (List.intercalate [46] labels) 65).length
      = (List.intercalate [46] labels).length + 18 ∧
    ∀ header rest : List Nat, header.length = 12 →
      skipQuestion (header ++ (buildDNSQuery (List.intercalate [46] labels) 65).drop 12 ++ rest)
        = some (buildDNSQuery (List.intercalate [46] labels) 65).length := by
  have hq := buildDNSQuery_wire labels hne (fun l h => ⟨by have := (hl l h).1.2; omega, (hl l h).2⟩)
  have hlen := intercalate_length labels hne
  refine ⟨hq, ?_, ?_⟩
  · rw [hq]
    simp only [List.length_append, List.length_cons, List.length_nil]
    omega
  · intro header rest hh
    have hnonempty : ∀ l ∈ labels, l ≠ [] := by
      intro l h hnil
      have := (hl l h).1.1
      simp [hnil] at this
    have hls := wireLabels_length_ge labels
    have hdrop : (buildDNSQuery (List.intercalate [46] labels) 65).drop 12
        = wireLabels labels ++ 0 :: [0, 0x41, 0, 1] := by
      rw [hq]; simp
    have hskip := skipLabels_wire labels
      (header ++ (wireLabels labels ++ 0 :: [0, 0x41, 0, 1]) ++ rest).length
      (header ++ (wireLabels labels ++ 0 :: [0, 0x41, 0, 1]) ++ rest) header
      ([0, 0x41, 0, 1] ++ rest) 12 hnonempty (by simp; omega) (by simp) hh.symm
    rw [hdrop]
    simp only [skipQuestion, hskip, Option.map_some']
    rw [hq]
    simp only [List.length_append, List.length_cons, List.length_nil]

/-- Witness of C7: the domain `a.bc`. -/
theorem buildDNSQuery_standard_witness :
    ([[97], [98, 99]] : List (List Nat)) ≠ [] ∧
    (∀ l ∈ [[97], [98, 99]], IsLabel l ∧ 46 ∉ l) ∧
    List.intercalate [46] [[97], [98, 99]] = [97, 46, 98, 99] ∧
    buildDNSQuery (List.intercalate [46] [[97], [98, 99]]) 65
      = [0x00, 0x01, 0x01, 0x00, 0x00, 0x01, 0x00, 0x00, 0x00, 0x00, 0x00, 0x00]
        ++ wireLabels [[97], [98, 99]] ++ [0x00] ++ [0x00, 0x41] ++ [0x00, 0x01] :=
  ⟨by decide, by decide, by decide,
    (buildDNSQuery_standard [[97], [98, 99]] (by decide) (by decide)).1⟩

/-! ## What a non-empty parser result is -/

theorem goSlice_eq_some (data : List Nat) (lo hi : Nat) (x : List Nat)
    (h : goSlice data lo hi = some x) :
    lo ≤ hi ∧ hi ≤ data.length ∧ x = (data.drop lo).take (hi - lo) ∧ x.length = hi - lo := by
  unfold goSlice at h
  split at h
  · rename_i hb
    simp only [Option.some.injEq] at h
    refine ⟨hb.1, hb.2, h.symm, ?_⟩
    rw [← h, List.length_take, List.length_drop]
    omega
  · exact absurd h (by simp)

theorem goSlice_append (data : List Nat) (a b c : Nat) (x y : List Nat)
    (hx : goSlice data a b = some x) (hy : goSlice data b c = some y) :
    goSlice data a c = some (x ++ y) := by
  obtain ⟨hab, _, rfl, _⟩ := goSlice_eq_some data a b x hx
  obtain ⟨hbc, hc, rfl, _⟩ := goSlice_eq_some data b c y hy
  have hac : a ≤ c ∧ c ≤ data.length := ⟨by omega, hc⟩
  simp only [goSlice, hac, and_self, if_true, Option.some.injEq]
  have h1 : c - a = (b - a) + (c - b) := by omega
  have h2 : List.drop (b - a) (List.drop a data) = List.drop b data := by
    rw [List.drop_drop]; congr 1; omega
  rw [h1, List.take_add, h2]

theorem goSlice_within (data : List Nat) (lo hi : Nat) (x : List Nat)
    (h : goSlice data lo hi = some x) : x <:+: data := by
  obtain ⟨_, _, rfl, _⟩ := goSlice_eq_some data lo hi x h
  exact (List.take_prefix _ _).isInfix.trans (List.drop_suffix _ _).isInfix

theorem beUint16_two (x : List Nat) (k : Nat) (hlen : x.length = 2) (h : beUint16 x = some k) :
    ∃ b0 b1, x = [b0, b1] ∧ b0 * 256 + b1 = k := by
  match x, hlen with
  | [b0, b1], _ => exact ⟨b0, b1, rfl, by simpa [beUint16] using h⟩

theorem CarriesKey5.mono {data resp v : List Nat} (h : CarriesKey5 data v)
    (hd : data <:+: resp) : CarriesKey5 resp v := by
  obtain ⟨l0, l1, hl, hin⟩ := h
  exact ⟨l0, l1, hl, hin.trans hd⟩

theorem CarriesKey5.isBytes {resp v : List Nat} (h : CarriesKey5 resp v) (hb : IsBytes resp) :
    IsBytes v := by
  obtain ⟨l0, l1, _, hin⟩ := h
  intro b hbv
  exact hb b (hin.subset (by simp [hbv]))

/-- A non-empty result of the SvcParams loop is the encoding of a key 5 value in the data. -/
theorem svcParamsLoop_sound (fuel : Nat) :
    ∀ (data : List Nat) (offset : Nat) (ech : String),
      svcParamsLoop fuel data offset = some ech → ech ≠ "" →
      ∃ v, ech = stdEncode v ∧ CarriesKey5 data v := by
  induction fuel with
  | zero =>
    intro data offset ech h hne
    simp only [svcParamsLoop, Option.some.injEq] at h
    exact absurd h.symm hne
  | succ fuel ih =>
    intro data offset ech h hne
    simp only [svcParamsLoop] at h
    split at h
    · simp only [Option.bind_eq_bind, Option.bind_eq_some] at h
      obtain ⟨key, ⟨kx, hkx, hkey⟩, len, ⟨lx, hlx, hlen⟩, h⟩ := h
      split at h
      · simp only [Option.some.injEq] at h
        exact absurd h.symm hne
      · simp only [Option.bind_eq_some] at h
        obtain ⟨value, hval, h⟩ := h
        split at h
        · rename_i hk5
          simp only [Option.some.injEq] at h
          refine ⟨value, h.symm, ?_⟩
          obtain ⟨_, _, _, hkl⟩ := goSlice_eq_some _ _ _ _ hkx
          obtain ⟨_, _, _, hll⟩ := goSlice_eq_some _ _ _ _ hlx
          obtain ⟨b0, b1, rfl, hb⟩ := beUint16_two kx key (by omega) hkey
          obtain ⟨l0, l1, rfl, hl⟩ := beUint16_two lx len (by omega) hlen
          obtain ⟨_, _, _, hvl⟩ := goSlice_eq_some _ _ _ _ hval
          have h1 := goSlice_append data _ _ _ _ _ hkx hlx
          have h2 := goSlice_append data _ _ _ _ _ h1 hval
          have hb0 : b0 = 0 := by omega
          have hb1 : b1 = 5 := by omega
          subst hb0 hb1
          exact ⟨l0, l1, by omega, by simpa using goSlice_within _ _ _ _ h2⟩
        · exact ih data _ ech h hne
    · simp only [Option.some.injEq] at h
      exact absurd h.symm hne

/-- A non-empty result of `parseHTTPSRecord` is the encoding of a key 5 value in the data. -/
theorem parseHTTPSRecord_sound (data : List Nat) (ech : String)
    (h : parseHTTPSRecord data = some ech) (hne : ech ≠ "") :
    ∃ v, ech = stdEncode v ∧ CarriesKey5 data v := by
  simp only [parseHTTPSRecord] at h
  split at h
  · simp only [Option.some.injEq] at h
    exact absurd h.symm hne
  · have hcont : ∀ isRoot : Bool,
        (if isRoot = true then (some (2 + 1)).bind fun y => svcParamsLoop data.length data y
         else (Option.map (fun o => o + 1) (skipLabels data.length data 2)).bind
           fun y => svcParamsLoop data.length data y) = some ech →
        ∃ v, ech = stdEncode v ∧ CarriesKey5 data v := by
      intro isRoot h
      split at h
      · simp only [Option.some_bind] at h
        exact svcParamsLoop_sound _ data _ ech h hne
      · simp only [Option.bind_eq_some] at h
        obtain ⟨offset, _, h⟩ := h
        exact svcParamsLoop_sound _ data offset ech h hne
    simp only [Option.bind_eq_bind] at h
    split at h
    · simp only [Option.bind_eq_some] at h
      obtain ⟨isRoot, _, h⟩ := h
      exact hcont isRoot h
    · simp only [Option.some_bind] at h
      exact hcont false h

/-- A non-empty result of the answer loop is the encoding of a key 5 value in the response. -/
theorem answersLoop_sound (n : Nat) :
    ∀ (response : List Nat) (offset : Nat) (ech : String),
      answersLoop n response offset = some (.ok ech) → ech ≠ "" →
      ∃ v, ech = stdEncode v ∧ CarriesKey5 response v := by
  induction n with
  | zero =>
    intro response offset ech h hne
    simp only [answersLoop, Option.some.injEq, Except.ok.injEq] at h
    exact absurd h.symm hne
  | succ n ih =>
    intro response offset ech h hne
    simp only [answersLoop] at h
    split at h
    · simp only [Option.some.injEq, Except.ok.injEq] at h
      exact absurd h.symm hne
    · simp only [Option.bind_eq_bind, Option.bind_eq_some] at h
      obtain ⟨off1, _, h⟩ := h
      split at h
      · simp only [Option.some.injEq, Except.ok.injEq] at h
        exact absurd h.symm hne
      · simp only [Option.bind_eq_some] at h
        obtain ⟨rrType, _, dataLen, _, h⟩ := h
        split at h
        · simp only [Option.some.injEq, Except.ok.injEq] at h
          exact absurd h.symm hne
        · simp only [Option.bind_eq_some] at h
          obtain ⟨data, hdata, h⟩ := h
          split at h
          · simp only [Option.bind_eq_bind, Option.bind_eq_some] at h
            obtain ⟨ech1, hech1, h⟩ := h
            split at h
            · rename_i hne1
              simp only [Option.some.injEq, Except.ok.injEq] at h
              subst h
              obtain ⟨v, hv, hc⟩ := parseHTTPSRecord_sound data ech1 hech1 hne1
              exact ⟨v, hv, hc.mono (goSlice_within _ _ _ _ hdata)⟩
            · exact ih response _ ech h hne
          · exact ih response _ ech h hne

/-- A non-empty result of `parseDNSResponse` is the encoding of a key 5 value that the
response carries. -/
theorem parseDNSResponse_sound (response : List Nat) (ech : String)
    (h : parseDNSResponse response = some (.ok ech)) (hne : ech ≠ "") :
    ∃ v, ech = stdEncode v ∧ CarriesKey5 response v := by
  simp only [parseDNSResponse] at h
  split at h
  · simp at h
  · simp only [Option.bind_eq_bind, Option.bind_eq_some] at h
    obtain ⟨ancount, _, h⟩ := h
    split at h
    · simp at h
    · simp only [Option.bind_eq_some] at h
      obtain ⟨offset, _, h⟩ := h
      exact answersLoop_sound ancount response offset ech h hne

/-! ## `prepareECH` -/

/-- What an iteration stores is the non-empty value of a key 5 SvcParam carried by the
response that the iteration parsed. -/
theorem prepareRound_stored (echDomain : List Nat) (dnsServer : String) (net : DNSRound)
    (raw : List Nat) (hb : DeliversBytes net)
    (h : prepareRound echDomain dnsServer net = .stored raw) :
    raw ≠ [] ∧ ∃ resp, ParsedIn net echDomain dnsServer resp ∧
      parseDNSResponse resp = some (.ok (stdEncode raw)) ∧ CarriesKey5 resp raw := by
  have key : ∀ (resp : List Nat) (echBase64 : String), IsBytes resp →
      parseDNSResponse resp = some (.ok echBase64) → echBase64 ≠ "" →
      stdDecode echBase64 = some raw →
      raw ≠ [] ∧ parseDNSResponse resp = some (.ok (stdEncode raw)) ∧ CarriesKey5 resp raw := by
    intro resp echBase64 hbytes hparse hne hdec
    obtain ⟨v, rfl, hc⟩ := parseDNSResponse_sound resp echBase64 hparse hne
    have hv := stdDecode_stdEncode v (hc.isBytes hbytes)
    rw [hv] at hdec
    simp only [Option.some.injEq] at hdec
    subst hdec
    exact ⟨fun hnil => hne ((stdEncode_eq_empty v).mpr hnil), hparse, hc⟩
  have fin : ∀ (resp : List Nat) (echBase64 : String), IsBytes resp →
      ParsedIn net echDomain dnsServer resp → parseDNSResponse resp = some (.ok echBase64) →
      (if echBase64 = "" then RoundOutcome.retry
        else
          match stdDecode echBase64 with
          | none => RoundOutcome.retry
          | some raw => RoundOutcome.stored raw) = RoundOutcome.stored raw →
      raw ≠ [] ∧ ∃ resp, ParsedIn net echDomain dnsServer resp ∧
        parseDNSResponse resp = some (.ok (stdEncode raw)) ∧ CarriesKey5 resp raw := by
    intro resp echBase64 hbytes hin hparse hres
    split at hres
    · simp at hres
    · rename_i hne
      split at hres
      · simp at hres
      · rename_i raw1 hdec
        simp only [RoundOutcome.stored.injEq] at hres
        subst hres
        obtain ⟨h1, h2, h3⟩ := key resp echBase64 hbytes hparse hne hdec
        exact ⟨h1, resp, hin, h2, h3⟩
  unfold prepareRound at h
  cases hdoh : net.doh (buildDNSQuery echDomain typeHTTPS) with
  | ok resp =>
    have hbytes : IsBytes resp := (hb _ resp).1 hdoh
    simp only [queryHTTPSRecordViaDoH, hdoh] at h
    cases hp : parseDNSResponse resp with
    | none => simp [hp] at h
    | some first =>
      simp only [hp] at h
      cases first with
      | ok echBase64 => exact fin resp echBase64 hbytes (Or.inl hdoh) hp h
      | error e =>
        simp only [queryHTTPSRecord] at h
        cases hudp : net.udp dnsServer (buildDNSQuery echDomain typeHTTPS) with
        | error e2 => simp [hudp] at h
        | ok datagram =>
          have hbytes2 : IsBytes (datagram.take 4096) :=
            fun b hbm => (hb _ datagram).2 dnsServer hudp b (List.mem_of_mem_take hbm)
          simp only [hudp] at h
          cases hp2 : parseDNSResponse (datagram.take 4096) with
          | none => simp [hp2] at h
          | some res =>
            simp only [hp2] at h
            cases res with
            | error e3 => simp at h
            | ok echBase64 => exact fin _ echBase64 hbytes2 (Or.inr ⟨datagram, hudp, rfl⟩) hp2 h
  | error e =>
    simp only [queryHTTPSRecordViaDoH, hdoh, queryHTTPSRecord] at h
    cases hudp : net.udp dnsServer (buildDNSQuery echDomain typeHTTPS) with
    | error e2 => simp [hudp] at h
    | ok datagram =>
      have hbytes2 : IsBytes (datagram.take 4096) :=
        fun b hbm => (hb _ datagram).2 dnsServer hudp b (List.mem_of_mem_take hbm)
      simp only [hudp] at h
      cases hp2 : parseDNSResponse (datagram.take 4096) with
      | none => simp [hp2] at h
      | some res =>
        simp only [hp2] at h
        cases res with
        | error e3 => simp at h
        | ok echBase64 => exact fin _ echBase64 hbytes2 (Or.inr ⟨datagram, hudp, rfl⟩) hp2 h

/-- A call of `prepareECH` that returns has stored what its last iteration stored. -/
theorem prepareECH_done (echDomain : List Nat) (dnsServer : String) :
    ∀ (rounds : List DNSRound) (echList : List Nat) (err : Option String) (cached : List Nat),
      prepareECH echDomain dnsServer rounds echList = .done (err, cached) →
      err = none ∧ ∃ before net after, rounds = before ++ net :: after ∧
        prepareECH echDomain dnsServer before echList = .looping ∧
        prepareRound echDomain dnsServer net = .stored cached := by
  intro rounds
  induction rounds with
  | nil => intro echList err cached h; simp [prepareECH] at h
  | cons net rounds ih =>
    intro echList err cached h
    simp only [prepareECH] at h
    cases hr : prepareRound echDomain dnsServer net with
    | stored raw =>
      simp only [hr, Run.done.injEq, Prod.mk.injEq] at h
      obtain ⟨rfl, rfl⟩ := h
      exact ⟨rfl, [], net, rounds, rfl, rfl, hr⟩
    | retry =>
      simp only [hr] at h
      obtain ⟨he, before, net2, after, hrounds, hloop, hst⟩ := ih echList err cached h
      refine ⟨he, net :: before, net2, after, by simp [hrounds], ?_, hst⟩
      simp only [prepareECH, hr, hloop]
    | panicked => simp [hr] at h

/-- After a failed DoH query, a datagram that fits the read buffer and parses to the
encoding of a non-empty `v` makes the iteration store `v`. -/
theorem prepareRound_fallback (echDomain : List Nat) (dnsServer : String) (net : DNSRound)
    (e : String) (datagram v : List Nat)
    (hdoh : queryHTTPSRecordViaDoH net echDomain = some (.error e))
    (hudp : net.udp dnsServer (buildDNSQuery echDomain typeHTTPS) = .ok datagram)
    (hlen : datagram.length ≤ 4096)
    (hparse : parseDNSResponse datagram = some (.ok (stdEncode v)))
    (hv : v ≠ []) (hb : IsBytes v) :
    prepareRound echDomain dnsServer net = .stored v := by
  have htake : datagram.take 4096 = datagram := List.take_of_length_le hlen
  have hne : stdEncode v ≠ "" := fun h => hv ((stdEncode_eq_empty v).mp h)
  simp [prepareRound, hdoh, queryHTTPSRecord, hudp, htake, hparse, hne, stdDecode_stdEncode v hb]

/-- C2: `prepareECH` never returns an error; when it returns, the cached list is
non-empty and is the value `v` of a key 5 SvcParam carried by the DNS answer that its
last iteration parsed, the parser having returned the base64 encoding of `v` and the
decoding having given back `v`; and an iteration in which the DoH query fails and the
plain DNS answer is a valid HTTPS response with non-empty ECH value `v` makes the call
return with exactly `v` cached. -/
theorem prepareECH_caches_key5_value (echDomain : List Nat) (dnsServer : String) :
    (∀ rounds echList err cached,
      prepareECH echDomain dnsServer rounds echList = .done (err, cached) → err = none) ∧
    (∀ rounds echList err cached, (∀ net ∈ rounds, DeliversBytes net) →
      prepareECH echDomain dnsServer rounds echList = .done (err, cached) →
      cached ≠ [] ∧
      ∃ before net after resp, rounds = before ++ net :: after ∧
        prepareECH echDomain dnsServer before echList = .looping ∧
        ParsedIn net echDomain dnsServer resp ∧
        parseDNSResponse resp = some (.ok (stdEncode cached)) ∧
        stdDecode (stdEncode cached) = some cached ∧
        CarriesKey5 resp cached) ∧
    (∀ (net : DNSRound) (rounds : List DNSRound) (echList : List Nat) (e : String)
        (id flags qdcount ancount nscount arcount : Nat) (qlabels : List (List Nat))
        (qtype qclass rrclass priority : Nat) (name ttl rest v : List Nat)
        (target : List (List Nat)) (before after : List (Nat × List Nat)),
      queryHTTPSRecordViaDoH net echDomain = some (.error e) →
      net.udp dnsServer (buildDNSQuery echDomain typeHTTPS)
        = .ok (wireHeader id flags qdcount ancount nscount arcount
            ++ wireQuestion qlabels qtype qclass
            ++ name ++ wireRecordBody typeHTTPS rrclass ttl
                (wireHTTPSData priority target (before ++ (5, v) :: after)) ++ rest) →
      (wireHeader id flags qdcount ancount nscount arcount
            ++ wireQuestion qlabels qtype qclass
            ++ name ++ wireRecordBody typeHTTPS rrclass ttl
                (wireHTTPSData priority target (before ++ (5, v) :: after)) ++ rest).length
        ≤ 4096 →
      ancount ≠ 0 → (∀ l ∈ qlabels, IsLabel l) → IsOwnerName name → ttl.length = 4 →
      (∀ l ∈ target, l ≠ []) → (∀ p ∈ before, p.1 ≠ 5) → v ≠ [] → IsBytes v →
      prepareECH echDomain dnsServer (net :: rounds) echList = .done (none, v)) := by
  refine ⟨?_, ?_, ?_⟩
  · intro rounds echList err cached h
    exact (prepareECH_done echDomain dnsServer rounds echList err cached h).1
  · intro rounds echList err cached hbytes h
    obtain ⟨_, before, net, after, hrounds, hloop, hst⟩ :=
      prepareECH_done echDomain dnsServer rounds echList err cached h
    have hnet : DeliversBytes net := hbytes net (by simp [hrounds])
    obtain ⟨hne, resp, hin, hparse, hc⟩ :=
      prepareRound_stored echDomain dnsServer net cached hnet hst
    exact ⟨hne, before, net, after, resp, hrounds, hloop, hin, hparse,
      stdDecode_stdEncode cached (hc.isBytes (by
        rcases hin with h1 | ⟨d, h2, rfl⟩
        · exact (hnet _ resp).1 h1
        · exact fun b hbm => (hnet _ d).2 dnsServer h2 b (List.mem_of_mem_take hbm))), hc⟩
  · intro net rounds echList e id flags qdcount ancount nscount arcount qlabels qtype qclass
      rrclass priority name ttl rest v target before after hdoh hudp hlen han hq hn httl ht hb
      hv hbytes
    have hqne : ∀ l ∈ qlabels, l ≠ [] := by
      intro l hl hnil
      have := (hq l hl).1
      simp [hnil] at this
    have hrec := parseHTTPSRecord_wire priority target (before ++ (5, v) :: after) ht
    rw [firstKey5_append before after v hb] at hrec
    have hparse := (parseDNSResponse_https id flags qdcount ancount nscount arcount qlabels qtype
      qclass name ttl (wireHTTPSData priority target (before ++ (5, v) :: after)) rest rrclass
      (stdEncode v) han hqne hn httl hrec (by simpa [stdEncode_eq_empty] using hv)).2
    have hst := prepareRound_fallback echDomain dnsServer net e _ v hdoh hudp hlen hparse hv hbytes
    simp only [prepareECH, hst]

/-- Witness of C2: the example round, in which DoH fails and the DNS answer carries
`09 08 07`, makes `prepareECH` return with `09 08 07` cached. -/
theorem prepareECH_caches_key5_value_witness :
    queryHTTPSRecordViaDoH exampleRound [97] = some (.error "DoH 服务器返回错误状态码: 500") ∧
    prepareECH [97] "119.29.29.29:53" [exampleRound] [] = .done (none, [9, 8, 7]) :=
  ⟨rfl,
    (prepareECH_caches_key5_value [97] "119.29.29.29:53").2.2 exampleRound [] []
      "DoH 服务器返回错误状态码: 500" 1 0x8180 1 1 0 0 [[97]] 65 1 1 1 [0xC0, 0x0C] [0, 0, 0, 60] []
      [9, 8, 7] [] [] [] rfl rfl (by decide) (by decide) (by decide)
      (IsOwnerName.pointer _ _ (by decide)) rfl (by decide) (by decide) (by decide) (by decide)⟩

/-! ## `dialWebSocketWithECH` -/

/-- Under `RefreshReturns` a call of `refreshECH` returns and caches a non-empty list. -/
theorem refreshECH_returns {Pool : Type} (env : DialEnv Pool) (href : RefreshReturns env)
    (st : DialState) :
    ∃ raw, raw ≠ [] ∧ refreshECH env st = .done (none, raw) := by
  obtain ⟨hbytes, hret⟩ := href st.refreshes
  obtain ⟨⟨err, raw⟩, hr⟩ := hret st.echList
  obtain ⟨herr, before, net, after, hrounds, _, hst⟩ :=
    prepareECH_done env.echDomain env.dnsServer _ _ err raw hr
  have hnet : DeliversBytes net := hbytes net (by simp [hrounds])
  have hne := (prepareRound_stored env.echDomain env.dnsServer net raw hnet hst).1
  subst herr
  exact ⟨raw, hne, hr⟩

/-- One iteration of the retry loop when a list is cached and the root pool loads. -/
theorem dialLoop_step {Pool : Type} (env : DialEnv Pool) (serverName : String)
    (maxRetries : Int) (roots : Pool) (hroots : env.systemCertPool = .ok roots)
    (fuel : Nat) (attempt : Int) (st : DialState)
    (hle : attempt ≤ maxRetries) (hech : st.echList ≠ []) :
    dialLoop env serverName maxRetries (fuel + 1) attempt st =
      match env.dialOutcome st.dials with
      | .conn wsConn =>
        ⟨[.dial attempt st.echList (.conn wsConn)], { st with dials := st.dials + 1 },
          .done (.ok wsConn)⟩
      | .err dialErr =>
        if isECHError dialErr = true ∧ attempt < maxRetries then
          match refreshECH env { st with dials := st.dials + 1 } with
          | .done (_, echList) =>
            (dialLoop env serverName maxRetries fuel (attempt + 1)
              { echList := echList, dials := st.dials + 1, refreshes := st.refreshes + 1 }).after
              [.dial attempt st.echList (.err dialErr), .refreshed echList, .sleep]
          | .panicked =>
            ⟨[.dial attempt st.echList (.err dialErr), .refreshStuck],
              { st with dials := st.dials + 1 }, .panicked⟩
          | .looping =>
            ⟨[.dial attempt st.echList (.err dialErr), .refreshStuck],
              { st with dials := st.dials + 1 }, .looping⟩
        else
          ⟨[.dial attempt st.echList (.err dialErr)], { st with dials := st.dials + 1 },
            .done (.error dialErr)⟩ := by
  have hlen : st.echList.length ≠ 0 := by simpa using hech
  simp only [dialLoop, hle, if_true, getECHList, hlen, if_false, buildTLSConfigWithECH, hroots]
  cases hout : env.dialOutcome st.dials with
  | conn c => simp
  | err msg =>
    by_cases h1 : isECHError msg = true
    · by_cases h2 : attempt < maxRetries
      · simp only [h1, h2, if_true, and_self]
      · simp [h1, h2]
    · simp [h1]

/-- Without the system root pool no dial is made: with a cached list the loop returns an
error at once. -/
theorem dialLoop_no_roots {Pool : Type} (env : DialEnv Pool) (serverName : String)
    (maxRetries : Int) (e : String) (hroots : env.systemCertPool = .error e)
    (fuel : Nat) (attempt : Int) (st : DialState) (hech : st.echList ≠ []) :
    (dialLoop env serverName maxRetries fuel attempt st).events = [] ∧
    ∃ err, (dialLoop env serverName maxRetries fuel attempt st).result = .done (.error err) := by
  have hlen : st.echList.length ≠ 0 := by simpa using hech
  cases fuel with
  | zero => simp [dialLoop]
  | succ fuel =>
    by_cases hle : attempt ≤ maxRetries
    · simp [dialLoop, hle, getECHList, hlen, buildTLSConfigWithECH, hroots]
    · simp [dialLoop, hle]

/-- The first argument of the retry loop is no bound of its own: once it covers the
attempts that `maxRetries` still permits, more of it changes nothing. -/
theorem dialLoop_fuel {Pool : Type} (env : DialEnv Pool) (serverName : String)
    (maxRetries : Int) (fuel : Nat) :
    ∀ (attempt : Int) (st : DialState), maxRetries + 1 - attempt ≤ fuel →
      dialLoop env serverName maxRetries (fuel + 1) attempt st
        = dialLoop env serverName maxRetries fuel attempt st := by
  induction fuel with
  | zero =>
    intro attempt st h
    have : ¬ attempt ≤ maxRetries := by omega
    simp [dialLoop, this]
  | succ fuel ih =>
    intro attempt st h
    have ih1 : ∀ st2, dialLoop env serverName maxRetries (fuel + 1) (attempt + 1) st2
        = dialLoop env serverName maxRetries fuel (attempt + 1) st2 :=
      fun st2 => ih (attempt + 1) st2 (by push_cast at h ⊢; omega)
    rw [dialLoop, dialLoop]
    simp only [ih1]

/-- The shape of the events of the retry loop, entered at `attempt` with a cached list,
when the root pool loads and every refresh returns. -/
theorem dialLoop_trace {Pool : Type} (env : DialEnv Pool) (serverName : String)
    (maxRetries : Int) (roots : Pool) (hroots : env.systemCertPool = .ok roots)
    (href : RefreshReturns env) (fuel : Nat) :
    ∀ (attempt : Int) (st : DialState), st.echList ≠ [] →
      (fuel : Int) + attempt = maxRetries + 1 →
      ((dialLoop env serverName maxRetries fuel attempt st).events.filter Event.isDial).length
        ≤ fuel ∧
      (0 < fuel → (dialLoop env serverName maxRetries fuel attempt st).events[0]?
        = some (.dial attempt st.echList (env.dialOutcome st.dials))) ∧
      (∀ i k ech c, (dialLoop env serverName maxRetries fuel attempt st).events[i]?
          = some (.dial k ech (.conn c)) →
        i + 1 = (dialLoop env serverName maxRetries fuel attempt st).events.length ∧
        (dialLoop env serverName maxRetries fuel attempt st).result = .done (.ok c)) ∧
      (∀ i k ech msg, (dialLoop env serverName maxRetries fuel attempt st).events[i]?
          = some (.dial k ech (.err msg)) → isECHError msg = false →
        i + 1 = (dialLoop env serverName maxRetries fuel attempt st).events.length ∧
        (dialLoop env serverName maxRetries fuel attempt st).result = .done (.error msg)) ∧
      (∀ i k ech msg, (dialLoop env serverName maxRetries fuel attempt st).events[i]?
          = some (.dial k ech (.err msg)) → isECHError msg = true → k < maxRetries →
        ∃ raw out, raw ≠ [] ∧
          (dialLoop env serverName maxRetries fuel attempt st).events[i + 1]?
            = some (.refreshed raw) ∧
          (dialLoop env serverName maxRetries fuel attempt st).events[i + 2]? = some .sleep ∧
          (dialLoop env serverName maxRetries fuel attempt st).events[i + 3]?
            = some (.dial (k + 1) raw out)) ∧
      (∀ i k ech msg, (dialLoop env serverName maxRetries fuel attempt st).events[i]?
          = some (.dial k ech (.err msg)) → isECHError msg = true → ¬ k < maxRetries →
        i + 1 = (dialLoop env serverName maxRetries fuel attempt st).events.length ∧
        (dialLoop env serverName maxRetries fuel attempt st).result = .done (.error msg) ∧
        (dialLoop env serverName maxRetries fuel attempt st).state.echList = ech) ∧
      ∃ res, (dialLoop env serverName maxRetries fuel attempt st).result = .done res := by
  induction fuel with
  | zero =>
    intro attempt st _ _
    simp [dialLoop]
  | succ fuel ih =>
    intro attempt st hech hfuel
    have hle : attempt ≤ maxRetries := by omega
    rw [dialLoop_step env serverName maxRetries roots hroots fuel attempt st hle hech]
    cases hout : env.dialOutcome st.dials with
    | conn c =>
      refine ⟨by simp [Event.isDial], by simp, ?_, ?_, ?_, ?_, by simp⟩
      · intro i k ech c2 h
        rcases i with _ | i
        · simp at h; simp [h.2.2]
        · simp at h
      · intro i k ech msg h
        rcases i with _ | i <;> simp at h
      · intro i k ech msg h
        rcases i with _ | i <;> simp at h
      · intro i k ech msg h
        rcases i with _ | i <;> simp at h
    | err msg =>
      by_cases hc : isECHError msg = true ∧ attempt < maxRetries
      · obtain ⟨raw, hraw, href⟩ := refreshECH_returns env href { st with dials := st.dials + 1 }
        simp only [hc, and_self, if_true, href]
        obtain ⟨ihA, ihB, ihC, ihD, ihE, ihF, ihG⟩ := ih (attempt + 1)
          { echList := raw, dials := st.dials + 1, refreshes := st.refreshes + 1 } hraw
          (by push_cast at hfuel ⊢; omega)
        generalize dialLoop env serverName maxRetries fuel (attempt + 1)
          { echList := raw, dials := st.dials + 1, refreshes := st.refreshes + 1 } = r
          at ihA ihB ihC ihD ihE ihF ihG
        have hpos : 0 < fuel := by omega
        refine ⟨?_, by simp [DialRun.after], ?_, ?_, ?_, ?_, by simpa [DialRun.after] using ihG⟩
        · simp only [DialRun.after, List.cons_append, List.nil_append, List.filter_cons,
            Event.isDial, if_true, List.length_cons]
          simp
          omega
        · intro i k ech c2 h
          rcases i with _ | _ | _ | i
          · simp [DialRun.after] at h
          · simp [DialRun.after] at h
          · simp [DialRun.after] at h
          · have := ihC i k ech c2 (by simpa [DialRun.after] using h)
            simp only [DialRun.after, List.cons_append, List.nil_append, List.length_cons]
            exact ⟨by omega, this.2⟩
        · intro i k ech msg2 h hno
          rcases i with _ | _ | _ | i
          · simp [DialRun.after] at h
            rw [← h.2.2, hc.1] at hno
            exact absurd hno (by simp)
          · simp [DialRun.after] at h
          · simp [DialRun.after] at h
          · have := ihD i k ech msg2 (by simpa [DialRun.after] using h) hno
            simp only [DialRun.after, List.cons_append, List.nil_append, List.length_cons]
            exact ⟨by omega, this.2⟩
        · intro i k ech msg2 h hyes hk
          rcases i with _ | _ | _ | i
          · simp [DialRun.after] at h
            obtain ⟨rfl, _, _⟩ := h
            refine ⟨raw, env.dialOutcome (st.dials + 1), hraw, by simp [DialRun.after],
              by simp [DialRun.after], ?_⟩
            simpa [DialRun.after] using ihB hpos
          · simp [DialRun.after] at h
          · simp [DialRun.after] at h
          · obtain ⟨raw2, out2, h1, h2, h3, h4⟩ :=
              ihE i k ech msg2 (by simpa [DialRun.after] using h) hyes hk
            exact ⟨raw2, out2, h1, by simpa [DialRun.after] using h2,
              by simpa [DialRun.after] using h3, by simpa [DialRun.after] using h4⟩
        · intro i k ech msg2 h hyes hk
          rcases i with _ | _ | _ | i
          · simp [DialRun.after] at h
            exact absurd (h.1 ▸ hc.2) hk
          · simp [DialRun.after] at h
          · simp [DialRun.after] at h
          · have := ihF i k ech msg2 (by simpa [DialRun.after] using h) hyes hk
            simp only [DialRun.after, List.cons_append, List.nil_append, List.length_cons]
            exact ⟨by omega, this.2.1, this.2.2⟩
      · simp only [hc, if_false]
        refine ⟨by simp [Event.isDial], by simp, ?_, ?_, ?_, ?_, by simp⟩
        · intro i k ech c2 h
          rcases i with _ | i <;> simp at h
        · intro i k ech msg2 h _
          rcases i with _ | i
          · simp at h; simp [h.2.2]
          · simp at h
        · intro i k ech msg2 h hyes hk
          rcases i with _ | i
          · simp at h
            obtain ⟨rfl, _, rfl⟩ := h
            exact absurd ⟨hyes, hk⟩ hc
          · simp at h
        · intro i k ech msg2 h _ _
          rcases i with _ | i
          · simp at h; simp [h.2.2, h.2.1]
          · simp at h

theorem exampleDialEnv_refreshReturns : RefreshReturns exampleDialEnv := by
  intro n
  refine ⟨?_, fun echList => ⟨(none, [9, 8, 7]), ?_⟩⟩
  · intro net hnet
    simp only [exampleDialEnv, List.mem_singleton] at hnet
    subst hnet
    intro query resp
    refine ⟨fun h => by simp [exampleRound] at h, fun dnsServer h => ?_⟩
    simp only [exampleRound, Except.ok.injEq] at h
    subst h
    decide
  · have h : prepareRound [97] "119.29.29.29:53" exampleRound = .stored [9, 8, 7] := by decide
    simp only [exampleDialEnv, prepareECH, h]

/-- C8: with a cached list and refreshes that return, `dialWebSocketWithECH` makes at most `maxRetries` dials; a dial error that is not
ECH-related is the last event and is returned; an ECH-related dial error on attempt
`k < maxRetries` is followed by one `refreshECH`, the sleep and the dial of attempt
`k + 1`; a successful dial is the last event and is returned; and for `maxRetries ≤ 0`
the call returns an error without any event. -/
theorem dialWebSocketWithECH_retry_policy {Pool : Type} (env : DialEnv Pool)
    (maxRetries : Int) (st : DialState) (href : RefreshReturns env)
    (hech : st.echList ≠ []) :
    ((dialWebSocketWithECH env maxRetries st).events.filter Event.isDial).length
      ≤ maxRetries.toNat ∧
    (∀ i k ech msg, (dialWebSocketWithECH env maxRetries st).events[i]?
        = some (.dial k ech (.err msg)) → isECHError msg = false →
      i + 1 = (dialWebSocketWithECH env maxRetries st).events.length ∧
      (dialWebSocketWithECH env maxRetries st).result = .done (.error msg)) ∧
    (∀ i k ech msg, (dialWebSocketWithECH env maxRetries st).events[i]?
        = some (.dial k ech (.err msg)) → isECHError msg = true → k < maxRetries →
      ∃ raw out,
        (dialWebSocketWithECH env maxRetries st).events[i + 1]? = some (.refreshed raw) ∧
        (dialWebSocketWithECH env maxRetries st).events[i + 2]? = some .sleep ∧
        (dialWebSocketWithECH env maxRetries st).events[i + 3]?
          = some (.dial (k + 1) raw out)) ∧
    (∀ i k ech c, (dialWebSocketWithECH env maxRetries st).events[i]?
        = some (.dial k ech (.conn c)) →
      i + 1 = (dialWebSocketWithECH env maxRetries st).events.length ∧
      (dialWebSocketWithECH env maxRetries st).result = .done (.ok c)) ∧
    (maxRetries ≤ 0 → (dialWebSocketWithECH env maxRetries st).events = [] ∧
      ∃ e, (dialWebSocketWithECH env maxRetries st).result = .done (.error e)) := by
  unfold dialWebSocketWithECH
  cases hhost : env.hostname with
  | error e => simp
  | ok serverName =>
    simp only
    cases hroots : env.systemCertPool with
    | error e =>
      obtain ⟨hev, hres⟩ := dialLoop_no_roots env serverName maxRetries e hroots
        maxRetries.toNat 1 st hech
      simp [hev, hres]
    | ok roots =>
      by_cases hpos : 0 ≤ maxRetries
      · obtain ⟨hA, _, hC, hD, hE, _, _⟩ := dialLoop_trace env serverName maxRetries roots hroots
          href maxRetries.toNat 1 st hech (by omega)
        refine ⟨hA, hD, ?_, hC, ?_⟩
        · intro i k ech msg h hyes hk
          obtain ⟨raw, out, _, h1, h2, h3⟩ := hE i k ech msg h hyes hk
          exact ⟨raw, out, h1, h2, h3⟩
        · intro hle
          have h0 : maxRetries.toNat = 0 := by omega
          simp [h0, dialLoop]
      · have h0 : maxRetries.toNat = 0 := by omega
        simp [h0, dialLoop]

/-- Witness of C8: three permitted attempts, the first dial rejected for ECH, the second
successful. -/
theorem dialWebSocketWithECH_retry_policy_witness :
    RefreshReturns exampleDialEnv ∧ ([1, 2, 3] : List Nat) ≠ [] ∧
    (dialWebSocketWithECH exampleDialEnv 3 ⟨[1, 2, 3], 0, 0⟩).events
      = [.dial 1 [1, 2, 3] (.err "tls: server rejected ECH"), .refreshed [9, 8, 7], .sleep,
         .dial 2 [9, 8, 7] (.conn 7)] ∧
    ((dialWebSocketWithECH exampleDialEnv 3 ⟨[1, 2, 3], 0, 0⟩).events.filter Event.isDial).length
      ≤ (3 : Int).toNat :=
  ⟨exampleDialEnv_refreshReturns, by decide, by decide,
    (dialWebSocketWithECH_retry_policy exampleDialEnv 3 ⟨[1, 2, 3], 0, 0⟩
      exampleDialEnv_refreshReturns (by decide)).1⟩

/-- C9, counterexample: with `maxRetries = 1` the only dial fails with an ECH-related
error; the call returns it without any `refreshECH`, the rejected list stays cached, and
the next call dials with that same list. -/
theorem dialWebSocketWithECH_last_attempt_counterexample :
    isECHError "tls: server rejected ECH" = true ∧
    dialWebSocketWithECH exampleDialEnv 1 ⟨[1, 2, 3], 0, 0⟩
      = ⟨[.dial 1 [1, 2, 3] (.err "tls: server rejected ECH")], ⟨[1, 2, 3], 1, 0⟩,
          .done (.error "tls: server rejected ECH")⟩ ∧
    ((dialWebSocketWithECH exampleDialEnv 1 ⟨[1, 2, 3], 0, 0⟩).events.filter
      Event.isRefresh) = [] ∧
    (dialWebSocketWithECH exampleDialEnv 1
      (dialWebSocketWithECH exampleDialEnv 1 ⟨[1, 2, 3], 0, 0⟩).state).events
      = [.dial 1 [1, 2, 3] (.conn 7)] := by
  decide

/-- C9, amended: an ECH-related dial failure on attempt `k < maxRetries` is followed by
`refreshECH` before the next dial, and that dial (attempt `k + 1`) uses the non-empty
list which this refresh cached; an ECH-related failure on the last permitted attempt is
returned without a refresh, the cached list being the one that was used. -/
theorem dialWebSocketWithECH_refresh_before_retry {Pool : Type} (env : DialEnv Pool)
    (maxRetries : Int) (st : DialState) (href : RefreshReturns env)
    (hech : st.echList ≠ []) (hmax : 1 ≤ maxRetries) :
    (∀ i k ech msg, (dialWebSocketWithECH env maxRetries st).events[i]?
        = some (.dial k ech (.err msg)) → isECHError msg = true → k < maxRetries →
      ∃ raw out, raw ≠ [] ∧
        (dialWebSocketWithECH env maxRetries st).events[i + 1]? = some (.refreshed raw) ∧
        (dialWebSocketWithECH env maxRetries st).events[i + 3]?
          = some (.dial (k + 1) raw out)) ∧
    (∀ i k ech msg, (dialWebSocketWithECH env maxRetries st).events[i]?
        = some (.dial k ech (.err msg)) → isECHError msg = true → ¬ k < maxRetries →
      i + 1 = (dialWebSocketWithECH env maxRetries st).events.length ∧
      (dialWebSocketWithECH env maxRetries st).result = .done (.error msg) ∧
      (dialWebSocketWithECH env maxRetries st).state.echList = ech) := by
  unfold dialWebSocketWithECH
  cases hhost : env.hostname with
  | error e => simp
  | ok serverName =>
    simp only
    cases hroots : env.systemCertPool with
    | error e =>
      obtain ⟨hev, _⟩ := dialLoop_no_roots env serverName maxRetries e hroots
        maxRetries.toNat 1 st hech
      simp [hev]
    | ok roots =>
      obtain ⟨_, _, _, _, hE, hF, _⟩ := dialLoop_trace env serverName maxRetries roots hroots
        href maxRetries.toNat 1 st hech (by omega)
      refine ⟨?_, hF⟩
      intro i k ech msg h hyes hk
      obtain ⟨raw, out, h0, h1, _, h3⟩ := hE i k ech msg h hyes hk
      exact ⟨raw, out, h0, h1, h3⟩

/-- Witness of C9 as amended. -/
theorem dialWebSocketWithECH_refresh_before_retry_witness :
    RefreshReturns exampleDialEnv ∧ ([1, 2, 3] : List Nat) ≠ [] ∧ (1 : Int) ≤ 2 ∧
    (dialWebSocketWithECH exampleDialEnv 2 ⟨[1, 2, 3], 0, 0⟩).events[0]?
      = some (.dial 1 [1, 2, 3] (.err "tls: server rejected ECH")) ∧
    ∃ raw out, raw ≠ [] ∧
      (dialWebSocketWithECH exampleDialEnv 2 ⟨[1, 2, 3], 0, 0⟩).events[0 + 1]?
        = some (.refreshed raw) ∧
      (dialWebSocketWithECH exampleDialEnv 2 ⟨[1, 2, 3], 0, 0⟩).events[0 + 3]?
        = some (.dial (1 + 1) raw out) :=
  ⟨exampleDialEnv_refreshReturns, by decide, by decide, by decide,
    (dialWebSocketWithECH_refresh_before_retry exampleDialEnv 2 ⟨[1, 2, 3], 0, 0⟩
      exampleDialEnv_refreshReturns (by decide) (by decide)).1 0 1 [1, 2, 3]
      "tls: server rejected ECH" (by decide) (by decide) (by decide)⟩

/-! ## SOCKS5 method negotiation -/

/-- C10, the failing input: the address `proxy://u:@127.0.0.1:1080` configures the user
name `u` with an empty password, for which `runProxyServer` logs that authentication is
enabled.  To a client that offers only USER_PASS (0x02) the handler replies `05 00`
(NO_AUTH) and goes on to the request without any authentication. -/
theorem handleSOCKS5Protocol_username_only :
    parseProxyAddr "proxy://u:@127.0.0.1:1080" = .ok ⟨"u", "", "127.0.0.1:1080"⟩ ∧
    announcesAuth ⟨"u", "", "127.0.0.1:1080"⟩ = true ∧
    handleSOCKS5Protocol ⟨[1, 0x02, 5, 1, 0, 1, 10, 0, 0, 1, 0, 80], [], false⟩
        ⟨"u", "", "127.0.0.1:1080"⟩
      = (⟨[5, 1, 0, 1, 10, 0, 0, 1, 0, 80], [[0x05, NoAuth]], false⟩, .request) := by
  decide

/-! ## HTTP proxy authentication -/

theorem takeWhile_ne_append (sep : Nat) (a b : List Nat) (h : sep ∉ a) :
    (a ++ sep :: b).takeWhile (fun x => decide (x ≠ sep)) = a := by
  induction a with
  | nil => simp [List.takeWhile]
  | cons x xs ih =>
    have hx : x ≠ sep := fun e => h (by simp [e])
    have := ih (fun m => h (by simp [m]))
    rw [List.cons_append, List.takeWhile_cons]
    simp only [hx, ne_eq, not_false_eq_true, decide_True, if_true]
    exact congrArg _ this

theorem dropWhile_ne_append (sep : Nat) (a b : List Nat) (h : sep ∉ a) :
    (a ++ sep :: b).dropWhile (fun x => decide (x ≠ sep)) = sep :: b := by
  induction a with
  | nil => simp [List.dropWhile]
  | cons x xs ih =>
    have hx : x ≠ sep := fun e => h (by simp [e])
    have := ih (fun m => h (by simp [m]))
    rw [List.cons_append, List.dropWhile_cons]
    simp only [hx, ne_eq, not_false_eq_true, decide_True, if_true]
    exact this

theorem dropWhile_ne_head (sep : Nat) (s : List Nat) (x : Nat) (xs : List Nat)
    (h : s.dropWhile (fun b => decide (b ≠ sep)) = x :: xs) : x = sep := by
  induction s with
  | nil => simp at h
  | cons y ys ih =>
    by_cases hy : y = sep
    · simp only [List.dropWhile, hy, ne_eq, not_true_eq_false, decide_False, List.cons.injEq] at h
      exact h.1.symm
    · simp only [List.dropWhile, hy, ne_eq, not_false_eq_true, decide_True] at h
      exact ih h

theorem splitFirstByte_append (sep : Nat) (a b : List Nat) (h : sep ∉ a) :
    splitFirstByte sep (a ++ sep :: b) = some (a, b) := by
  have hmem : sep ∈ a ++ sep :: b := by simp
  simp only [splitFirstByte, hmem, if_true, takeWhile_ne_append sep a b h,
    dropWhile_ne_append sep a b h, List.drop_succ_cons, List.drop_zero]

theorem splitFirstByte_eq_some (sep : Nat) (s a b : List Nat)
    (h : splitFirstByte sep s = some (a, b)) : s = a ++ sep :: b ∧ sep ∉ a := by
  unfold splitFirstByte at h
  split at h
  · rename_i hmem
    simp only [Option.some.injEq, Prod.mk.injEq] at h
    obtain ⟨ha, hb⟩ := h
    have hsplit := List.takeWhile_append_dropWhile (fun x => decide (x ≠ sep)) s
    have hna : sep ∉ a := by
      intro hin
      rw [← ha] at hin
      have := List.mem_takeWhile_imp hin
      simp at this
    have hne : s.dropWhile (fun x => decide (x ≠ sep)) ≠ [] := by
      intro hnil
      rw [hnil, List.append_nil] at hsplit
      rw [← hsplit] at hmem
      have := List.mem_takeWhile_imp hmem
      simp at this
    obtain ⟨x, xs, hx⟩ := List.exists_cons_of_ne_nil hne
    have hhead : x = sep := dropWhile_ne_head sep s x xs hx
    rw [hx] at hb hsplit
    simp only [List.drop_succ_cons, List.drop_zero] at hb
    subst hhead hb
    rw [ha] at hsplit
    exact ⟨hsplit.symm, hna⟩
  · exact absurd h (by simp)

/-- C11: for a user name without `:`, `validateProxyAuth` accepts a header exactly when
it is `Basic ` followed by a string that the standard base64 decoder decodes to the
bytes `username:password`; the empty header, a header that does not start with `Basic `,
a string that does not decode and a decoded value without `:` are rejected. -/
theorem validateProxyAuth_iff (authHeader username password : List Nat)
    (hu : 58 ∉ username) :
    (validateProxyAuth authHeader username password = true ↔
      ∃ encoded, authHeader = goBytes "Basic " ++ encoded ∧
        stdDecodeBytes encoded = some (username ++ [58] ++ password)) ∧
    validateProxyAuth [] username password = false ∧
    (¬ (goBytes "Basic " <+: authHeader) →
      validateProxyAuth authHeader username password = false) ∧
    (∀ encoded, stdDecodeBytes encoded = none →
      validateProxyAuth (goBytes "Basic " ++ encoded) username password = false) ∧
    (∀ encoded decoded, stdDecodeBytes encoded = some decoded → 58 ∉ decoded →
      validateProxyAuth (goBytes "Basic " ++ encoded) username password = false) := by
  have hB : goBytes "Basic " = [66, 97, 115, 105, 99, 32] := by decide
  have hval : ∀ encoded, validateProxyAuth (goBytes "Basic " ++ encoded) username password =
      match stdDecodeBytes encoded with
      | none => false
      | some decoded =>
        match splitFirstByte 58 decoded with
        | none => false
        | some (user, pass) => user == username && pass == password := by
    intro encoded
    simp [validateProxyAuth, hB]
  refine ⟨?_, by simp [validateProxyAuth], ?_, ?_, ?_⟩
  · constructor
    · intro h
      by_cases hp : goBytes "Basic " <+: authHeader
      · obtain ⟨encoded, rfl⟩ := hp
        refine ⟨encoded, rfl, ?_⟩
        rw [hval] at h
        cases hdec : stdDecodeBytes encoded with
        | none => simp [hdec] at h
        | some decoded =>
          simp only [hdec] at h
          cases hs : splitFirstByte 58 decoded with
          | none => simp [hs] at h
          | some up =>
            obtain ⟨user, pass⟩ := up
            simp only [hs, Bool.and_eq_true, beq_iff_eq] at h
            obtain ⟨rfl, rfl⟩ := h
            obtain ⟨hd, _⟩ := splitFirstByte_eq_some 58 decoded user pass hs
            simp [hd]
      · simp [validateProxyAuth, hp] at h
    · rintro ⟨encoded, rfl, hdec⟩
      rw [hval, hdec]
      have := splitFirstByte_append 58 username password hu
      simp only [List.append_assoc, List.singleton_append, this]
      simp
  · intro hp
    simp [validateProxyAuth, hp]
  · intro encoded hdec
    rw [hval, hdec]
  · intro encoded decoded hdec hno
    rw [hval, hdec]
    simp [splitFirstByte, hno]

/-- Witness of C11: user `u`, password `p`, header `Basic dTpw`. -/
theorem validateProxyAuth_iff_witness :
    (58 ∉ goBytes "u") ∧
    stdDecodeBytes (goBytes "dTpw") = some (goBytes "u" ++ [58] ++ goBytes "p") ∧
    (validateProxyAuth (goBytes "Basic dTpw") (goBytes "u") (goBytes "p") = true ↔
      ∃ encoded, goBytes "Basic dTpw" = goBytes "Basic " ++ encoded ∧
        stdDecodeBytes encoded = some (goBytes "u" ++ [58] ++ goBytes "p")) ∧
    validateProxyAuth (goBytes "Basic dTpw") (goBytes "u") (goBytes "p") = true :=
  ⟨by decide, by decide,
    (validateProxyAuth_iff (goBytes "Basic dTpw") (goBytes "u") (goBytes "p") (by decide)).1,
    by decide⟩

/-! ## The request rebuilt by `handleHTTPForward` -/

theorem foldl_headerLines (keep : List Nat × List Nat → Prop) [DecidablePred keep]
    (l : Headers) :
    ∀ init : List Nat,
      l.foldl (fun buffer kv => if keep kv then buffer ++ headerLine kv else buffer) init
        = init ++ ((l.filter (fun kv => decide (keep kv))).map headerLine).flatten := by
  induction l with
  | nil => intro init; simp
  | cons kv rest ih =>
    intro init
    by_cases hk : keep kv
    · simp [List.foldl_cons, hk, ih, List.filter_cons]
    · simp [List.foldl_cons, hk, ih, List.filter_cons]

theorem filter_key_of_get (l : Headers) (key : List Nat)
    (hnodup : (l.map Prod.fst).Nodup) :
    l.filter (fun kv => decide (kv.1 = key)) =
      match headerGet l key with
      | some v => [(key, v)]
      | none => [] := by
  induction l with
  | nil => simp [headerGet]
  | cons kv rest ih =>
    simp only [List.map_cons, List.nodup_cons] at hnodup
    have ih1 := ih hnodup.2
    by_cases hk : kv.1 = key
    · have hnot : ∀ x ∈ rest, ¬ x.1 = key := by
        intro x hx hxk
        exact hnodup.1 (List.mem_map.mpr ⟨x, hx, by rw [hxk, hk]⟩)
      have hrest : rest.filter (fun kv => decide (kv.1 = key)) = [] := by
        simp only [List.filter_eq_nil_iff, decide_eq_true_eq]
        exact hnot
      obtain ⟨k, v⟩ := kv
      simp only at hk
      subst hk
      simp [headerGet, List.filter_cons, hrest]
    · have hbeq : (kv.1 == key) = false := by simpa using hk
      simp only [List.filter_cons, hk, decide_False, headerGet, List.find?_cons, hbeq]
      simpa [headerGet] using ih1

theorem headerGet_perm (l1 l2 : Headers) (key : List Nat) (hperm : l1.Perm l2)
    (hnodup : (l2.map Prod.fst).Nodup) : headerGet l1 key = headerGet l2 key := by
  have hnodup1 : (l1.map Prod.fst).Nodup := (hperm.map Prod.fst).nodup_iff.mpr hnodup
  have h1 := filter_key_of_get l1 key hnodup1
  have h2 := filter_key_of_get l2 key hnodup
  have hp : (l1.filter (fun kv => decide (kv.1 = key))).Perm
      (l2.filter (fun kv => decide (kv.1 = key))) := hperm.filter _
  rw [h1, h2] at hp
  cases hg1 : headerGet l1 key with
  | none =>
    cases hg2 : headerGet l2 key with
    | none => rfl
    | some v2 => simp [hg1, hg2] at hp
  | some v1 =>
    cases hg2 : headerGet l2 key with
    | none => simp [hg1, hg2] at hp
    | some v2 =>
      simp only [hg1, hg2, List.perm_singleton, List.cons.injEq, Prod.mk.injEq, and_true,
        true_and] at hp
      rw [hp]

/-- C12: the rebuilt request is the line `METHOD path[?query] HTTP/1.1`, header lines,
an empty line and the body, where the path is that of the URL (`/` when it is empty, never
the absolute URI); no header line has the name `Proxy-Authorization` or
`Proxy-Connection`; and exactly one header line has the name `Host`, with the value of the
client if it sent one and the host of the URL otherwise. -/
theorem rebuildRequest_sanitized (order : Headers → Headers) (method : List Nat) (url : URL)
    (headers : Headers) (bodyData : List Nat)
    (hperm : (order headers).Perm headers) (hnodup : (headers.map Prod.fst).Nodup) :
    ∃ lines : Headers,
      rebuildRequest order method url headers bodyData
        = method ++ goBytes " "
          ++ ((if url.Path = [] then goBytes "/" else url.Path)
              ++ (if url.RawQuery = [] then [] else goBytes "?" ++ url.RawQuery))
          ++ goBytes " HTTP/1.1\r\n"
          ++ (lines.map headerLine).flatten ++ goBytes "\r\n" ++ bodyData ∧
      (∀ kv ∈ lines, kv.1 ≠ goBytes "Proxy-Authorization" ∧
        kv.1 ≠ goBytes "Proxy-Connection") ∧
      lines.filter (fun kv => decide (kv.1 = goBytes "Host"))
        = [(goBytes "Host", (headerGet headers (goBytes "Host")).getD url.Host)] := by
  have hnodup1 : ((order headers).map Prod.fst).Nodup :=
    (hperm.map Prod.fst).nodup_iff.mpr hnodup
  have hget := headerGet_perm (order headers) headers (goBytes "Host") hperm hnodup
  have hfilter := filter_key_of_get (order headers) (goBytes "Host") hnodup1
  have hHostPA : goBytes "Host" ≠ goBytes "Proxy-Authorization" := by decide
  have hHostPC : goBytes "Host" ≠ goBytes "Proxy-Connection" := by decide
  refine ⟨(order headers).filter (fun kv => decide (kv.1 ≠ goBytes "Proxy-Authorization" ∧
      kv.1 ≠ goBytes "Proxy-Connection"))
    ++ (if (headerGet headers (goBytes "Host")).isNone then [(goBytes "Host", url.Host)] else []),
    ?_, ?_, ?_⟩
  · simp only [rebuildRequest]
    rw [foldl_headerLines (fun kv => kv.1 ≠ goBytes "Proxy-Authorization" ∧
      kv.1 ≠ goBytes "Proxy-Connection")]
    by_cases hq : url.RawQuery = [] <;> by_cases hh : (headerGet headers (goBytes "Host")).isNone
      <;> simp [hq, hh, List.append_assoc]
  · intro kv hkv
    simp only [List.mem_append, List.mem_filter, decide_eq_true_eq] at hkv
    rcases hkv with h | h
    · exact h.2
    · split at h
      · simp only [List.mem_singleton] at h
        subst h
        exact ⟨hHostPA, hHostPC⟩
      · simp at h
  · rw [List.filter_append, List.filter_filter]
    have hcomm : (order headers).filter (fun a => decide (a.1 = goBytes "Host") &&
        decide (a.1 ≠ goBytes "Proxy-Authorization" ∧ a.1 ≠ goBytes "Proxy-Connection"))
        = (order headers).filter (fun kv => decide (kv.1 = goBytes "Host")) := by
      apply List.filter_congr
      intro kv _
      by_cases hk : kv.1 = goBytes "Host"
      · simp [hk, hHostPA, hHostPC]
      · simp [hk]
    rw [hcomm, hfilter, hget]
    cases hg : headerGet headers (goBytes "Host") with
    | none => simp
    | some v => simp

/-- Witness of C12: `GET http://h/p?q` with the headers `Host: h` and
`Proxy-Authorization`, visited in either order, gives exactly
`GET /p?q HTTP/1.1\r\nHost: h\r\n\r\n`. -/
theorem rebuildRequest_sanitized_witness :
    rebuildRequest (fun h => h) (goBytes "GET")
        ⟨goBytes "http", goBytes "h", goBytes "/p", goBytes "q"⟩
        [(goBytes "Host", goBytes "h"), (goBytes "Proxy-Authorization", goBytes "Basic dTpw")] []
      = goBytes "GET /p?q HTTP/1.1\r\nHost: h\r\n\r\n" ∧
    rebuildRequest List.reverse (goBytes "GET")
        ⟨goBytes "http", goBytes "h", goBytes "/p", goBytes "q"⟩
        [(goBytes "Host", goBytes "h"), (goBytes "Proxy-Authorization", goBytes "Basic dTpw")] []
      = goBytes "GET /p?q HTTP/1.1\r\nHost: h\r\n\r\n" ∧
    handleHTTPProtocol exampleProxyEnv ⟨"", "", ""⟩ 71
        [goBytes "ET http://h/p?q HTTP/1.1\r\nHost: h\r\nProxy-Authorization: Basic dTpw\r\n\r\n"]
      = [.registerAndClaim (goBytes "h:80") (goBytes "GET /p?q HTTP/1.1\r\nHost: h\r\n\r\n"),
         .sendClose] ∧
    ∃ lines : Headers,
      rebuildRequest List.reverse (goBytes "GET")
          ⟨goBytes "http", goBytes "h", goBytes "/p", goBytes "q"⟩
          [(goBytes "Host", goBytes "h"), (goBytes "Proxy-Authorization", goBytes "Basic dTpw")] []
        = goBytes "GET" ++ goBytes " "
          ++ ((if (⟨goBytes "http", goBytes "h", goBytes "/p", goBytes "q"⟩ : URL).Path = []
                then goBytes "/"
                else (⟨goBytes "http", goBytes "h", goBytes "/p", goBytes "q"⟩ : URL).Path)
              ++ (if (⟨goBytes "http", goBytes "h", goBytes "/p", goBytes "q"⟩ : URL).RawQuery = []
                then []
                else goBytes "?"
                  ++ (⟨goBytes "http", goBytes "h", goBytes "/p", goBytes "q"⟩ : URL).RawQuery))
          ++ goBytes " HTTP/1.1\r\n"
          ++ (lines.map headerLine).flatten ++ goBytes "\r\n" ++ [] ∧
      (∀ kv ∈ lines, kv.1 ≠ goBytes "Proxy-Authorization" ∧
        kv.1 ≠ goBytes "Proxy-Connection") ∧
      lines.filter (fun kv => decide (kv.1 = goBytes "Host"))
        = [(goBytes "Host",
            (headerGet [(goBytes "Host", goBytes "h"),
              (goBytes "Proxy-Authorization", goBytes "Basic dTpw")] (goBytes "Host")).getD
              (⟨goBytes "http", goBytes "h", goBytes "/p", goBytes "q"⟩ : URL).Host)] :=
  ⟨by decide, by decide, by decide,
    rebuildRequest_sanitized List.reverse (goBytes "GET")
      ⟨goBytes "http", goBytes "h", goBytes "/p", goBytes "q"⟩
      [(goBytes "Host", goBytes "h"), (goBytes "Proxy-Authorization", goBytes "Basic dTpw")] []
      (List.reverse_perm _) (by decide)⟩

/-! ## The fuel of the reader loops -/

/-- The fuel that `relayAndClose` gives to the relay loop is never used up: beyond the
number of bytes and reads that the connection still delivers, more fuel changes
nothing. -/
theorem relayLoop_fuel (env : ProxyEnv) :
    ∀ (fuel : Nat) (pending : List (List Nat)) (sent : Nat),
      (pending.map List.length).sum + pending.length < fuel →
      relayLoop env fuel pending sent = relayLoop env (fuel + 1) pending sent := by
  intro fuel
  induction fuel with
  | zero => intro pending sent h; omega
  | succ fuel ih =>
    intro pending sent h
    cases pending with
    | nil => simp [relayLoop, readChunk]
    | cons c rest =>
      simp only [List.map_cons, List.sum_cons, List.length_cons] at h
      by_cases hc : c.length ≤ 32768
      · have hr : readChunk 32768 (c :: rest) = some (c, rest) := by simp [readChunk, hc]
        rw [relayLoop, relayLoop, hr]
        simp only
        rw [ih rest (sent + 1) (by omega)]
      · have hr : readChunk 32768 (c :: rest) = some (c.take 32768, c.drop 32768 :: rest) := by
          simp [readChunk, hc]
        rw [relayLoop, relayLoop, hr]
        simp only
        rw [ih (c.drop 32768 :: rest) (sent + 1)
          (by simp only [List.map_cons, List.sum_cons, List.length_cons, List.length_drop]; omega)]

/-- One read of a connection that has a chunk to deliver. -/
theorem readChunk_cons (room : Nat) (c : List Nat) (rest : List (List Nat)) :
    readChunk room (c :: rest)
      = if c.length ≤ room then some (c, rest) else some (c.take room, c.drop room :: rest) := by
  simp [readChunk]

/-- The fuel that `readString` gives to its loop is never used up: beyond twice the
number of bytes and reads that the underlying reader still delivers, plus one for a full
buffer, more fuel changes nothing. -/
theorem readStringLoop_fuel :
    ∀ (fuel : Nat) (acc : List Nat) (r : BufReader),
      2 * ((r.pending.map List.length).sum + r.pending.length)
          + (if r.buf.length ≥ bufSize then 1 else 0) < fuel →
      readStringLoop fuel acc r = readStringLoop (fuel + 1) acc r := by
  intro fuel
  induction fuel with
  | zero => intro acc r h; omega
  | succ fuel ih =>
    intro acc r h
    obtain ⟨buf, pending⟩ := r
    simp only at h
    rw [readStringLoop, readStringLoop]
    by_cases h10 : 10 ∈ buf
    · simp only [h10, if_true]
    · simp only [h10, if_false]
      by_cases hfull : buf.length ≥ bufSize
      · simp only [hfull, if_true] at h ⊢
        apply ih
        simp only [List.length_nil, bufSize]
        have : ¬ (0 ≥ 4096) := by omega
        simp only [this, if_false]
        omega
      · simp only [hfull, if_false] at h ⊢
        cases pending with
        | nil => simp [readChunk]
        | cons c rest =>
          simp only [List.map_cons, List.sum_cons, List.length_cons] at h
          rw [readChunk_cons]
          by_cases hc : c.length ≤ bufSize - buf.length
          · simp only [hc, if_true]
            apply ih
            simp only
            split <;> omega
          · simp only [hc, if_false]
            apply ih
            simp only [List.map_cons, List.sum_cons, List.length_cons, List.length_drop]
            split <;> omega

theorem dropWhile_drop_length_lt (sep : Nat) (l : List Nat) (h : sep ∈ l) :
    ((l.dropWhile (fun b => decide (b ≠ sep))).drop 1).length < l.length := by
  have h1 := List.dropWhile_sublist (fun b => decide (b ≠ sep)) (l := l)
  have h2 := h1.length_le
  have h3 : l.dropWhile (fun b => decide (b ≠ sep)) ≠ [] := by
    intro he
    rw [List.dropWhile_eq_nil_iff] at he
    have := he sep h
    simp at this
  have h4 : 0 < (l.dropWhile (fun b => decide (b ≠ sep))).length := List.length_pos.mpr h3
  rw [List.length_drop]
  omega

/-- A successful `ReadString` consumes at least one byte: the reader afterwards holds or
will be given fewer bytes, and not more reads. -/
theorem readStringLoop_consumes :
    ∀ (fuel : Nat) (acc : List Nat) (r : BufReader) (line : List Nat) (r2 : BufReader),
      readStringLoop fuel acc r = .ok (line, r2) →
      r2.buf.length + (r2.pending.map List.length).sum
          < r.buf.length + (r.pending.map List.length).sum ∧
        r2.pending.length ≤ r.pending.length := by
  intro fuel
  induction fuel with
  | zero => intro acc r line r2 h; simp [readStringLoop] at h
  | succ fuel ih =>
    intro acc r line r2 h
    obtain ⟨buf, pending⟩ := r
    rw [readStringLoop] at h
    by_cases h10 : 10 ∈ buf
    · simp only [h10, if_true, Except.ok.injEq, Prod.mk.injEq] at h
      obtain ⟨_, rfl⟩ := h
      have := dropWhile_drop_length_lt 10 buf h10
      simp only
      omega
    · simp only [h10, if_false] at h
      by_cases hfull : buf.length ≥ bufSize
      · simp only [hfull, if_true] at h
        have := ih _ _ _ _ h
        simp only [List.length_nil] at this ⊢
        omega
      · simp only [hfull, if_false] at h
        cases pending with
        | nil => simp [readChunk] at h
        | cons c rest =>
          rw [readChunk_cons] at h
          by_cases hc : c.length ≤ bufSize - buf.length
          · simp only [hc, if_true] at h
            have := ih _ _ _ _ h
            simp only [List.length_append, List.map_cons, List.sum_cons,
              List.length_cons] at this ⊢
            omega
          · simp only [hc, if_false] at h
            have := ih _ _ _ _ h
            simp only [List.length_append, List.map_cons, List.sum_cons, List.length_cons,
              List.length_take, List.length_drop] at this ⊢
            omega

/-- The fuel that `readHTTPHeaders` gives to its loop is never used up. -/
theorem readHTTPHeadersLoop_fuel :
    ∀ (fuel : Nat) (reader : BufReader) (headers : Headers),
      reader.buf.length + (reader.pending.map List.length).sum < fuel →
      readHTTPHeadersLoop fuel reader headers = readHTTPHeadersLoop (fuel + 1) reader headers := by
  intro fuel
  induction fuel with
  | zero => intro reader headers h; omega
  | succ fuel ih =>
    intro reader headers h
    rw [readHTTPHeadersLoop, readHTTPHeadersLoop]
    cases hr : reader.readString with
    | error err => rfl
    | ok res =>
      obtain ⟨line, reader2⟩ := res
      have hlt := (readStringLoop_consumes _ _ _ _ _ hr).1
      simp only
      by_cases hl : trimSpace line = []
      · simp only [hl, if_true]
      · simp only [hl, if_false]
        cases splitFirstByte 58 (trimSpace line) with
        | none => exact ih _ _ (by omega)
        | some kv => exact ih _ _ (by omega)

/-- The fuel of `readHTTPHeaders` suffices: with any additional fuel the loop returns what
`readHTTPHeaders` returns. -/
theorem readHTTPHeaders_fuel (reader : BufReader) (extra : Nat) :
    readHTTPHeadersLoop (reader.steps + 1 + extra) reader [] = readHTTPHeaders reader := by
  induction extra with
  | zero => rfl
  | succ extra ih =>
    have h := readHTTPHeadersLoop_fuel (reader.steps + 1 + extra) reader []
      (by simp only [BufReader.steps]; omega)
    exact h.symm.trans ih

/-- The fuel of `ReadString` suffices: with any additional fuel the loop returns what
`readString` returns. -/
theorem readString_fuel (r : BufReader) (extra : Nat) :
    readStringLoop (r.steps + extra) [] r = r.readString := by
  induction extra with
  | zero => rfl
  | succ extra ih =>
    have h := readStringLoop_fuel (r.steps + extra) [] r
      (by simp only [BufReader.steps]; split <;> omega)
    exact h.symm.trans ih

/-- The fuel of the relay loop suffices. -/
theorem relayAndClose_fuel (env : ProxyEnv) (pending : List (List Nat)) (extra : Nat) :
    relayLoop env ((pending.map List.length).sum + pending.length + 1 + extra) pending 0
        ++ [.sendClose]
      = relayAndClose env pending := by
  induction extra with
  | zero => rfl
  | succ extra ih =>
    have h := relayLoop_fuel env ((pending.map List.length).sum + pending.length + 1 + extra)
      pending 0 (by omega)
    exact (congrArg (fun l => l ++ [ProxyEvent.sendClose]) h.symm).trans ih

/-- A `Read` into a buffer with room consumes a byte or a read of the underlying
reader. -/
theorem BufReader.read_consumes (r : BufReader) (k : Nat) (hk : 0 < k) (d : List Nat)
    (r2 : BufReader) (h : r.read k = some (d, r2)) :
    r2.buf.length + (r2.pending.map List.length).sum + r2.pending.length
      < r.buf.length + (r.pending.map List.length).sum + r.pending.length := by
  obtain ⟨buf, pending⟩ := r
  rw [BufReader.read] at h
  by_cases hb : buf = []
  · subst hb
    simp only [if_true] at h
    cases pending with
    | nil => split at h <;> simp [readChunk] at h
    | cons c rest =>
      simp only [readChunk_cons] at h
      by_cases hkb : k ≥ bufSize
      · simp only [hkb, if_true] at h
        by_cases hc : c.length ≤ k
        · simp only [hc, if_true, Option.some.injEq, Prod.mk.injEq] at h
          obtain ⟨_, rfl⟩ := h
          simp only [List.length_nil, List.map_cons, List.sum_cons, List.length_cons]
          omega
        · simp only [hc, if_false, Option.some.injEq, Prod.mk.injEq] at h
          obtain ⟨_, rfl⟩ := h
          simp only [List.length_nil, List.map_cons, List.sum_cons, List.length_cons,
            List.length_drop]
          omega
      · simp only [hkb, if_false] at h
        by_cases hc : c.length ≤ bufSize
        · simp only [hc, if_true, Option.some.injEq, Prod.mk.injEq] at h
          obtain ⟨_, rfl⟩ := h
          simp only [List.length_nil, List.map_cons, List.sum_cons, List.length_cons,
            List.length_drop]
          omega
        · simp only [hc, if_false, Option.some.injEq, Prod.mk.injEq] at h
          obtain ⟨_, rfl⟩ := h
          simp only [List.length_nil, List.map_cons, List.sum_cons, List.length_cons,
            List.length_drop, List.length_take]
          omega
  · simp only [hb, if_false, Option.some.injEq, Prod.mk.injEq] at h
    obtain ⟨_, rfl⟩ := h
    have : 0 < buf.length := List.length_pos.mpr hb
    simp only [List.length_drop]
    omega

/-- The fuel that `readFull` gives to its loop is never used up. -/
theorem readFullLoop_fuel :
    ∀ (fuel : Nat) (r : BufReader) (k : Nat) (acc : List Nat),
      r.buf.length + (r.pending.map List.length).sum + r.pending.length < fuel →
      readFullLoop fuel r k acc = readFullLoop (fuel + 1) r k acc := by
  intro fuel
  induction fuel with
  | zero => intro r k acc h; omega
  | succ fuel ih =>
    intro r k acc h
    rw [readFullLoop, readFullLoop]
    by_cases hk : k = 0
    · simp only [hk, if_true]
    · simp only [hk, if_false]
      cases hr : r.read k with
      | none => rfl
      | some res =>
        obtain ⟨d, r2⟩ := res
        have := r.read_consumes k (Nat.pos_of_ne_zero hk) d r2 hr
        exact ih _ _ _ (by omega)

/-- The fuel of `io.ReadFull` suffices: with any additional fuel the loop returns what
`readFull` returns. -/
theorem readFull_fuel (r : BufReader) (n extra : Nat) :
    readFullLoop (r.steps + 1 + extra) r n [] = r.readFull n := by
  induction extra with
  | zero => rfl
  | succ extra ih =>
    have h := readFullLoop_fuel (r.steps + 1 + extra) r n []
      (by simp only [BufReader.steps]; omega)
    exact h.symm.trans ih

/-! ## The HTTP handlers on particular requests -/

/-- C13, the failing input: for `GET http://[2001:db8::1]/` the host of the URL is the
bracketed literal, which contains colons, so that no default port is added and the target
handed to the pool is `[2001:db8::1]` and not `[2001:db8::1]:80`; for the host `h` the
port is added. -/
theorem forwardTarget_ipv6_literal :
    forwardTarget ⟨goBytes "http", goBytes "[2001:db8::1]", goBytes "/", []⟩
      = goBytes "[2001:db8::1]" ∧
    forwardTarget ⟨goBytes "https", goBytes "[2001:db8::1]", goBytes "/", []⟩
      = goBytes "[2001:db8::1]" ∧
    handleHTTPProtocol exampleProxyEnv ⟨"", "", ""⟩ 71
        [goBytes "ET http://[2001:db8::1]/ HTTP/1.1\r\n\r\n"]
      = [.registerAndClaim (goBytes "[2001:db8::1]")
          (goBytes "GET / HTTP/1.1\r\nHost: [2001:db8::1]\r\n\r\n"), .sendClose] ∧
    forwardTarget ⟨goBytes "http", goBytes "h", goBytes "/p", []⟩ = goBytes "h:80" := by
  decide

/-- C14, the failing input: with `Content-Length: 10485760` (10 MiB) the test
`length < 10*1024*1024` fails, so that whatever the client sends no body byte is read and
the forwarded request has no body; a length below the bound is read from the buffered
reader. -/
theorem readBody_at_ten_MiB (reader : BufReader) :
    sscanfInt (goBytes "10485760") = some (10 * 1024 * 1024) ∧
    readBody [(goBytes "Content-Length", goBytes "10485760")] reader = .ok ([], reader) ∧
    rebuildRequest (fun h => h) (goBytes "POST")
        ⟨goBytes "http", goBytes "h", goBytes "/p", []⟩
        [(goBytes "Content-Length", goBytes "10485760")] []
      = goBytes "POST /p HTTP/1.1\r\nContent-Length: 10485760\r\nHost: h\r\n\r\n" ∧
    readBody [(goBytes "Content-Length", goBytes "5")] ⟨goBytes "hel", [goBytes "lo, world"]⟩
      = .ok (goBytes "hello", ⟨goBytes ", world", []⟩) := by
  have hscan : sscanfInt (goBytes "10485760") = some (10 * 1024 * 1024) := by decide
  have hget : headerGet [(goBytes "Content-Length", goBytes "10485760")]
      (goBytes "Content-Length") = some (goBytes "10485760") := by decide
  refine ⟨hscan, ?_, by decide, by decide⟩
  simp only [readBody, hget, hscan, Option.getD_some]
  norm_num

/-- C19, the failing input: two requests that differ only in the value of the header
`proxy-authorization`.  The header name is compared with `Proxy-Authorization` byte by
byte, so that the header is forwarded and the two first frames differ in the credential;
a header `proxy-connection` is forwarded as well. -/
theorem handleHTTPForward_lower_case_proxy_headers :
    handleHTTPProtocol exampleProxyEnv ⟨"", "", ""⟩ 71
        [goBytes "ET http://h/p HTTP/1.1\r\nHost: h\r\nproxy-authorization: Basic dTpw\r\n\r\n"]
      = [.registerAndClaim (goBytes "h:80")
          (goBytes "GET /p HTTP/1.1\r\nHost: h\r\nproxy-authorization: Basic dTpw\r\n\r\n"),
         .sendClose] ∧
    handleHTTPProtocol exampleProxyEnv ⟨"", "", ""⟩ 71
        [goBytes "ET http://h/p HTTP/1.1\r\nHost: h\r\nproxy-authorization: Basic eDp5\r\n\r\n"]
      = [.registerAndClaim (goBytes "h:80")
          (goBytes "GET /p HTTP/1.1\r\nHost: h\r\nproxy-authorization: Basic eDp5\r\n\r\n"),
         .sendClose] ∧
    handleHTTPProtocol exampleProxyEnv ⟨"", "", ""⟩ 71
        [goBytes "ET http://h/p HTTP/1.1\r\nHost: h\r\nproxy-connection: keep-alive\r\n\r\n"]
      = [.registerAndClaim (goBytes "h:80")
          (goBytes "GET /p HTTP/1.1\r\nHost: h\r\nproxy-connection: keep-alive\r\n\r\n"),
         .sendClose] ∧
    handleHTTPProtocol exampleProxyEnv ⟨"", "", ""⟩ 71
        [goBytes "ET http://h/p HTTP/1.1\r\nHost: h\r\nProxy-Authorization: Basic dTpw\r\n\r\n"]
      = [.registerAndClaim (goBytes "h:80") (goBytes "GET /p HTTP/1.1\r\nHost: h\r\n\r\n"),
         .sendClose] := by
  decide

/-- C20, the failing input: the client sends `HELLO` right behind the blank line of its
CONNECT request, in the same segment.  The buffered reader takes the bytes with the
headers, the relay loop reads from the connection, and `HELLO` is never handed to the
pool; bytes that arrive in a later read are forwarded. -/
theorem handleHTTPConnect_drops_buffered_bytes :
    handleHTTPProtocol exampleProxyEnv ⟨"", "", ""⟩ 67
        [goBytes "ONNECT h:443 HTTP/1.1\r\n\r\nHELLO"]
      = [.registerAndClaim (goBytes "h:443") [],
         .write (goBytes "HTTP/1.1 200 Connection Established\r\n\r\n"), .sendClose] ∧
    handleHTTPProtocol exampleProxyEnv ⟨"", "", ""⟩ 67
        [goBytes "ONNECT h:443 HTTP/1.1\r\n\r\nHELLO", goBytes "WORLD"]
      = [.registerAndClaim (goBytes "h:443") [],
         .write (goBytes "HTTP/1.1 200 Connection Established\r\n\r\n"),
         .sendData (goBytes "WORLD") true, .sendClose] ∧
    handleHTTPProtocol exampleProxyEnv ⟨"", "", ""⟩ 67
        [goBytes "ONNECT h:443 HTTP/1.1\r\n\r\n", goBytes "HELLO"]
      = [.registerAndClaim (goBytes "h:443") [],
         .write (goBytes "HTTP/1.1 200 Connection Established\r\n\r\n"),
         .sendData (goBytes "HELLO") true, .sendClose] := by
  decide

/-! ## SOCKS5 UDP -/

/-- C15, the failing input: the request `00 00 00 03 01 61 00 35` (domain `a`, port 53,
no payload) is well formed and has 8 bytes; the test `len(packet) < 10` rejects it, and
so it does the 9 byte requests with a 2 byte domain or with one byte of payload.  A
request of 10 bytes with the same name is parsed. -/
theorem parseSOCKS5UDPPacket_short_domain (lib : NetLib) :
    parseSOCKS5UDPPacket lib [0, 0, 0, 0x03, 1, 97, 0, 53] = some (.error "数据包太短") ∧
    parseSOCKS5UDPPacket lib [0, 0, 0, 0x03, 2, 97, 98, 0, 53] = some (.error "数据包太短") ∧
    parseSOCKS5UDPPacket lib [0, 0, 0, 0x03, 1, 97, 0, 53, 7] = some (.error "数据包太短") ∧
    parseSOCKS5UDPPacket lib [0, 0, 0, 0x03, 1, 97, 0, 53, 7, 8]
      = some (.ok (goBytes "a:53", [7, 8])) := by
  refine ⟨rfl, rfl, rfl, ?_⟩
  have h : goBytes "a:53" = [97] ++ goBytes ":" ++ decimal 53 := by decide
  rw [h]
  rfl

/-- Once the client address is set no step of a run changes it. -/
theorem handleUDPRelay_client_fixed {Addr : Type} (str : Addr → String)
    (steps : List (RelayStep Addr)) :
    ∀ (st : RelayState Addr) (client : Addr), st.clientUDPAddr = some client →
      (steps.foldl (handleUDPRelayStep str) st).clientUDPAddr = some client := by
  induction steps with
  | nil => intro st client h; exact h
  | cons s steps ih =>
    intro st client h
    rw [List.foldl_cons]
    apply ih
    cases s with
    | receive d =>
      simp only [handleUDPRelayStep, h]
      split <;> exact rfl
    | run i =>
      simp only [handleUDPRelayStep]
      split <;> exact h

/-- C16, the failing run: the client `127.0.0.1:40000` sends a request for `1.2.3.4:53`,
and a datagram of another source, `127.0.0.1:40001`, with a request for `5.6.7.8:53`
arrives before the goroutine started for the first datagram has read its packet.  The
first datagram fixes the client address, which no later step changes, and the second one
starts no goroutine; but `ReadFromUDP` has written it into the one receive buffer of which
the goroutine holds a slice, so that `handleUDPPacket` reads the bytes of the other source
and sends OPEN_UDP for `5.6.7.8:53` and its payload `02` to the pool.  When the
goroutine runs before the second datagram arrives it reads the packet of the client. -/
theorem handleUDPRelay_shared_buffer (d : Datagram String) (steps : List (RelayStep String)) :
    (handleUDPRelay (fun a => a) (.receive d :: steps)).clientUDPAddr = some d.src ∧
    (handleUDPRelay (fun a => a)
        [.receive ⟨"127.0.0.1:40000", [0, 0, 0, 1, 1, 2, 3, 4, 0, 53, 1]⟩,
         .receive ⟨"127.0.0.1:40001", [0, 0, 0, 1, 5, 6, 7, 8, 0, 53, 2]⟩]).started
      = [11] ∧
    (handleUDPRelay (fun a => a)
        [.receive ⟨"127.0.0.1:40000", [0, 0, 0, 1, 1, 2, 3, 4, 0, 53, 1]⟩,
         .receive ⟨"127.0.0.1:40001", [0, 0, 0, 1, 5, 6, 7, 8, 0, 53, 2]⟩,
         .run 0]).handled
      = [[0, 0, 0, 1, 5, 6, 7, 8, 0, 53, 2]] ∧
    handleUDPPacket exampleNetLib ⟨none, fun _ => none⟩ ⟨false, false⟩ 0
        [0, 0, 0, 1, 5, 6, 7, 8, 0, 53, 2]
      = some (⟨false, true⟩, [.udpConnect (goBytes "5.6.7.8:53") true, .udpData [2] true]) ∧
    (handleUDPRelay (fun a => a)
        [.receive ⟨"127.0.0.1:40000", [0, 0, 0, 1, 1, 2, 3, 4, 0, 53, 1]⟩,
         .run 0,
         .receive ⟨"127.0.0.1:40001", [0, 0, 0, 1, 5, 6, 7, 8, 0, 53, 2]⟩]).handled
      = [[0, 0, 0, 1, 1, 2, 3, 4, 0, 53, 1]] := by
  refine ⟨?_, by decide, by decide, by decide, by decide⟩
  exact handleUDPRelay_client_fixed (fun a => a) steps _ d.src rfl

/-- C17, the failing run: two calls of `sendUDPData` where `SendUDPConnect` of the first
call returns an error.  The first call has set `receiving` before the pool call, so that
the second call sends UDP_DATA although no OPEN_UDP was sent successfully; OPEN_UDP is
issued on the first call only. -/
theorem sendUDPData_after_failed_connect :
    sendUDPDataCalls ⟨some "no channel", fun _ => none⟩ ⟨false, false⟩ 0
        [(goBytes "1.2.3.4:53", [1]), (goBytes "1.2.3.4:53", [2])]
      = [.udpConnect (goBytes "1.2.3.4:53") false, .udpData [2] true] ∧
    sendUDPData ⟨some "no channel", fun _ => none⟩ ⟨false, false⟩ 0 (goBytes "1.2.3.4:53") [1]
      = (⟨false, true⟩, [.udpConnect (goBytes "1.2.3.4:53") false],
          some "发送UDP_CONNECT失败: no channel") ∧
    sendUDPDataCalls ⟨none, fun _ => none⟩ ⟨false, false⟩ 0
        [(goBytes "1.2.3.4:53", [1]), (goBytes "1.2.3.4:53", [2])]
      = [.udpConnect (goBytes "1.2.3.4:53") true, .udpData [1] true, .udpData [2] true] := by
  decide

/-- C18, the failing input: the address `[2001:db8::1]:53` of an inbound UDP_DATA frame
splits at `:` into five parts, not two, so that `handleUDPResponse` returns before it
builds a packet and nothing is sent to the client; for `1.2.3.4:53` and for a domain name
the reply is built and sent. -/
theorem handleUDPResponse_ipv6_dropped (lib : NetLib) (hasClient writeFails : Bool)
    (data : List Nat) :
    (goBytes "[2001:db8::1]:53").splitOn 58
      = [goBytes "[2001", goBytes "db8", [], goBytes "1]", goBytes "53"] ∧
    handleUDPResponse lib hasClient writeFails (goBytes "[2001:db8::1]:53") data
      = .invalidAddress ∧
    handleUDPResponse exampleNetLib true false (goBytes "1.2.3.4:53") [9]
      = .sent [0, 0, 0, 0x01, 1, 2, 3, 4, 0, 53, 9] ∧
    handleUDPResponse exampleNetLib true false (goBytes "example.com:53") [9]
      = .sent ([0, 0, 0, 0x03, 11] ++ goBytes "example.com" ++ [0, 53, 9]) := by
  have hsplit : (goBytes "[2001:db8::1]:53").splitOn 58
      = [goBytes "[2001", goBytes "db8", [], goBytes "1]", goBytes "53"] := by decide
  refine ⟨hsplit, ?_, by decide, by decide⟩
  simp only [handleUDPResponse, hsplit]

/-! ## The parsers return on every input -/

theorem goSlice_of_le (data : List Nat) (lo hi : Nat) (h1 : lo ≤ hi) (h2 : hi ≤ data.length) :
    goSlice data lo hi = some ((data.drop lo).take (hi - lo)) := by
  simp [goSlice, h1, h2]

theorem beUint16_slice (data : List Nat) (lo : Nat) (h : lo + 2 ≤ data.length) :
    ∃ v, (goSlice data lo (lo + 2)).bind beUint16 = some v := by
  rw [goSlice_of_le data lo (lo + 2) (by omega) h]
  have hl : ((data.drop lo).take (lo + 2 - lo)).length = 2 := by
    simp only [List.length_take, List.length_drop]
    omega
  obtain ⟨x, y, hxy⟩ := List.length_eq_two.mp hl
  rw [hxy]
  exact ⟨_, rfl⟩

/-- The label loop reads inside the data only. -/
theorem skipLabels_returns :
    ∀ (fuel : Nat) (data : List Nat) (offset : Nat), ∃ o, skipLabels fuel data offset = some o := by
  intro fuel
  induction fuel with
  | zero => intro data offset; exact ⟨_, rfl⟩
  | succ fuel ih =>
    intro data offset
    rw [skipLabels]
    by_cases h : offset < data.length
    · simp only [h, if_true, List.getElem?_eq_getElem]
      by_cases hb : data[offset] = 0
      · simp only [hb, ne_eq, not_true_eq_false, if_false]
        exact ⟨_, rfl⟩
      · simp only [ne_eq, hb, not_false_eq_true, if_true]
        exact ih _ _
    · simp only [h, if_false]
      exact ⟨_, rfl⟩

/-- The SvcParams loop reads and slices inside the data only. -/
theorem svcParamsLoop_returns :
    ∀ (fuel : Nat) (data : List Nat) (offset : Nat),
      ∃ s, svcParamsLoop fuel data offset = some s := by
  intro fuel
  induction fuel with
  | zero => intro data offset; exact ⟨_, rfl⟩
  | succ fuel ih =>
    intro data offset
    rw [svcParamsLoop]
    by_cases h : offset + 4 ≤ data.length
    · obtain ⟨key, hkey⟩ := beUint16_slice data offset (by omega)
      obtain ⟨length, hlength⟩ := beUint16_slice data (offset + 2) (by omega)
      simp only [h, if_true, Option.bind_eq_bind, hkey, Option.some_bind, hlength]
      by_cases hl : offset + 4 + length > data.length
      · simp only [hl, if_true]
        exact ⟨_, rfl⟩
      · simp only [hl, if_false]
        rw [goSlice_of_le data (offset + 4) (offset + 4 + length) (by omega) (by omega)]
        simp only [Option.some_bind]
        by_cases hk : key = 5
        · simp only [hk, if_true]
          exact ⟨_, rfl⟩
        · simp only [hk, if_false]
          exact ih _ _
    · simp only [h, if_false]
      exact ⟨_, rfl⟩

/-- The function `parseHTTPSRecord` returns on every input. -/
theorem parseHTTPSRecord_returns (data : List Nat) : ∃ s, parseHTTPSRecord data = some s := by
  rw [parseHTTPSRecord]
  by_cases h : data.length < 2
  · simp only [h, if_true]
    exact ⟨_, rfl⟩
  · simp only [h, if_false, Option.bind_eq_bind]
    obtain ⟨o, ho⟩ := skipLabels_returns data.length data 2
    by_cases h2 : 2 < data.length
    · simp only [h2, if_true, List.getElem?_eq_getElem, Option.map_some', Option.some_bind, ho]
      split
      · exact svcParamsLoop_returns _ _ _
      · exact svcParamsLoop_returns _ _ _
    · simp only [h2, if_false, Option.some_bind, Bool.false_eq_true, ho, Option.map_some']
      exact svcParamsLoop_returns _ _ _

theorem skipOwnerName_returns (response : List Nat) (offset : Nat) (h : offset < response.length) :
    ∃ o, skipOwnerName response offset = some o := by
  rw [skipOwnerName]
  simp only [Option.bind_eq_bind, List.getElem?_eq_getElem, h, Option.some_bind]
  by_cases hb : response[offset] &&& 0xC0 = 0xC0
  · simp only [hb, if_true]
    exact ⟨_, rfl⟩
  · obtain ⟨o, ho⟩ := skipLabels_returns response.length response offset
    simp only [hb, if_false, ho, Option.map_some']
    exact ⟨_, rfl⟩

/-- The answer loop reads and slices inside the response only. -/
theorem answersLoop_returns :
    ∀ (n : Nat) (response : List Nat) (offset : Nat),
      ∃ r, answersLoop n response offset = some r := by
  intro n
  induction n with
  | zero => intro response offset; exact ⟨_, rfl⟩
  | succ n ih =>
    intro response offset
    rw [answersLoop]
    by_cases h : offset ≥ response.length
    · simp only [h, if_true]
      exact ⟨_, rfl⟩
    · obtain ⟨o, ho⟩ := skipOwnerName_returns response offset (by omega)
      simp only [h, if_false, Option.bind_eq_bind, ho, Option.some_bind]
      by_cases h10 : o + 10 > response.length
      · simp only [h10, if_true]
        exact ⟨_, rfl⟩
      · obtain ⟨rrType, hty⟩ := beUint16_slice response o (by omega)
        obtain ⟨dataLen, hlen⟩ := beUint16_slice response (o + 8) (by omega)
        simp only [h10, if_false, hty, Option.some_bind, hlen]
        by_cases hd : o + 8 + 2 + dataLen > response.length
        · simp only [hd, if_true]
          exact ⟨_, rfl⟩
        · simp only [hd, if_false]
          rw [goSlice_of_le response (o + 8 + 2) (o + 8 + 2 + dataLen) (by omega) (by omega)]
          simp only [Option.some_bind]
          by_cases ht : rrType = typeHTTPS
          · obtain ⟨ech, hech⟩ := parseHTTPSRecord_returns
              ((response.drop (o + 8 + 2)).take (o + 8 + 2 + dataLen - (o + 8 + 2)))
            simp only [ht, if_true, hech, Option.some_bind]
            by_cases he : ech = ""
            · simp only [he, ne_eq, not_true_eq_false, if_false]
              exact ih _ _
            · simp only [ne_eq, he, not_false_eq_true, if_true]
              exact ⟨_, rfl⟩
          · simp only [ht, if_false]
            exact ih _ _

/-- The function `parseDNSResponse` returns on every input. -/
theorem parseDNSResponse_returns (response : List Nat) :
    ∃ r, parseDNSResponse response = some r := by
  rw [parseDNSResponse]
  by_cases h : response.length < 12
  · simp only [h, if_true]
    exact ⟨_, rfl⟩
  · obtain ⟨ancount, han⟩ := beUint16_slice response 6 (by omega)
    simp only [h, if_false, Option.bind_eq_bind, han, Option.some_bind]
    by_cases h0 : ancount = 0
    · simp only [h0, if_true]
      exact ⟨_, rfl⟩
    · obtain ⟨o, ho⟩ := skipLabels_returns response.length response 12
      simp only [h0, if_false, skipQuestion, ho, Option.map_some', Option.some_bind]
      exact answersLoop_returns _ _ _

theorem readAddress_returns (lib : NetLib) (packet : List Nat) (atyp offset : Nat) :
    ∃ r, readAddress lib packet atyp offset = some r := by
  rw [readAddress]
  by_cases h4 : atyp = IPv4Addr
  · simp only [h4, if_true]
    by_cases hl : packet.length < offset + 4
    · simp only [hl, if_true]
      exact ⟨_, rfl⟩
    · simp only [hl, if_false, Option.bind_eq_bind]
      rw [goSlice_of_le packet offset (offset + 4) (by omega) (by omega)]
      exact ⟨_, rfl⟩
  · simp only [h4, if_false]
    by_cases hd : atyp = DomainAddr
    · simp only [hd, if_true]
      by_cases hl : packet.length < offset + 1
      · simp only [hl, if_true]
        exact ⟨_, rfl⟩
      · have hlt : offset < packet.length := by omega
        simp only [hl, if_false, Option.bind_eq_bind, List.getElem?_eq_getElem, hlt,
          Option.some_bind]
        by_cases hn : packet.length < offset + 1 + packet[offset]
        · simp only [hn, if_true]
          exact ⟨_, rfl⟩
        · simp only [hn, if_false]
          rw [goSlice_of_le packet (offset + 1) (offset + 1 + packet[offset]) (by omega)
            (by omega)]
          exact ⟨_, rfl⟩
    · simp only [hd, if_false]
      by_cases h6 : atyp = IPv6Addr
      · simp only [h6, if_true]
        by_cases hl : packet.length < offset + 16
        · simp only [hl, if_true]
          exact ⟨_, rfl⟩
        · simp only [hl, if_false, Option.bind_eq_bind]
          rw [goSlice_of_le packet offset (offset + 16) (by omega) (by omega)]
          exact ⟨_, rfl⟩
      · simp only [h6, if_false]
        exact ⟨_, rfl⟩

/-- The function `parseSOCKS5UDPPacket` returns on every input. -/
theorem parseSOCKS5UDPPacket_returns (lib : NetLib) (packet : List Nat) :
    ∃ r, parseSOCKS5UDPPacket lib packet = some r := by
  rw [parseSOCKS5UDPPacket]
  by_cases h : packet.length < 10
  · simp only [h, if_true]
    exact ⟨_, rfl⟩
  · have e0 : packet[0]? = some packet[0] := List.getElem?_eq_getElem (by omega)
    have e1 : packet[1]? = some packet[1] := List.getElem?_eq_getElem (by omega)
    have e2 : packet[2]? = some packet[2] := List.getElem?_eq_getElem (by omega)
    have e3 : packet[3]? = some packet[3] := List.getElem?_eq_getElem (by omega)
    rw [if_neg h, e0, e1, e2, e3]
    simp only [Option.bind_eq_bind, Option.some_bind]
    split
    · exact ⟨_, rfl⟩
    · split
      · exact ⟨_, rfl⟩
      · obtain ⟨address, ha⟩ := readAddress_returns lib packet packet[3] 4
        rw [ha]
        simp only [Option.some_bind]
        cases address with
        | error err => exact ⟨_, rfl⟩
        | ok res =>
          obtain ⟨host, offset⟩ := res
          simp only
          by_cases hp : packet.length < offset + 2
          · rw [if_pos hp]
            exact ⟨_, rfl⟩
          · have p0 : packet[offset]? = some packet[offset] :=
              List.getElem?_eq_getElem (by omega)
            have p1 : packet[offset + 1]? = some packet[offset + 1] :=
              List.getElem?_eq_getElem (by omega)
            rw [if_neg hp, p0, p1,
              goSlice_of_le packet (offset + 2) packet.length (by omega) (le_refl _)]
            exact ⟨_, rfl⟩

theorem skipLabels_fuel_add (data : List Nat) (offset extra : Nat) :
    skipLabels (data.length + extra) data offset = skipLabels data.length data offset := by
  induction extra with
  | zero => rfl
  | succ extra ih =>
    have h := skipLabels_fuel (data.length + extra) data offset (by omega)
    exact h.trans ih

theorem svcParamsLoop_fuel_add (data : List Nat) (offset extra : Nat) :
    svcParamsLoop (data.length + extra) data offset = svcParamsLoop data.length data offset := by
  induction extra with
  | zero => rfl
  | succ extra ih =>
    have h := svcParamsLoop_fuel (data.length + extra) data offset (by omega)
    exact h.trans ih

/-- C21: on every input `parseDNSResponse`, `parseHTTPSRecord` and `parseSOCKS5UDPPacket`
return a value or an error: no index and no slice expression leaves the input (a panic
is the result `none`).  The label loop and the SvcParams loop advance their offset in
every iteration, so that they end within as many iterations as the input has bytes:
more fuel than that changes nothing.  The answer loop runs at most `ancount` times. -/
theorem parsers_return_on_every_input (lib : NetLib) (input : List Nat) :
    (∃ r, parseDNSResponse input = some r) ∧
    (∃ s, parseHTTPSRecord input = some s) ∧
    (∃ r, parseSOCKS5UDPPacket lib input = some r) ∧
    (∀ offset extra,
      skipLabels (input.length + extra) input offset = skipLabels input.length input offset) ∧
    (∀ offset extra,
      svcParamsLoop (input.length + extra) input offset
        = svcParamsLoop input.length input offset) :=
  ⟨parseDNSResponse_returns input, parseHTTPSRecord_returns input,
    parseSOCKS5UDPPacket_returns lib input,
    fun offset extra => skipLabels_fuel_add input offset extra,
    fun offset extra => svcParamsLoop_fuel_add input offset extra⟩

/-! ## The SOCKS5 UDP packet of an IPv4 address -/

set_option maxRecDepth 100000 in
theorem parseOctet_decimal : ∀ a < 256,
    parseOctet (decimal a) = some a ∧ decimal a ≠ [] ∧
      ∀ b ∈ decimal a, b ≠ 46 ∧ b ≠ 58 ∧ b ≠ 37 := by
  decide

theorem find?_sep_append (p : Nat → Bool) (pre post : List Nat) (x : Nat)
    (hpre : ∀ b ∈ pre, p b = false) (hx : p x = true) :
    (pre ++ x :: post).find? p = some x := by
  induction pre with
  | nil => simp [hx]
  | cons y pre ih =>
    have hy : p y = false := hpre y (by simp)
    rw [List.cons_append, List.find?_cons, hy]
    exact ih (fun b hb => hpre b (by simp [hb]))

/-- The function `net.ParseIP` on the dotted decimal text of four bytes. -/
theorem parseIP_dotted (lib : NetLib) (a b c d : Nat)
    (ha : a < 256) (hb : b < 256) (hc : c < 256) (hd : d < 256) :
    parseIP lib (decimal a ++ goBytes "." ++ decimal b ++ goBytes "." ++ decimal c
        ++ goBytes "." ++ decimal d)
      = some (List.replicate 10 0 ++ [0xff, 0xff] ++ [a, b, c, d]) := by
  have hdot : goBytes "." = [46] := by decide
  obtain ⟨pa, _, na⟩ := parseOctet_decimal a ha
  obtain ⟨pb, _, nb⟩ := parseOctet_decimal b hb
  obtain ⟨pc, _, nc⟩ := parseOctet_decimal c hc
  obtain ⟨pd, _, nd⟩ := parseOctet_decimal d hd
  have hhost : decimal a ++ goBytes "." ++ decimal b ++ goBytes "." ++ decimal c
      ++ goBytes "." ++ decimal d
      = List.intercalate [46] [decimal a, decimal b, decimal c, decimal d] := by
    simp [hdot, List.intercalate, List.intersperse]
  have hsplit : (decimal a ++ goBytes "." ++ decimal b ++ goBytes "." ++ decimal c
      ++ goBytes "." ++ decimal d).splitOn 46
      = [decimal a, decimal b, decimal c, decimal d] := by
    rw [hhost]
    refine List.splitOn_intercalate [decimal a, decimal b, decimal c, decimal d] 46 ?_ (by simp)
    intro l hl
    simp only [List.mem_cons, List.mem_singleton, List.not_mem_nil, or_false] at hl
    rcases hl with rfl | rfl | rfl | rfl
    · exact fun h => (na 46 h).1 rfl
    · exact fun h => (nb 46 h).1 rfl
    · exact fun h => (nc 46 h).1 rfl
    · exact fun h => (nd 46 h).1 rfl
  have hfind : (decimal a ++ goBytes "." ++ decimal b ++ goBytes "." ++ decimal c
      ++ goBytes "." ++ decimal d).find? (fun b => b == 46 || b == 58 || b == 37)
      = some 46 := by
    have hassoc : decimal a ++ goBytes "." ++ decimal b ++ goBytes "." ++ decimal c
        ++ goBytes "." ++ decimal d
        = decimal a ++ 46 :: (decimal b ++ goBytes "." ++ decimal c ++ goBytes "."
            ++ decimal d) := by
      simp [hdot]
    rw [hassoc]
    refine find?_sep_append _ _ _ 46 ?_ (by decide)
    intro x hx
    obtain ⟨h1, h2, h3⟩ := na x hx
    simp [h1, h2, h3]
  simp only [parseIP, hfind, parseIPv4, hsplit, pa, pb, pc, pd, Option.bind_eq_bind,
    Option.some_bind, Option.map_some']

/-- C22: for the dotted decimal text of four bytes `a.b.c.d`, a port below 65536 and any
payload, `buildSOCKS5UDPPacket` returns the packet `00 00 00 01 a b c d` followed by the
port, high byte first, and the payload, and `parseSOCKS5UDPPacket` returns for that
packet the target `a.b.c.d:port` and the payload. -/
theorem buildSOCKS5UDPPacket_parse_roundtrip (lib : NetLib) (a b c d port : Nat)
    (data : List Nat) (ha : a < 256) (hb : b < 256) (hc : c < 256) (hd : d < 256)
    (hport : port < 65536) :
    buildSOCKS5UDPPacket lib
        (decimal a ++ goBytes "." ++ decimal b ++ goBytes "." ++ decimal c ++ goBytes "."
          ++ decimal d) (port : Int) data
      = .ok ([0x00, 0x00, 0x00, 0x01, a, b, c, d, port / 256, port % 256] ++ data) ∧
    parseSOCKS5UDPPacket lib
        ([0x00, 0x00, 0x00, 0x01, a, b, c, d, port / 256, port % 256] ++ data)
      = some (.ok (decimal a ++ goBytes "." ++ decimal b ++ goBytes "." ++ decimal c
          ++ goBytes "." ++ decimal d ++ goBytes ":" ++ decimal port, data)) := by
  constructor
  · have hto4 : to4 (List.replicate 10 0 ++ [0xff, 0xff] ++ [a, b, c, d]) = some [a, b, c, d] := by
      simp [to4, List.replicate]
    have hp16 : (((port : Int) % 65536).toNat) = port := by omega
    simp only [buildSOCKS5UDPPacket, parseIP_dotted lib a b c d ha hb hc hd, hto4, hp16, IPv4Addr]
    simp
  · have hor := Nat.mul_add_lt_is_or (show port % 256 < 2 ^ 8 by omega) (port / 256)
    have hport2 : (port / 256) <<< 8 ||| port % 256 = port := by
      rw [Nat.shiftLeft_eq, Nat.mul_comm, ← hor]
      omega
    have hcons : [0x00, 0x00, 0x00, 0x01, a, b, c, d, port / 256, port % 256] ++ data
        = 0 :: 0 :: 0 :: 1 :: a :: b :: c :: d :: (port / 256) :: (port % 256) :: data := rfl
    rw [hcons]
    generalize hP : 0 :: 0 :: 0 :: 1 :: a :: b :: c :: d :: (port / 256) :: (port % 256) :: data
      = packet
    have hlength : packet.length = data.length + 10 := by subst hP; simp
    have e0 : packet[0]? = some 0 := by subst hP; rfl
    have e1 : packet[1]? = some 0 := by subst hP; rfl
    have e2 : packet[2]? = some 0 := by subst hP; rfl
    have e3 : packet[3]? = some 1 := by subst hP; rfl
    have e8 : packet[4 + 4]? = some (port / 256) := by subst hP; simp
    have e9 : packet[4 + 4 + 1]? = some (port % 256) := by subst hP; simp
    have hip : goSlice packet 4 (4 + 4) = some [a, b, c, d] :=
      goSlice_at packet [0, 0, 0, 1] [a, b, c, d] ((port / 256) :: (port % 256) :: data) 4 (4 + 4)
        (by subst hP; rfl) rfl rfl
    have hdata : goSlice packet (4 + 4 + 2) packet.length = some data :=
      goSlice_at packet [0, 0, 0, 1, a, b, c, d, port / 256, port % 256] data [] (4 + 4 + 2)
        packet.length (by subst hP; simp) rfl (by rw [hlength]; omega)
    have hto4 : to4 [a, b, c, d] = some [a, b, c, d] := by simp [to4]
    have hra : readAddress lib packet 1 4 = some (.ok (ipString lib [a, b, c, d], 4 + 4)) := by
      rw [readAddress, if_pos (by rfl), if_neg (by omega), hip]
      rfl
    rw [parseSOCKS5UDPPacket, if_neg (by omega), e0, e1, e2, e3]
    simp only [Option.bind_eq_bind, Option.some_bind, ne_eq, not_true_eq_false, or_self, if_false,
      hra]
    rw [if_neg (by omega), e8, e9]
    simp only [Option.some_bind, hdata, hport2, IPv6Addr, ipString, hto4]
    simp

/-- Witness of C22: the address `1.2.3.4`, port 53 and the payload `09`. -/
theorem buildSOCKS5UDPPacket_parse_roundtrip_witness :
    (1 < 256 ∧ 2 < 256 ∧ 3 < 256 ∧ 4 < 256 ∧ 53 < 65536) ∧
    buildSOCKS5UDPPacket exampleNetLib (goBytes "1.2.3.4") 53 [9]
      = .ok [0, 0, 0, 1, 1, 2, 3, 4, 0, 53, 9] ∧
    parseSOCKS5UDPPacket exampleNetLib [0, 0, 0, 1, 1, 2, 3, 4, 0, 53, 9]
      = some (.ok (goBytes "1.2.3.4:53", [9])) :=
  ⟨by decide,
    buildSOCKS5UDPPacket_parse_roundtrip exampleNetLib 1 2 3 4 53 [9]
      (by decide) (by decide) (by decide) (by decide) (by decide)⟩

end EchTunnel
